import Mathlib

/-!
# PhoenixCore: batch geometry and the optimizing batch renderer

A shallow embedding of `source/BatchGeometry.h` and `source/BatchRenderer.h`.

* Geometries live in a heap (`World.heap`); a `Handle` stands for a
  `boost::shared_ptr<BatchGeometry>` and is compared by identity.
* The renderer's graph is the four-level nested map of the header
  (`BATCHMAPDELTA` down to `GEOMCONTAINER`).  Maps are association lists; the
  depth level is kept in ascending key order (`std::map`), the three
  `boost::unordered_map` levels keep one admissible iteration order.
* Side effects that leave the program (user callables, calls into the
  renderer, graphics calls) are recorded in `World.trace`.
-/

namespace Phoenix

/-! ## Scalars, vertices, textures -/

/-- Depth key of the graph.  The source type is `float`; the graph only ever
compares depths with `==` and `<`, and NaN is excluded, so the key is modelled
by a linearly ordered type. -/
abbrev Depth := Int

/-- Identity of a `boost::shared_ptr<BatchGeometry>`: the index of the object in
the heap. -/
abbrev Handle := Nat

/-- Modelled from the spec: `Vertex.h` is not among the sources. Position (x, y),
colour (r, g, b, a as 8-bit channels) and texture coordinates (u, v); a plain
value. Coordinates are exact rationals. -/
structure Vertex where
  x : ℚ
  y : ℚ
  r : Nat
  g : Nat
  b : Nat
  a : Nat
  u : ℚ
  v : ℚ
deriving DecidableEq, Repr

/-- Modelled from the spec: `Texture.h` is not among the sources. A texture as far
as the geometry consults it: it exposes its texture id
(`Texture::getTextureId`). -/
structure Texture where
  textureId : Nat
deriving DecidableEq, Repr

/-- A user callable `boost::function<void()>`, identified by a label. Invoking it
is recorded in the trace. -/
abbrev Callable := Nat

/-! ## Tracking invariant -/

/-- Modelled from the spec: `TrackingInvariant.h` is not among the sources. A value
holder with a current value and the value observed at the last reset. -/
structure TrackingInvariant (α : Type) where
  value : α
  previous : α
deriving DecidableEq, Repr

namespace TrackingInvariant

/-- Modelled from the spec: `TrackingInvariant.h` is not among the sources.
Construction sets both the current and the last-observed value. -/
def init {α : Type} (v : α) : TrackingInvariant α := { value := v, previous := v }

/-- Modelled from the spec: `TrackingInvariant.h` is not among the sources.
*write*: sets the current value and does not alter last-observed. -/
def set {α : Type} (t : TrackingInvariant α) (v : α) : TrackingInvariant α :=
  { t with value := v }

/-- Modelled from the spec: `TrackingInvariant.h` is not among the sources.
*check*: true iff current equals last-observed. -/
def check {α : Type} [DecidableEq α] (t : TrackingInvariant α) : Bool :=
  decide (t.value = t.previous)

/-- Modelled from the spec: `TrackingInvariant.h` is not among the sources.
*reset*: copies current into last-observed. -/
def reset {α : Type} (t : TrackingInvariant α) : TrackingInvariant α :=
  { t with previous := t.value }

end TrackingInvariant

/-! ## Batch geometry: the object -/

/-- The data members of `BatchGeometry` (`BatchGeometry.h`, lines 448-506), with
the `dropped` flag of its `Droppable` base. The back-reference `renderer` is
the enclosing `World`. -/
structure BatchGeometry where
  dropped : Bool
  primitivetype : TrackingInvariant Nat
  textureid : TrackingInvariant Nat
  texture : Option Texture
  groupid : TrackingInvariant Int
  depth : TrackingInvariant Depth
  enabled : Bool
  vertices : List Vertex
  immediate : Bool
  groupbegin : Option Callable
  groupend : Option Callable
deriving DecidableEq, Repr

/-- The four keys that name a bucket of the graph. -/
structure BucketKey where
  depth : Depth
  group : Int
  texture : Nat
  primitive : Nat
deriving DecidableEq, Repr

namespace BatchGeometry

/-- The private constructor (`BatchGeometry.h`, lines 509-515). -/
def new (p : Nat) (t : Option Texture) (g : Int) (d : Depth) : BatchGeometry :=
  { dropped := false
    primitivetype := TrackingInvariant.init p
    textureid := TrackingInvariant.init (match t with | some tx => tx.textureId | none => 0)
    texture := t
    groupid := TrackingInvariant.init g
    depth := TrackingInvariant.init d
    enabled := true
    vertices := []
    immediate := false
    groupbegin := none
    groupend := none }

/-- The bucket named by the current values of the four keys
(`getDepth`, `getGroup`, `getTextureId`, `getPrimitiveType`). -/
def currentKey (g : BatchGeometry) : BucketKey :=
  { depth := g.depth.value, group := g.groupid.value,
    texture := g.textureid.value, primitive := g.primitivetype.value }

/-- The bucket named by the last-observed values of the four keys. -/
def previousKey (g : BatchGeometry) : BucketKey :=
  { depth := g.depth.previous, group := g.groupid.previous,
    texture := g.textureid.previous, primitive := g.primitivetype.previous }

/-- The condition tested by `update` (line 264): all four invariants check. -/
def allCheck (g : BatchGeometry) : Bool :=
  g.primitivetype.check && g.textureid.check && g.groupid.check && g.depth.check

/-- Lines 270-273 of `update`: reset the four invariants. -/
def resetInvariants (g : BatchGeometry) : BatchGeometry :=
  { g with
    primitivetype := g.primitivetype.reset
    textureid := g.textureid.reset
    groupid := g.groupid.reset
    depth := g.depth.reset }

/-- `setPrimitiveType` (line 193). -/
def setPrimitiveType (g : BatchGeometry) (v : Nat) : BatchGeometry :=
  { g with primitivetype := g.primitivetype.set v }

/-- `setTexture` (lines 201-205). -/
def setTexture (g : BatchGeometry) (t : Option Texture) : BatchGeometry :=
  { g with texture := t
           textureid := g.textureid.set (match t with | some tx => tx.textureId | none => 0) }

/-- `setGroup` (line 214). -/
def setGroup (g : BatchGeometry) (v : Int) : BatchGeometry :=
  { g with groupid := g.groupid.set v }

/-- `setDepth` (line 221). -/
def setDepth (g : BatchGeometry) (v : Depth) : BatchGeometry :=
  { g with depth := g.depth.set v }

/-- `setEnabled` (line 228). -/
def setEnabled (g : BatchGeometry) (e : Bool) : BatchGeometry := { g with enabled := e }

/-- `setImmediate` (line 236). -/
def setImmediate (g : BatchGeometry) (i : Bool) : BatchGeometry := { g with immediate := i }

end BatchGeometry

/-! ## Association lists for the graph levels -/

section Maps

variable {K V : Type}

/-- Read access `m[k]` on a copy: the value stored under the first entry with key
`k`, or the default-constructed value `d`. -/
def lookupD [DecidableEq K] (k : K) (d : V) : List (K × V) → V
  | [] => d
  | e :: m => if e.1 = k then e.2 else lookupD k d m

/-- Apply `f` to the value stored under `k`; a map without `k` is left alone. -/
def modifyAt [DecidableEq K] (k : K) (f : V → V) : List (K × V) → List (K × V)
  | [] => []
  | e :: m => if e.1 = k then (e.1, f e.2) :: m else e :: modifyAt k f m

/-- The statement `f(m[k])` on a `boost::unordered_map`: the entry is created
with the default value `d` when it is missing. -/
def upsert [DecidableEq K] (k : K) (d : V) (f : V → V) : List (K × V) → List (K × V)
  | [] => [(k, f d)]
  | e :: m => if e.1 = k then (e.1, f e.2) :: m else e :: upsert k d f m

/-- Insertion of a fresh key into the depth-keyed `std::map`: before the first
larger key. -/
def insertSorted (k : Depth) (v : V) : List (Depth × V) → List (Depth × V)
  | [] => [(k, v)]
  | e :: m => if k < e.1 then (k, v) :: e :: m else e :: insertSorted k v m

/-- The statement `f(m[k])` on the depth-keyed `std::map`: an existing entry is
updated in place, a missing one is created at its sorted position. -/
def upsertOrd (k : Depth) (d : V) (f : V → V) (m : List (Depth × V)) : List (Depth × V) :=
  if k ∈ m.map Prod.fst then modifyAt k f m else insertSorted k (f d) m

/-- Sum of a measure over the values of a map. -/
def total (c : V → Nat) (m : List (K × V)) : Nat := (m.map (fun e => c e.2)).sum

end Maps

/-! ## The renderer's graph -/

/-- Line 102: `std::list< shared_ptr<BatchGeometry> >`. -/
abbrev GEOMCONTAINER := List Handle
/-- Line 103: primitive keyed. -/
abbrev BATCHMAPALPHA := List (Nat × GEOMCONTAINER)
/-- Line 104: texture keyed. -/
abbrev BATCHMAPBETA := List (Nat × BATCHMAPALPHA)
/-- Line 105: group keyed. -/
abbrev BATCHMAPGAMMA := List (Int × BATCHMAPBETA)
/-- Line 106: depth keyed (ordered). -/
abbrev BATCHMAPDELTA := List (Depth × BATCHMAPGAMMA)

instance : DecidableEq BATCHMAPALPHA := inferInstance
instance : DecidableEq BATCHMAPBETA := inferInstance
instance : DecidableEq BATCHMAPGAMMA := inferInstance
instance : DecidableEq BATCHMAPDELTA := inferInstance

/-- The bucket `geometry[depth][group][texture][primitive]`, read without
creating anything. -/
def bucketAt (G : BATCHMAPDELTA) (k : BucketKey) : GEOMCONTAINER :=
  lookupD k.primitive [] (lookupD k.texture [] (lookupD k.group [] (lookupD k.depth [] G)))

/-- Modelled from the spec: the insertion step of `BatchRenderer::addGeometry` and
`moveGeometry`, whose bodies are not among the sources. Index the four maps in
turn, creating empty buckets as needed, then append to the innermost sequence:
`geometry[depth][group][texture][primitive].push_back(h)`. -/
def graphInsert (k : BucketKey) (h : Handle) (G : BATCHMAPDELTA) : BATCHMAPDELTA :=
  upsertOrd k.depth [] (upsert k.group [] (upsert k.texture []
    (upsert k.primitive [] (fun c => c ++ [h])))) G

/-- Modelled from the spec: the removal step of `BatchRenderer::moveGeometry` and
`pruneGeometry`, whose bodies are not among the sources. Walk to the bucket
named by `k` and erase the single matching entry `h`; nothing is created on
the way. -/
def graphErase (k : BucketKey) (h : Handle) (G : BATCHMAPDELTA) : BATCHMAPDELTA :=
  modifyAt k.depth (modifyAt k.group (modifyAt k.texture
    (modifyAt k.primitive (fun c => c.erase h)))) G

/-- Handles of a primitive-keyed map, in traversal order. -/
def alphaHandles (m : BATCHMAPALPHA) : List Handle := (m.map Prod.snd).flatten
/-- Handles of a texture-keyed map, in traversal order. -/
def betaHandles (m : BATCHMAPBETA) : List Handle := (m.map (fun e => alphaHandles e.2)).flatten
/-- Handles of a group-keyed map (all groups of one depth), in traversal order. -/
def gammaHandles (m : BATCHMAPGAMMA) : List Handle := (m.map (fun e => betaHandles e.2)).flatten
/-- Every handle stored in the graph, in traversal order. -/
def graphHandles (G : BATCHMAPDELTA) : List Handle := (G.map (fun e => gammaHandles e.2)).flatten

/-- The buckets of a primitive-keyed map with their full keys, in traversal
order. -/
def alphaBuckets (d : Depth) (g : Int) (t : Nat) (m : BATCHMAPALPHA) :
    List (BucketKey × GEOMCONTAINER) :=
  m.map (fun p => (({ depth := d, group := g, texture := t, primitive := p.1 } : BucketKey), p.2))

/-- The buckets of a texture-keyed map with their full keys, in traversal order. -/
def betaBuckets (d : Depth) (g : Int) (m : BATCHMAPBETA) : List (BucketKey × GEOMCONTAINER) :=
  (m.map (fun t => alphaBuckets d g t.1 t.2)).flatten

/-- The buckets of a group-keyed map with their full keys, in traversal order. -/
def gammaBuckets (d : Depth) (m : BATCHMAPGAMMA) : List (BucketKey × GEOMCONTAINER) :=
  (m.map (fun g => betaBuckets d g.1 g.2)).flatten

/-- The buckets of the graph with their full keys, in traversal order. -/
def graphBuckets (G : BATCHMAPDELTA) : List (BucketKey × GEOMCONTAINER) :=
  (G.map (fun d => gammaBuckets d.1 d.2)).flatten

/-- No key occurs twice in a map. -/
def NodupKeys {K V : Type} (m : List (K × V)) : Prop := (m.map Prod.fst).Nodup

/-- A texture-keyed map in which no key occurs twice, at either level. -/
def betaWF (m : BATCHMAPBETA) : Prop := NodupKeys m ∧ ∀ t ∈ m, NodupKeys t.2

/-- A group-keyed map in which no key occurs twice, at any level. -/
def gammaWF (m : BATCHMAPGAMMA) : Prop := NodupKeys m ∧ ∀ g ∈ m, betaWF g.2

/-- A graph as the containers keep it: depth keys strictly ascending, and no key
twice in any of the unordered maps. -/
def graphWF (G : BATCHMAPDELTA) : Prop :=
  (G.map Prod.fst).Pairwise (fun a b => a < b) ∧ ∀ d ∈ G, gammaWF d.2

/-- Number of entries of the graph that hold `h`. -/
def graphCount (h : Handle) (G : BATCHMAPDELTA) : Nat :=
  total (total (total (total (fun c : GEOMCONTAINER => c.count h)))) G

/-! ## The world: heap, renderer, trace -/

/-- What the program does that is visible outside the graph. -/
inductive Event where
  /-- `BatchRenderer::addGeometry` was entered with this handle. -/
  | addGeometry (h : Handle)
  /-- `BatchRenderer::removeGeometry` was entered with this handle. -/
  | removeGeometry (h : Handle)
  /-- `BatchRenderer::moveGeometry` was entered with this handle. -/
  | moveGeometry (h : Handle)
  /-- A user callable was invoked. -/
  | call (f : Callable)
  /-- The draw routine called `groupBegin()` on this geometry. -/
  | groupBegin (h : Handle)
  /-- The draw routine called `groupEnd()` on this geometry. -/
  | groupEnd (h : Handle)
  /-- The draw routine called `batch` on this geometry, which appended `vs`. -/
  | batch (h : Handle) (vs : List Vertex)
  /-- The texture with this id was bound. -/
  | bindTexture (t : Nat)
  /-- One draw call: primitive type and vertex stream. -/
  | drawPrimitive (p : Nat) (vs : List Vertex)
deriving DecidableEq, Repr

/-- The data members of `BatchRenderer` (`BatchRenderer.h`, lines 109-112). -/
structure BatchRenderer where
  geometry : BATCHMAPDELTA
  recyclelist : List Handle
deriving DecidableEq, Repr

/-- One renderer, the geometries bound to it, and the trace of effects. -/
structure World where
  heap : List BatchGeometry
  renderer : BatchRenderer
  trace : List Event
deriving DecidableEq, Repr

namespace World

/-- A freshly constructed renderer with no geometry. -/
def empty : World := { heap := [], renderer := { geometry := [], recyclelist := [] }, trace := [] }

/-- Record an event. -/
def emit (e : Event) (w : World) : World := { w with trace := w.trace ++ [e] }

/-- Apply a member-wise change to the object behind handle `h`. -/
def modifyGeom (h : Handle) (f : BatchGeometry → BatchGeometry) (w : World) : World :=
  match w.heap[h]? with
  | some g => { w with heap := w.heap.set h (f g) }
  | none => w

end World

/-! ## Droppable -/

/-- Modelled from the spec: `Droppable.h` is not among the sources. `Droppable::drop`
latches the dropped flag; further calls change nothing. -/
def Droppable.drop (g : BatchGeometry) : BatchGeometry := { g with dropped := true }

/-! ## Batch renderer: graph maintenance -/

namespace BatchRenderer

/-- Modelled from the spec: the body of `BatchRenderer::addGeometry` (declared at
`BatchRenderer.h` line 66) is not among the sources. Index the four maps in turn
by the geometry's current key values, creating empty buckets as needed, then
append to the innermost sequence. -/
def addGeometry (h : Handle) (w : World) : World :=
  let w1 := w.emit (Event.addGeometry h)
  match w1.heap[h]? with
  | some g =>
    { w1 with renderer :=
        { w1.renderer with geometry := graphInsert g.currentKey h w1.renderer.geometry } }
  | none => w1

/-- Modelled from the spec: the body of `BatchRenderer::removeGeometry` (declared at
`BatchRenderer.h` line 69) is not among the sources. Push the handle onto the
recycle list and call its Droppable drop; the graph is not walked. -/
def removeGeometry (h : Handle) (w : World) : World :=
  let w1 := w.emit (Event.removeGeometry h)
  let w2 := { w1 with renderer := { w1.renderer with recyclelist := w1.renderer.recyclelist ++ [h] } }
  w2.modifyGeom h Droppable.drop

/-- Modelled from the spec: the body of `BatchRenderer::moveGeometry` (declared at
`BatchRenderer.h` line 72) is not among the sources. Remove the geometry from the
bucket implied by the last-observed values of its four invariants, then insert
it at the bucket implied by their current values. -/
def moveGeometry (h : Handle) (w : World) : World :=
  let w1 := w.emit (Event.moveGeometry h)
  match w1.heap[h]? with
  | some g =>
    { w1 with renderer :=
        { w1.renderer with
          geometry := graphInsert g.currentKey h (graphErase g.previousKey h w1.renderer.geometry) } }
  | none => w1

/-- Modelled from the spec: the body of `BatchRenderer::pruneGeometry` (declared at
`BatchRenderer.h` line 118) is not among the sources. One step of the sweep: walk
to the bucket implied by the handle's last-observed keys and erase the single
matching entry. -/
def pruneOne (heap : List BatchGeometry) (G : BATCHMAPDELTA) (h : Handle) : BATCHMAPDELTA :=
  match heap[h]? with
  | some g => graphErase g.previousKey h G
  | none => G

/-- Modelled from the spec: the body of `BatchRenderer::pruneGeometry` (declared at
`BatchRenderer.h` line 118) is not among the sources. Erase every handle of the
recycle list from the graph, then clear the recycle list. -/
def pruneGeometry (w : World) : World :=
  { w with renderer :=
      { geometry := w.renderer.recyclelist.foldl (pruneOne w.heap) w.renderer.geometry
        recyclelist := [] } }

/-- `clearGeometry` (`BatchRenderer.h`, lines 75-81). -/
def clearGeometry (w : World) : World :=
  { w with renderer := { geometry := [], recyclelist := [] } }

end BatchRenderer

/-! ## Batch geometry: the operations that reach the renderer -/

namespace BatchGeometry

/-- The factory `create` (`BatchGeometry.h`, lines 55-60): allocate, register with the
renderer, return the handle. -/
def create (p : Nat) (t : Option Texture) (g : Int) (d : Depth) (w : World) : Handle × World :=
  let h := w.heap.length
  (h, BatchRenderer.addGeometry h { w with heap := w.heap ++ [BatchGeometry.new p t g d] })

/-- `update` (`BatchGeometry.h`, lines 262-275). -/
def update (h : Handle) (w : World) : World :=
  match w.heap[h]? with
  | some g =>
    if !(g.primitivetype.check && g.textureid.check && g.groupid.check && g.depth.check) then
      (BatchRenderer.moveGeometry h w).modifyGeom h resetInvariants
    else w
  | none => w

/-- `drop` (`BatchGeometry.h`, lines 301-308). -/
def drop (h : Handle) (w : World) : World :=
  match w.heap[h]? with
  | some g =>
    if !g.dropped then
      BatchRenderer.removeGeometry h (w.modifyGeom h Droppable.drop)
    else w
  | none => w

/-- The loop at lines 329-330: `push_back` every vertex onto the list. -/
def pushAll (vs : List Vertex) (list : List Vertex) : List Vertex :=
  vs.foldl (fun l v => l ++ [v]) list

/-- `batch` (`BatchGeometry.h`, lines 318-335): the world after the call, the list
after the call, and the returned number. -/
def batch (h : Handle) (w : World) (list : List Vertex) : World × List Vertex × Nat :=
  match w.heap[h]? with
  | some g =>
    let w1 := if g.immediate then drop h w else w
    if g.enabled then
      (w1, if !g.vertices.isEmpty then pushAll g.vertices list else list, 1)
    else (w1, list, 0)
  | none => (w, list, 0)

/-- `groupBegin` (`BatchGeometry.h`, lines 343-347). -/
def groupBegin (h : Handle) (w : World) : World :=
  match w.heap[h]? with
  | some g =>
    match g.groupbegin with
    | some f => w.emit (Event.call f)
    | none => w
  | none => w

/-- `groupEnd` (`BatchGeometry.h`, lines 355-359). -/
def groupEnd (h : Handle) (w : World) : World :=
  match w.heap[h]? with
  | some g =>
    match g.groupend with
    | some f => w.emit (Event.call f)
    | none => w
  | none => w

end BatchGeometry

/-! ## Batch renderer: draw -/

/-- The local variables of the draw routine, with the world it runs in. -/
structure DrawState where
  world : World
  scratch : List Vertex
  firstInGroup : Bool
  lastOfGroup : Option Handle
deriving DecidableEq, Repr

namespace BatchRenderer

/-- Modelled from the spec: the body of `BatchRenderer::draw` (declared at
`BatchRenderer.h` line 98) is not among the sources. The innermost loop body of the
spec's draw loop: fire `groupBegin` on the first geometry visited in the group,
then `batch` the geometry. As in that loop, every geometry found in the bucket
is batched; there is no test of its dropped flag or of what it contributes. -/
def drawGeometry (st : DrawState) (h : Handle) : DrawState :=
  let w1 := if st.firstInGroup then
      BatchGeometry.groupBegin h (st.world.emit (Event.groupBegin h))
    else st.world
  let r := BatchGeometry.batch h w1 st.scratch
  { world := r.1.emit (Event.batch h (r.2.1.drop st.scratch.length))
    scratch := r.2.1
    firstInGroup := false
    lastOfGroup := some h }

/-- Modelled from the spec: the body of `BatchRenderer::draw` (declared at
`BatchRenderer.h` line 98) is not among the sources. One primitive-typed bucket:
clear the scratch buffer, batch every geometry in insertion order, flush one
draw call if the buffer is non-empty. -/
def drawAlpha (st : DrawState) (e : Nat × GEOMCONTAINER) : DrawState :=
  let st1 := e.2.foldl drawGeometry { st with scratch := [] }
  if !st1.scratch.isEmpty then
    { st1 with world := st1.world.emit (Event.drawPrimitive e.1 st1.scratch) }
  else st1

/-- Modelled from the spec: the body of `BatchRenderer::draw` (declared at
`BatchRenderer.h` line 98) is not among the sources. One texture: bind it, then
draw each primitive-typed bucket. -/
def drawBeta (st : DrawState) (e : Nat × BATCHMAPALPHA) : DrawState :=
  e.2.foldl drawAlpha { st with world := st.world.emit (Event.bindTexture e.1) }

/-- Modelled from the spec: the body of `BatchRenderer::draw` (declared at
`BatchRenderer.h` line 98) is not among the sources. One group: draw each texture,
then fire `groupEnd` on the last geometry of the group if any was visited. -/
def drawGamma (st : DrawState) (e : Int × BATCHMAPBETA) : DrawState :=
  let st1 := e.2.foldl drawBeta { st with firstInGroup := true, lastOfGroup := none }
  if !st1.firstInGroup then
    match st1.lastOfGroup with
    | some h =>
      { st1 with world := BatchGeometry.groupEnd h (st1.world.emit (Event.groupEnd h)) }
    | none => st1
  else st1

/-- Modelled from the spec: the body of `BatchRenderer::draw` (declared at
`BatchRenderer.h` line 98) is not among the sources. One depth: draw each group. -/
def drawDelta (st : DrawState) (e : Depth × BATCHMAPGAMMA) : DrawState :=
  e.2.foldl drawGamma st

/-- Modelled from the spec: the body of `BatchRenderer::draw` (declared at
`BatchRenderer.h` line 98) is not among the sources. Walk the graph once, depths in
map order, starting from an empty scratch buffer. -/
def draw (w : World) : World :=
  (w.renderer.geometry.foldl drawDelta
    { world := w, scratch := [], firstInGroup := true, lastOfGroup := none }).world

end BatchRenderer

/-! ## Reading a trace -/

/-- The events a step appended to the trace. -/
def newEvents (before after : World) : List Event := after.trace.drop before.trace.length

/-- The `batch` calls of a trace, in order: which geometry, and what it appended. -/
def batchLog : List Event → List (Handle × List Vertex)
  | [] => []
  | Event.batch h vs :: es => (h, vs) :: batchLog es
  | _ :: es => batchLog es

/-- Whether an event is a call of the draw routine into a geometry. -/
def Event.isFrame : Event → Bool
  | Event.groupBegin _ => true
  | Event.groupEnd _ => true
  | Event.batch _ _ => true
  | _ => false

/-- What a geometry appends when it is batched: its vertices if it is enabled. -/
def contribution (heap : List BatchGeometry) (h : Handle) : List Vertex :=
  match heap[h]? with
  | some g => if g.enabled then g.vertices else []
  | none => []

/-- The calls into the geometries of one group, for the handles of the group in
traversal order: `groupBegin` on the first, `batch` on each, `groupEnd` on the
last. -/
def groupFrame (heap : List BatchGeometry) : List Handle → List Event
  | [] => []
  | h :: hs =>
    Event.groupBegin h :: ((h :: hs).map (fun x => Event.batch x (contribution heap x))
      ++ [Event.groupEnd ((h :: hs).getLast (List.cons_ne_nil h hs))])

/-- The calls into the geometries of a whole frame: group after group, depth
after depth. -/
def graphFrame (heap : List BatchGeometry) (G : BATCHMAPDELTA) : List Event :=
  (G.map (fun d => (d.2.map (fun g => groupFrame heap (betaHandles g.2))).flatten)).flatten

/-! ## Concrete scenes -/

/-- A vertex at the origin, opaque black. -/
def vertexA : Vertex := { x := 0, y := 0, r := 0, g := 0, b := 0, a := 255, u := 0, v := 0 }

/-- A vertex at (1, 0), opaque black. -/
def vertexB : Vertex := { x := 1, y := 0, r := 0, g := 0, b := 0, a := 255, u := 0, v := 1 }

/-- The geometry the factory makes for quads (7), no texture, group 0, depth 0. -/
def freshGeometry : BatchGeometry := BatchGeometry.new 7 none 0 0

/-- A renderer holding one freshly created geometry. -/
def freshWorld : World := (BatchGeometry.create 7 none 0 0 World.empty).2

/-- The fresh geometry after `setDepth(5)`. -/
def driftedGeometry : BatchGeometry := freshGeometry.setDepth 5

/-- A renderer holding one geometry whose depth was changed after creation and
which has not been updated yet. -/
def driftedWorld : World := freshWorld.modifyGeom 0 (fun g => g.setDepth 5)

/-- A renderer holding one geometry that is disabled and marked immediate. -/
def disabledImmediateWorld : World :=
  freshWorld.modifyGeom 0 (fun g => (g.setEnabled false).setImmediate true)

/-- The geometry of `disabledImmediateWorld`. -/
def disabledImmediateGeometry : BatchGeometry := (freshGeometry.setEnabled false).setImmediate true

/-- A renderer holding one enabled geometry with two vertices. -/
def twoVertexWorld : World :=
  freshWorld.modifyGeom 0 (fun g => { g with vertices := [vertexA, vertexB] })

/-- The geometry of `twoVertexWorld`. -/
def twoVertexGeometry : BatchGeometry := { freshGeometry with vertices := [vertexA, vertexB] }

/-- A renderer holding one disabled geometry with two vertices that is not
immediate. -/
def disabledWorld : World :=
  freshWorld.modifyGeom 0 (fun g => { g with vertices := [vertexA, vertexB], enabled := false })

/-- The geometry of `disabledWorld`. -/
def disabledGeometry : BatchGeometry :=
  { freshGeometry with vertices := [vertexA, vertexB], enabled := false }

/-! ## Relating the world before and after a step of the draw routine -/

/-- A geometry with its dropped flag cleared: everything `batch` never writes. -/
def BatchGeometry.forgetDropped (g : BatchGeometry) : BatchGeometry := { g with dropped := false }

/-- Whether the object behind a handle is marked dropped. -/
def World.isDropped (w : World) (x : Handle) : Bool :=
  match w.heap[x]? with
  | some g => g.dropped
  | none => false

/-- Whether the object behind a handle is marked immediate. -/
def World.isImmediate (w : World) (x : Handle) : Bool :=
  match w.heap[x]? with
  | some g => g.immediate
  | none => false

/-- The world `w2` comes from `w` by steps that leave the graph alone, change
nothing of any geometry but possibly set dropped flags, keep every dropped
geometry on the recycle list if it was there, and append events whose calls
into geometries are `fr`. -/
structure Step (w w2 : World) (fr : List Event) : Prop where
  graph : w2.renderer.geometry = w.renderer.geometry
  heap : w2.heap.map BatchGeometry.forgetDropped = w.heap.map BatchGeometry.forgetDropped
  dropped : ∀ x, w.isDropped x = true → w2.isDropped x = true
  recycled : ∀ x, (w.isDropped x = true → x ∈ w.renderer.recyclelist) →
    (w2.isDropped x = true → x ∈ w2.renderer.recyclelist)
  trace : ∃ es, w2.trace = w.trace ++ es ∧ es.filter Event.isFrame = fr

/-- The calls into geometries made while visiting the handles `hs` inside one
group: `groupBegin` on the first one if the group has not begun, then `batch`
on each. -/
def visitFrame (heap : List BatchGeometry) (first : Bool) (hs : List Handle) : List Event :=
  (if first then (match hs with | [] => [] | h :: _ => [Event.groupBegin h]) else [])
    ++ hs.map (fun x => Event.batch x (contribution heap x))

/-- The draw state `st2` comes from `st` by visiting the handles `hs` inside one
group. -/
structure Visits (st st2 : DrawState) (hs : List Handle) : Prop where
  step : Step st.world st2.world (visitFrame st.world.heap st.firstInGroup hs)
  first : st2.firstInGroup = (st.firstInGroup && hs.isEmpty)
  last : st2.lastOfGroup = hs.getLast?.or st.lastOfGroup
  immediate : ∀ x ∈ hs, st.world.isImmediate x = true → st2.world.isDropped x = true

/-- The world `w2` comes from `w` by drawing whole groups that hold the handles
`hs`, with calls `fr` into the geometries. -/
structure Frames (w w2 : World) (hs : List Handle) (fr : List Event) : Prop where
  step : Step w w2 fr
  immediate : ∀ x ∈ hs, w.isImmediate x = true → w2.isDropped x = true

/-- Whether an event is a `groupBegin()` call of the draw routine. -/
def Event.isGroupBegin : Event → Bool
  | Event.groupBegin _ => true
  | _ => false

/-- Whether an event is a `groupEnd()` call of the draw routine. -/
def Event.isGroupEnd : Event → Bool
  | Event.groupEnd _ => true
  | _ => false

/-- A renderer holding one disabled geometry with two vertices and both group
hooks set (callables 1 and 2). -/
def disabledHookWorld : World :=
  freshWorld.modifyGeom 0 (fun g =>
    { g with vertices := [vertexA, vertexB], enabled := false,
             groupbegin := some 1, groupend := some 2 })

/-- The geometry of `disabledHookWorld`. -/
def disabledHookGeometry : BatchGeometry :=
  { freshGeometry with vertices := [vertexA, vertexB], enabled := false,
                       groupbegin := some 1, groupend := some 2 }

/-- A renderer holding two enabled geometries in groups 0 and 1 at depth 0, each
with one vertex and with its own pair of group hooks. -/
def twoGroupWorld : World :=
  let w1 := (BatchGeometry.create 4 none 0 0 World.empty).2
  let w2 := (BatchGeometry.create 4 none 1 0 w1).2
  let w3 := w2.modifyGeom 0 (fun g =>
    { g with vertices := [vertexA], groupbegin := some 10, groupend := some 11 })
  w3.modifyGeom 1 (fun g =>
    { g with vertices := [vertexB], groupbegin := some 20, groupend := some 21 })

/-- The first geometry of `twoGroupWorld`. -/
def twoGroupGeometry : BatchGeometry :=
  { BatchGeometry.new 4 none 0 0 with
    vertices := [vertexA], groupbegin := some 10, groupend := some 11 }

/-- A renderer holding one enabled geometry with two vertices that is marked
immediate. -/
def immediateWorld : World :=
  freshWorld.modifyGeom 0 (fun g => { g with vertices := [vertexA, vertexB], immediate := true })

/-- The geometry of `immediateWorld`. -/
def immediateGeometry : BatchGeometry :=
  { freshGeometry with vertices := [vertexA, vertexB], immediate := true }

/-! ## Sequences of creations -/

/-- The arguments of one call of the factory `create`. -/
structure CreateArgs where
  primitive : Nat
  texture : Option Texture
  group : Int
  depth : Depth
deriving DecidableEq, Repr

/-- The bucket key of a geometry created with these arguments. -/
def CreateArgs.key (c : CreateArgs) : BucketKey :=
  { depth := c.depth, group := c.group,
    texture := (match c.texture with | some tx => tx.textureId | none => 0),
    primitive := c.primitive }

/-- A sequence of calls of the factory `create`, in order. -/
def createAll (cs : List CreateArgs) (w : World) : World :=
  cs.foldl (fun w c => (BatchGeometry.create c.primitive c.texture c.group c.depth w).2) w

/-- Insert consecutive handles, starting at `s`, at the given keys. -/
def insertAll (G : BATCHMAPDELTA) (s : Handle) : List BucketKey → BATCHMAPDELTA
  | [] => G
  | k :: ks => insertAll (graphInsert k s G) (s + 1) ks

/-- Three rectangles at depths 2, 1, 3 in group 0 with texture 7 and primitive
type quads (7), then one more at depth 1. -/
def sceneArgs : List CreateArgs :=
  [ { primitive := 7, texture := some { textureId := 7 }, group := 0, depth := 2 },
    { primitive := 7, texture := some { textureId := 7 }, group := 0, depth := 1 },
    { primitive := 7, texture := some { textureId := 7 }, group := 0, depth := 3 },
    { primitive := 7, texture := some { textureId := 7 }, group := 0, depth := 1 } ]

/-! ## Vectors, colours, rectangles, polygons -/

/-- The OpenGL enumerant `GL_TRIANGLES` (`GL/gl.h`, value `0x0004`). -/
def GL_TRIANGLES : Nat := 4

/-- The OpenGL enumerant `GL_QUADS` (`GL/gl.h`, value `0x0007`). -/
def GL_QUADS : Nat := 7

/-- Modelled from the spec: `Vector2d.h` is not among the sources. A pair of
coordinates, added componentwise; coordinates are exact rationals. -/
structure Vector2d where
  x : ℚ
  y : ℚ
deriving DecidableEq, Repr

/-- Modelled from the spec: `Vector2d.h` is not among the sources. Vector addition
is componentwise. -/
def Vector2d.add (a b : Vector2d) : Vector2d := { x := a.x + b.x, y := a.y + b.y }

/-- Modelled from the spec: `Color.h` is not among the sources. Four 8-bit
channels. -/
structure Color where
  r : Nat
  g : Nat
  b : Nat
  a : Nat
deriving DecidableEq, Repr

/-- Modelled from the spec: `Color.h` is not among the sources. The default colour
is opaque black. -/
def Color.default : Color := { r := 0, g := 0, b := 0, a := 255 }

/-- Modelled from the spec: `Vertex.h` is not among the sources. Texture
coordinates (u, v). -/
structure TextureCoords where
  u : ℚ
  v : ℚ
deriving DecidableEq, Repr

/-- Modelled from the spec: `Vertex.h` is not among the sources. The constructor
`Vertex(position, color, tcoords)`. -/
def Vertex.make (p : Vector2d) (c : Color) (t : TextureCoords) : Vertex :=
  { x := p.x, y := p.y, r := c.r, g := c.g, b := c.b, a := c.a, u := t.u, v := t.v }

/-- Modelled from the spec: `Vertex.h` is not among the sources. A vertex made from
a position alone has the default colour and texture coordinates (0, 0): no
colours or texture coordinates are set. -/
def Vertex.ofPosition (p : Vector2d) : Vertex :=
  Vertex.make p Color.default { u := 0, v := 0 }

/-- Modelled from the spec: `Rectangle.h` is not among the sources. A rectangle has
a position and dimensions (`getPosition`, `getDimensions`). -/
structure Rectangle where
  position : Vector2d
  dimensions : Vector2d
deriving DecidableEq, Repr

/-- Modelled from the spec: `Polygon.h` is not among the sources. A polygon has an
origin (`getPosition`) and vertices given relative to it. -/
structure Polygon where
  position : Vector2d
  vertices : List Vector2d
deriving DecidableEq, Repr

/-- Modelled from the spec: `Polygon.h` is not among the sources.
`Polygon::getVertexCount`. -/
def Polygon.getVertexCount (p : Polygon) : Nat := p.vertices.length

/-- Modelled from the spec: `Polygon.h` is not among the sources.
`Polygon::getVertex`, a ring buffer like the geometry's: index `N` is vertex 0
again. -/
def Polygon.getVertex (p : Polygon) (i : Nat) : Vector2d :=
  p.vertices.getD (i % p.vertices.length) { x := 0, y := 0 }

/-! ## Batch geometry: vertices and getters -/

/-- The element index computed by `a % vertices.size()` (`BatchGeometry.h`, lines
117, 126, 142, 152): `a` is a `signed int`, the size is a `size_t` of `bits`
bits, so `a` is first converted to that unsigned type and then reduced modulo
the size `n`. For `n = 0` the C++ expression is undefined; here the index is
then out of range. -/
def ringIndex (bits : Nat) (a : Int) (n : Nat) : Nat := (a % (2 : Int) ^ bits).toNat % n

namespace BatchGeometry

/-- `getVertex` (lines 115-118); `none` stands for the undefined access into an
empty list. -/
def getVertex (bits : Nat) (g : BatchGeometry) (a : Int) : Option Vertex :=
  g.vertices[ringIndex bits a g.vertices.length]?

/-- `setVertex` (lines 124-127). -/
def setVertex (bits : Nat) (g : BatchGeometry) (a : Int) (v : Vertex) : BatchGeometry :=
  { g with vertices := g.vertices.set (ringIndex bits a g.vertices.length) v }

/-- `addVertex` (lines 131-134). -/
def addVertex (g : BatchGeometry) (v : Vertex) : BatchGeometry :=
  { g with vertices := g.vertices ++ [v] }

/-- `removeVertex` (lines 140-143). -/
def removeVertex (bits : Nat) (g : BatchGeometry) (a : Int) : BatchGeometry :=
  { g with vertices := g.vertices.eraseIdx (ringIndex bits a g.vertices.length) }

/-- `operator[]` (line 152), read through the returned reference. -/
def index (bits : Nat) (g : BatchGeometry) (a : Int) : Option Vertex :=
  g.vertices[ringIndex bits a g.vertices.length]?

/-- `vertices.clear()`. -/
def clearVertices (g : BatchGeometry) : BatchGeometry := { g with vertices := [] }

/-- `getTexture` (line 167). -/
def getTexture (g : BatchGeometry) : Option Texture := g.texture

/-- `getPrimitiveType` (line 170). -/
def getPrimitiveType (g : BatchGeometry) : Nat := g.primitivetype.value

/-- `getTextureId` (line 173). -/
def getTextureId (g : BatchGeometry) : Nat := g.textureid.value

/-- `getGroup` (line 176). -/
def getGroup (g : BatchGeometry) : Int := g.groupid.value

/-- `getDepth` (line 179). -/
def getDepth (g : BatchGeometry) : Depth := g.depth.value

/-- `getEnabled` (line 182). -/
def getEnabled (g : BatchGeometry) : Bool := g.enabled

/-- `getImmediate` (line 185). -/
def getImmediate (g : BatchGeometry) : Bool := g.immediate

/-- `setGroupBeginFunction` (line 245). -/
def setGroupBeginFunction (g : BatchGeometry) (f : Option Callable) : BatchGeometry :=
  { g with groupbegin := f }

/-- `setGroupEndFunction` (line 254). -/
def setGroupEndFunction (g : BatchGeometry) (f : Option Callable) : BatchGeometry :=
  { g with groupend := f }

/-- `translate` (lines 366-372). -/
def translate (g : BatchGeometry) (t : Vector2d) : BatchGeometry :=
  { g with vertices := g.vertices.map (fun v => { v with x := v.x + t.x, y := v.y + t.y }) }

/-- `scale` (lines 379-386). -/
def scale (g : BatchGeometry) (s : Vector2d) : BatchGeometry :=
  { g with vertices := g.vertices.map (fun v => { v with x := v.x * s.x, y := v.y * s.y }) }

/-- `rotate` (lines 393-399). `RotationMatrix.h` is not among the sources: the
product of a position with the matrix is taken as a map on positions. -/
def rotate (g : BatchGeometry) (m : Vector2d → Vector2d) : BatchGeometry :=
  { g with vertices := g.vertices.map (fun v =>
      { v with x := (m { x := v.x, y := v.y }).x, y := (m { x := v.x, y := v.y }).y }) }

/-- `colorize` (lines 402-408). -/
def colorize (g : BatchGeometry) (c : Color) : BatchGeometry :=
  { g with vertices := g.vertices.map (fun v => { v with r := c.r, g := c.g, b := c.b, a := c.a }) }

/-- Lines 440-445 of `fromRectangle`: clear the vertex list, push the four
corners, translate by the rectangle's position. -/
def rectangleVertices (g : BatchGeometry) (rhs : Rectangle) : BatchGeometry :=
  ((((g.clearVertices.addVertex
      (Vertex.make { x := 0, y := 0 } Color.default { u := 0, v := 0 })).addVertex
      (Vertex.make { x := 0, y := rhs.dimensions.y } Color.default { u := 0, v := 1 })).addVertex
      (Vertex.make rhs.dimensions Color.default { u := 1, v := 1 })).addVertex
      (Vertex.make { x := rhs.dimensions.x, y := 0 } Color.default { u := 1, v := 0 })).translate
    rhs.position

/-- `fromRectangle` (lines 436-446). -/
def fromRectangle (h : Handle) (rhs : Rectangle) (w : World) : World :=
  (update h (w.modifyGeom h (fun g => g.setPrimitiveType GL_QUADS))).modifyGeom h
    (fun g => g.rectangleVertices rhs)

/-- The body of the loop at lines 423-428 of `fromPolygon`, for one `i`. -/
def polygonStep (rhs : Polygon) (g : BatchGeometry) (i : Nat) : BatchGeometry :=
  ((g.addVertex (Vertex.ofPosition rhs.position)).addVertex
      (Vertex.ofPosition (rhs.position.add (rhs.getVertex i)))).addVertex
      (Vertex.ofPosition (rhs.position.add (rhs.getVertex (i + 1))))

/-- Lines 419-429 of `fromPolygon`: clear the vertex list and, for a polygon with
more than two vertices, push one triangle per polygon vertex. -/
def polygonVertices (g : BatchGeometry) (rhs : Polygon) : BatchGeometry :=
  if rhs.getVertexCount > 2 then
    (List.range rhs.getVertexCount).foldl (polygonStep rhs) g.clearVertices
  else g.clearVertices

/-- `fromPolygon` (lines 415-430). -/
def fromPolygon (h : Handle) (rhs : Polygon) (w : World) : World :=
  (update h (w.modifyGeom h (fun g => g.setPrimitiveType GL_TRIANGLES))).modifyGeom h
    (fun g => g.polygonVertices rhs)

/-- The factory `create` from a rectangle (lines 74-81). -/
def createRectangle (rect : Rectangle) (t : Option Texture) (g : Int) (d : Depth)
    (w : World) : Handle × World :=
  let h := w.heap.length
  (h, BatchRenderer.addGeometry h
    (fromRectangle h rect { w with heap := w.heap ++ [BatchGeometry.new GL_QUADS t g d] }))

/-- The factory `create` from a polygon (lines 94-101). -/
def createPolygon (poly : Polygon) (t : Option Texture) (g : Int) (d : Depth)
    (w : World) : Handle × World :=
  let h := w.heap.length
  (h, BatchRenderer.addGeometry h
    (fromPolygon h poly { w with heap := w.heap ++ [BatchGeometry.new GL_TRIANGLES t g d] }))

end BatchGeometry

/-- The texture id a geometry takes from the texture handed to it: the texture's
id, or 0 for an empty pointer (lines 204 and 510). -/
def textureIdOf (t : Option Texture) : Nat :=
  match t with
  | some tx => tx.textureId
  | none => 0

/-- A unit-size rectangle at (10, 20) with dimensions (30, 40). -/
def sampleRectangle : Rectangle :=
  { position := { x := 10, y := 20 }, dimensions := { x := 30, y := 40 } }

/-- A triangle with origin (1, 1) and vertices (0, 0), (2, 0), (0, 2). -/
def samplePolygon : Polygon :=
  { position := { x := 1, y := 1 },
    vertices := [{ x := 0, y := 0 }, { x := 2, y := 0 }, { x := 0, y := 2 }] }

/-- A vertex at (0, 1), opaque black. -/
def vertexC : Vertex := { x := 0, y := 1, r := 0, g := 0, b := 0, a := 255, u := 1, v := 1 }

/-- A geometry with the three vertices A, B, C. -/
def threeVertexGeometry : BatchGeometry :=
  { freshGeometry with vertices := [vertexA, vertexB, vertexC] }

/-! ## Scripts of operations -/

/-- One call a producer can make: a factory, or a member function of a geometry
it holds a handle to. -/
inductive Action where
  | create (p : Nat) (t : Option Texture) (g : Int) (d : Depth)
  | createRectangle (rect : Rectangle) (t : Option Texture) (g : Int) (d : Depth)
  | createPolygon (poly : Polygon) (t : Option Texture) (g : Int) (d : Depth)
  | setPrimitiveType (h : Handle) (v : Nat)
  | setTexture (h : Handle) (t : Option Texture)
  | setGroup (h : Handle) (v : Int)
  | setDepth (h : Handle) (v : Depth)
  | setEnabled (h : Handle) (e : Bool)
  | setImmediate (h : Handle) (i : Bool)
  | setGroupBeginFunction (h : Handle) (f : Option Callable)
  | setGroupEndFunction (h : Handle) (f : Option Callable)
  | addVertex (h : Handle) (v : Vertex)
  | setVertex (h : Handle) (a : Int) (v : Vertex)
  | removeVertex (h : Handle) (a : Int)
  | translate (h : Handle) (t : Vector2d)
  | scale (h : Handle) (s : Vector2d)
  | rotate (h : Handle) (m : Vector2d → Vector2d)
  | colorize (h : Handle) (c : Color)
  | update (h : Handle)
  | batch (h : Handle) (list : List Vertex)
  | drop (h : Handle)
  | fromRectangle (h : Handle) (rect : Rectangle)
  | fromPolygon (h : Handle) (poly : Polygon)

/-- The world after one call; `bits` is the width of `size_t`. -/
def perform (bits : Nat) (a : Action) (w : World) : World :=
  match a with
  | Action.create p t g d => (BatchGeometry.create p t g d w).2
  | Action.createRectangle rect t g d => (BatchGeometry.createRectangle rect t g d w).2
  | Action.createPolygon poly t g d => (BatchGeometry.createPolygon poly t g d w).2
  | Action.setPrimitiveType h v => w.modifyGeom h (fun x => x.setPrimitiveType v)
  | Action.setTexture h t => w.modifyGeom h (fun x => x.setTexture t)
  | Action.setGroup h v => w.modifyGeom h (fun x => x.setGroup v)
  | Action.setDepth h v => w.modifyGeom h (fun x => x.setDepth v)
  | Action.setEnabled h e => w.modifyGeom h (fun x => x.setEnabled e)
  | Action.setImmediate h i => w.modifyGeom h (fun x => x.setImmediate i)
  | Action.setGroupBeginFunction h f => w.modifyGeom h (fun x => x.setGroupBeginFunction f)
  | Action.setGroupEndFunction h f => w.modifyGeom h (fun x => x.setGroupEndFunction f)
  | Action.addVertex h v => w.modifyGeom h (fun x => x.addVertex v)
  | Action.setVertex h a v => w.modifyGeom h (fun x => BatchGeometry.setVertex bits x a v)
  | Action.removeVertex h a => w.modifyGeom h (fun x => BatchGeometry.removeVertex bits x a)
  | Action.translate h t => w.modifyGeom h (fun x => x.translate t)
  | Action.scale h s => w.modifyGeom h (fun x => x.scale s)
  | Action.rotate h m => w.modifyGeom h (fun x => x.rotate m)
  | Action.colorize h c => w.modifyGeom h (fun x => x.colorize c)
  | Action.update h => BatchGeometry.update h w
  | Action.batch h list => (BatchGeometry.batch h w list).1
  | Action.drop h => BatchGeometry.drop h w
  | Action.fromRectangle h rect => BatchGeometry.fromRectangle h rect w
  | Action.fromPolygon h poly => BatchGeometry.fromPolygon h poly w

/-- The world after a script of calls, in order. -/
def performAll (bits : Nat) (script : List Action) (w : World) : World :=
  script.foldl (fun w a => perform bits a w) w

/-- Every geometry of the heap satisfies `P`. -/
def HeapAll (P : BatchGeometry → Prop) (w : World) : Prop := ∀ g ∈ w.heap, P g

/-- Invariant 4 of the data model: the texture-id key's current value is the bound
texture's id, or 0 when no texture is bound. -/
def TextureIdOK (g : BatchGeometry) : Prop := g.getTextureId = textureIdOf g.getTexture

/-- A script that binds texture 9 to a created geometry, rebuilds it from a
rectangle, updates, batches and drops it. -/
def sampleScript : List Action :=
  [Action.create GL_TRIANGLES none 0 0, Action.setTexture 0 (some { textureId := 9 }),
   Action.fromRectangle 0 sampleRectangle, Action.update 0, Action.batch 0 [],
   Action.drop 0]

/-- A geometry with two vertices that was dropped and pruned: it is in neither
the graph nor the recycle list. -/
def prunedWorld : World := BatchRenderer.pruneGeometry (BatchGeometry.drop 0 twoVertexWorld)

/-- The pruned geometry after `setDepth(5)` and `update()`. -/
def resurrectedWorld : World :=
  BatchGeometry.update 0 (prunedWorld.modifyGeom 0 (fun g => g.setDepth 5))

/-! ## Resource manager -/

/-- Identity of a `boost::shared_ptr<Resource>`: the index of the object among
the resources. -/
abbrev RHandle := Nat

/-- Modelled from the spec: `Resource.h` is not among the sources. A resource, as
far as the manager's bookkeeping is concerned: its Droppable flag. -/
structure Resource where
  dropped : Bool
deriving DecidableEq, Repr

/-- The data members of `ResourceManager` (`ResourceManager.h`, lines 137-140). -/
structure ResourceManager where
  resourcelist : List RHandle
  recyclelist : List RHandle
deriving DecidableEq, Repr

/-- One resource manager and the resources that exist. -/
structure RWorld where
  resources : List Resource
  manager : ResourceManager
deriving DecidableEq, Repr

namespace ResourceManager

/-- `addResource` (`ResourceManager.h`, lines 69-73). -/
def addResource (rc : RHandle) (w : RWorld) : RWorld :=
  { w with manager := { w.manager with resourcelist := w.manager.resourcelist ++ [rc] } }

/-- `removeResource` (`ResourceManager.h`, lines 80-84). -/
def removeResource (rc : RHandle) (w : RWorld) : RWorld :=
  { w with manager := { w.manager with recyclelist := w.manager.recyclelist ++ [rc] } }

/-- `clearResourceList` (`ResourceManager.h`, lines 90-95). -/
def clearResourceList (w : RWorld) : RWorld :=
  { w with manager := { resourcelist := [], recyclelist := [] } }

/-- `getResource` (`ResourceManager.h`, lines 98-108): the world after the call and
the returned handle, `none` for the empty handle. -/
def getResource (index : Nat) (w : RWorld) : RWorld × Option RHandle :=
  (w, if index < w.manager.resourcelist.length then w.manager.resourcelist[index]? else none)

/-- `getResourceCount` (`ResourceManager.h`, lines 111-115): the world after the
call and the returned number, the list's size converted to `unsigned int`. -/
def getResourceCount (w : RWorld) : RWorld × Nat :=
  (w, w.manager.resourcelist.length % 2 ^ 32)

/-- A run of `addResource` calls, in order. -/
def addResources (rcs : List RHandle) (w : RWorld) : RWorld :=
  rcs.foldl (fun w rc => addResource rc w) w

end ResourceManager

/-- A manager with no resources. -/
def RWorld.empty : RWorld :=
  { resources := [], manager := { resourcelist := [], recyclelist := [] } }

/-- Three live resources registered in order 0, 1, 2. -/
def threeResourceWorld : RWorld :=
  ResourceManager.addResources [0, 1, 2]
    { resources := [{ dropped := false }, { dropped := false }, { dropped := false }],
      manager := { resourcelist := [], recyclelist := [] } }

/-! ## Batch geometry: vertex count -/

/-- `getVertexCount` (`BatchGeometry.h`, lines 146-149): the size of the vertex
list, converted to the return type `unsigned int`. -/
def BatchGeometry.getVertexCount (g : BatchGeometry) : Nat := g.vertices.length % 2 ^ 32

/-- A manager of three resources in which resource 1 has been dropped and still
waits on the recycle list for the sweep. -/
def waitingWorld : RWorld :=
  { resources := [{ dropped := false }, { dropped := true }, { dropped := false }]
    manager := { resourcelist := [0, 1, 2], recyclelist := [1] } }


/-! ## Colours of the GL library -/

/-- The 32-bit two's-complement pattern of an `int`. -/
def bits32 (x : Int) : Nat := (x % 2 ^ 32).toNat

/-- The `int` whose 32-bit two's-complement pattern is `p`. -/
def int32 (p : Nat) : Int :=
  if p % 2 ^ 32 < 2 ^ 31 then ((p % 2 ^ 32 : Nat) : Int) else ((p % 2 ^ 32 : Nat) : Int) - 2 ^ 32

/-- The data members of `PhColor`, as the constructors of `PhColor.cpp` (lines
35-47) initialise them from `int` arguments. -/
structure PhColor where
  red : Int
  green : Int
  blue : Int
  alpha : Int
deriving DecidableEq, Repr

/-- The default constructor (`PhColor.cpp`, lines 35-38). -/
def PhColor.default : PhColor := { red := 0, green := 0, blue := 0, alpha := 255 }

/-- The constructor from four channels (`PhColor.cpp`, lines 44-47). -/
def PhColor.make (x y z a : Int) : PhColor := { red := x, green := y, blue := z, alpha := a }

/-- `toGLColor` (`PhColor.cpp`, lines 62-69). The local `color` is held as its
32-bit pattern: the masks, shifts and ors act on patterns, a left shift drops
what leaves the 32 bits, and each right shift of `color` is followed by the mask
`0xff`, which reads eight bits of the pattern whatever the sign. The returned
`int` is the one with the resulting pattern. -/
def PhColor.toGLColor (c : PhColor) : Int :=
  let color : Nat :=
    (((bits32 c.alpha &&& 0xff) <<< 24) ||| ((bits32 c.red &&& 0xff) <<< 16) |||
      ((bits32 c.green &&& 0xff) <<< 8) ||| (bits32 c.blue &&& 0xff)) % 2 ^ 32
  int32 ((((color >>> 24) &&& 0xff) <<< 24) ||| ((color &&& 0xff) <<< 16) |||
      (((color >>> 8) &&& 0xff) <<< 8) ||| ((color >>> 16) &&& 0xff))

/-- A colour with four different channels: red 1, green 2, blue 3, alpha 4. -/
def sampleColor : PhColor := PhColor.make 1 2 3 4

/-! ## Rotation matrices of the GL library -/

/-- The data member `Elements[4]` of `PhRotationMatrix`, row by row: `e0` and
`e1` are the first row. The elements are `float`s in the source; here they are
exact rationals, which is what the float operations compute wherever they are
exact, as on the small integers and halves used below. -/
structure PhRotationMatrix where
  e0 : ℚ
  e1 : ℚ
  e2 : ℚ
  e3 : ℚ
deriving DecidableEq, Repr

/-- The default constructor (`PhRotationMatrix.cpp`, lines 32-38). -/
def PhRotationMatrix.default : PhRotationMatrix := { e0 := 1, e1 := 0, e2 := 0, e3 := 1 }

/-- The element constructor (`PhRotationMatrix.cpp`, lines 43-49). -/
def PhRotationMatrix.ofElements (a b c d : ℚ) : PhRotationMatrix :=
  { e0 := a, e1 := b, e2 := c, e3 := d }

/-- `operator*` with a scalar (`PhRotationMatrix.cpp`, lines 112-122). -/
def PhRotationMatrix.mulScalar (m : PhRotationMatrix) (scalar : ℚ) : PhRotationMatrix :=
  { e0 := m.e0 * scalar, e1 := m.e1 * scalar, e2 := m.e2 * scalar, e3 := m.e3 * scalar }

/-- `getDeterminant` (`PhRotationMatrix.cpp`, lines 220-225). -/
def PhRotationMatrix.getDeterminant (m : PhRotationMatrix) : ℚ :=
  let d1 := m.e0 + m.e3
  let d2 := m.e1 + m.e2
  d1 - d2

/-- `getInverse` (`PhRotationMatrix.cpp`, lines 227-239). For `det = 0` the float
quotient `1.0f/det` is an infinity; the rational quotient is then 0. -/
def PhRotationMatrix.getInverse (m : PhRotationMatrix) : PhRotationMatrix :=
  let det := m.getDeterminant
  let temp : PhRotationMatrix := { e0 := m.e3, e1 := -m.e1, e2 := -m.e2, e3 := m.e0 }
  temp.mulScalar (1 / det)

/-- The rotation by a quarter turn: cosine 0, sine 1 (the angle constructor at
lines 54-62 stores `c, -s, s, c`). -/
def quarterTurn : PhRotationMatrix := PhRotationMatrix.ofElements 0 (-1) 1 0

/-- `operator*` with a matrix (`PhRotationMatrix.cpp`, lines 100-110). -/
def PhRotationMatrix.mul (m other : PhRotationMatrix) : PhRotationMatrix :=
  { e0 := (m.e0 * other.e0) + (m.e1 * other.e2)
    e1 := (m.e0 * other.e1) + (m.e1 * other.e3)
    e2 := (m.e2 * other.e0) + (m.e3 * other.e2)
    e3 := (m.e2 * other.e1) + (m.e3 * other.e3) }

/-- `operator/` with a matrix (`PhRotationMatrix.cpp`, lines 136-141). -/
def PhRotationMatrix.div (m other : PhRotationMatrix) : PhRotationMatrix :=
  let temp := m
  let inv := other.getInverse
  temp.mul inv

/-- The determinant of a 2x2 matrix given row by row, as the specification
states it: e0·e3 − e1·e2. -/
def PhRotationMatrix.determinant (m : PhRotationMatrix) : ℚ := m.e0 * m.e3 - m.e1 * m.e2

/-- Twice the identity: elements 2, 0, 0, 2. -/
def doubleIdentity : PhRotationMatrix := PhRotationMatrix.ofElements 2 0 0 2

/-! ## Batch renderer: draw, skipping dropped geometry -/

namespace BatchRenderer

/-- Modelled from the spec: the body of `BatchRenderer::draw` (declared at
`BatchRenderer.h` line 98) is not among the sources. The innermost loop body of the
spec's draw loop, read with the spec's contract for dropped nodes (once
dropped, a node must be skipped by all traversals): a geometry that is found
dropped when the loop reaches it is passed over, with no `groupBegin` and no
`batch`; any other geometry is visited as in `drawGeometry`. -/
def drawGeometryLive (st : DrawState) (h : Handle) : DrawState :=
  if st.world.isDropped h then st else drawGeometry st h

/-- Modelled from the spec: the body of `BatchRenderer::draw` (declared at
`BatchRenderer.h` line 98) is not among the sources. One primitive-typed bucket, as
`drawAlpha`, dropped geometries passed over. -/
def drawAlphaLive (st : DrawState) (e : Nat × GEOMCONTAINER) : DrawState :=
  let st1 := e.2.foldl drawGeometryLive { st with scratch := [] }
  if !st1.scratch.isEmpty then
    { st1 with world := st1.world.emit (Event.drawPrimitive e.1 st1.scratch) }
  else st1

/-- Modelled from the spec: the body of `BatchRenderer::draw` (declared at
`BatchRenderer.h` line 98) is not among the sources. One texture, as `drawBeta`,
dropped geometries passed over. -/
def drawBetaLive (st : DrawState) (e : Nat × BATCHMAPALPHA) : DrawState :=
  e.2.foldl drawAlphaLive { st with world := st.world.emit (Event.bindTexture e.1) }

/-- Modelled from the spec: the body of `BatchRenderer::draw` (declared at
`BatchRenderer.h` line 98) is not among the sources. One group, as `drawGamma`,
dropped geometries passed over: `groupEnd` fires on the last geometry that was
visited, if any. -/
def drawGammaLive (st : DrawState) (e : Int × BATCHMAPBETA) : DrawState :=
  let st1 := e.2.foldl drawBetaLive { st with firstInGroup := true, lastOfGroup := none }
  if !st1.firstInGroup then
    match st1.lastOfGroup with
    | some h =>
      { st1 with world := BatchGeometry.groupEnd h (st1.world.emit (Event.groupEnd h)) }
    | none => st1
  else st1

/-- Modelled from the spec: the body of `BatchRenderer::draw` (declared at
`BatchRenderer.h` line 98) is not among the sources. One depth, as `drawDelta`,
dropped geometries passed over. -/
def drawDeltaLive (st : DrawState) (e : Depth × BATCHMAPGAMMA) : DrawState :=
  e.2.foldl drawGammaLive st

/-- Modelled from the spec: the body of `BatchRenderer::draw` (declared at
`BatchRenderer.h` line 98) is not among the sources. The spec's draw loop read with
its contract for dropped nodes: walk the graph once as `draw` does, passing
over every geometry that is dropped when the walk reaches it. -/
def drawLive (w : World) : World :=
  (w.renderer.geometry.foldl drawDeltaLive
    { world := w, scratch := [], firstInGroup := true, lastOfGroup := none }).world

end BatchRenderer

/-- What can follow a frame: another frame, or a sweep of the collector. -/
inductive FrameOp where
  | draw
  | prune
deriving DecidableEq, Repr

/-- Run one step that follows a frame. -/
def FrameOp.run : FrameOp → World → World
  | FrameOp.draw, w => BatchRenderer.drawLive w
  | FrameOp.prune, w => BatchRenderer.pruneGeometry w

/-- Run frames and sweeps in the given order. -/
def runOps (ops : List FrameOp) (w : World) : World := ops.foldl (fun w op => op.run w) w

/-- What a stretch of a frame does with the immediate geometry `h`: the world `w2`
comes from `w` by steps of the draw routine that reach the handles `hs`. The
`batch` calls on `h` are one call with its contribution if `h` is not dropped
in `w` and is among `hs`, and none otherwise; `h` is dropped in `w2` if it was
dropped in `w` or is among `hs`. -/
structure Track (h : Handle) (w w2 : World) (hs : List Handle) : Prop where
  step : ∃ fr, Step w w2 fr
  log : (batchLog (newEvents w w2)).filter (fun p => decide (p.1 = h))
    = if w.isDropped h = true ∨ h ∉ hs then [] else [(h, contribution w.heap h)]
  dropped : w2.isDropped h = (w.isDropped h || decide (h ∈ hs))

/-- No geometry among the handles `hs` is dropped or immediate in the world `w`. -/
def Calm (w : World) (hs : List Handle) : Prop :=
  ∀ x ∈ hs, w.isDropped x = false ∧ w.isImmediate x = false


/-! # Verification -/

open BatchGeometry BatchRenderer

/-! ## Basic facts about the heap and the trace -/

theorem newEvents_append (w w2 : World) (es : List Event) (h : w2.trace = w.trace ++ es) :
    newEvents w w2 = es := by
  simp [newEvents, h]

theorem getElem?_set_self_of_some {α : Type} (l : List α) (i : Nat) (a b : α)
    (h : l[i]? = some a) : (l.set i b)[i]? = some b := by
  have hi : i < l.length := by
    rcases Nat.lt_or_ge i l.length with hlt | hge
    · exact hlt
    · rw [List.getElem?_eq_none hge] at h; cases h
  simp [List.getElem?_set, hi]

theorem modifyGeom_of_some (h : Handle) (f : BatchGeometry → BatchGeometry) (w : World)
    (g : BatchGeometry) (hg : w.heap[h]? = some g) :
    w.modifyGeom h f = { w with heap := w.heap.set h (f g) } := by
  simp [World.modifyGeom, hg]

theorem pushAll_eq (vs list : List Vertex) : pushAll vs list = list ++ vs := by
  unfold pushAll
  induction vs generalizing list with
  | nil => simp
  | cons v vs ih => simp [List.foldl_cons, ih]

/-! ## update -/

/-- C2: after `update()` all four tracking invariants check true and the current
values of the four keys are what they were before the call, whether or not a
key had drifted. -/
theorem update_all_check (w : World) (h : Handle) (g : BatchGeometry)
    (hg : w.heap[h]? = some g) :
    ∃ g2, (update h w).heap[h]? = some g2 ∧
      g2.primitivetype.check = true ∧ g2.textureid.check = true ∧
      g2.groupid.check = true ∧ g2.depth.check = true ∧
      g2.primitivetype.value = g.primitivetype.value ∧
      g2.textureid.value = g.textureid.value ∧
      g2.groupid.value = g.groupid.value ∧
      g2.depth.value = g.depth.value := by
  by_cases hc : (g.primitivetype.check && g.textureid.check && g.groupid.check && g.depth.check) = true
  · refine ⟨g, ?_, ?_⟩
    · simp [update, hg, hc]
    · simp only [Bool.and_eq_true] at hc
      obtain ⟨⟨⟨h1, h2⟩, h3⟩, h4⟩ := hc
      exact ⟨h1, h2, h3, h4, rfl, rfl, rfl, rfl⟩
  · refine ⟨g.resetInvariants, ?_, ?_⟩
    · have hm : (moveGeometry h w).heap[h]? = some g := by
        simp [moveGeometry, World.emit, hg]
      have hheap : (moveGeometry h w).heap = w.heap := by
        simp [moveGeometry, World.emit, hg]
      simp only [update, hg, hc]
      rw [modifyGeom_of_some h _ _ g hm]
      simp only [hheap]
      exact getElem?_set_self_of_some _ _ _ _ hg
    · simp [resetInvariants, TrackingInvariant.reset, TrackingInvariant.check]

/-- Witness for C2 at a geometry whose depth was changed after creation. -/
theorem update_all_check_witness :
    ∃ g2, (update 0 driftedWorld).heap[0]? = some g2 ∧
      g2.primitivetype.check = true ∧ g2.textureid.check = true ∧
      g2.groupid.check = true ∧ g2.depth.check = true ∧
      g2.primitivetype.value = driftedGeometry.primitivetype.value ∧
      g2.textureid.value = driftedGeometry.textureid.value ∧
      g2.groupid.value = driftedGeometry.groupid.value ∧
      g2.depth.value = driftedGeometry.depth.value :=
  update_all_check driftedWorld 0 driftedGeometry (by decide)

/-- C3: `update()` enters the renderer's `moveGeometry` exactly when one of the four
invariants fails `check()`, and then exactly once; when all four check true it
leaves the whole world (geometry state, graph, recycle list, trace) as it
was. -/
theorem update_moves_iff_drift (w : World) (h : Handle) (g : BatchGeometry)
    (hg : w.heap[h]? = some g) :
    (Event.moveGeometry h ∈ newEvents w (update h w) ↔
      ¬ (g.primitivetype.check = true ∧ g.textureid.check = true ∧
          g.groupid.check = true ∧ g.depth.check = true)) ∧
    (newEvents w (update h w) = if g.allCheck then [] else [Event.moveGeometry h]) ∧
    (g.allCheck = true → update h w = w) := by
  by_cases hc : (g.primitivetype.check && g.textureid.check && g.groupid.check && g.depth.check) = true
  · have hu : update h w = w := by simp [update, hg, hc]
    have hc2 := hc
    simp only [Bool.and_eq_true] at hc2
    obtain ⟨⟨⟨h1, h2⟩, h3⟩, h4⟩ := hc2
    refine ⟨?_, ?_, fun _ => hu⟩
    · rw [hu]; simp [newEvents, h1, h2, h3, h4]
    · rw [hu]; simp [newEvents, allCheck, hc]
  · have htr : (update h w).trace = w.trace ++ [Event.moveGeometry h] := by
      simp only [update, hg, hc]
      simp [World.modifyGeom, moveGeometry, World.emit, hg]
    have hne := newEvents_append w _ _ htr
    refine ⟨?_, ?_, ?_⟩
    · rw [hne]
      simp only [List.mem_singleton, true_iff]
      intro hall
      apply hc
      simp [hall.1, hall.2.1, hall.2.2.1, hall.2.2.2]
    · rw [hne]; simp [allCheck, hc]
    · intro ha; exact absurd ha (by simpa [allCheck] using hc)

/-- Witness for C3: a freshly created geometry is left alone, and one whose depth
was changed has `moveGeometry` entered once. -/
theorem update_moves_iff_drift_witness :
    update 0 freshWorld = freshWorld ∧
    newEvents freshWorld (update 0 freshWorld) = [] ∧
    Event.moveGeometry 0 ∈ newEvents driftedWorld (update 0 driftedWorld) ∧
    newEvents driftedWorld (update 0 driftedWorld) = [Event.moveGeometry 0] :=
  ⟨(update_moves_iff_drift freshWorld 0 freshGeometry (by decide)).2.2 (by decide),
    ((update_moves_iff_drift freshWorld 0 freshGeometry (by decide)).2.1).trans (by decide),
    ((update_moves_iff_drift driftedWorld 0 driftedGeometry (by decide)).1).2 (by decide),
    ((update_moves_iff_drift driftedWorld 0 driftedGeometry (by decide)).2.1).trans (by decide)⟩

/-! ## drop -/

theorem drop_of_dropped (w : World) (h : Handle) (g : BatchGeometry)
    (hg : w.heap[h]? = some g) (hd : g.dropped = true) : drop h w = w := by
  simp [drop, hg, hd]

theorem drop_of_live (w : World) (h : Handle) (g : BatchGeometry)
    (hg : w.heap[h]? = some g) (hd : g.dropped = false) :
    drop h w =
      { heap := w.heap.set h (Droppable.drop g)
        renderer := { w.renderer with recyclelist := w.renderer.recyclelist ++ [h] }
        trace := w.trace ++ [Event.removeGeometry h] } := by
  have h1 : (w.heap.set h (Droppable.drop g))[h]? = some (Droppable.drop g) :=
    getElem?_set_self_of_some _ _ _ _ hg
  simp only [Droppable.drop] at h1
  simp [drop, hg, hd, removeGeometry, World.modifyGeom, World.emit, h1, Droppable.drop]

/-- C4: calling `drop()` twice leaves the same world as calling it once, with the
dropped flag set. For a geometry that was live, the two calls enter the
renderer's `removeGeometry` once in total and push the handle once, so a
recycle list that did not hold the handle holds it exactly once. -/
theorem drop_twice (w : World) (h : Handle) (g : BatchGeometry)
    (hg : w.heap[h]? = some g) :
    drop h (drop h w) = drop h w ∧
    (∃ g2, (drop h w).heap[h]? = some g2 ∧ g2.dropped = true) ∧
    (g.dropped = false →
      newEvents w (drop h (drop h w)) = [Event.removeGeometry h] ∧
      (drop h (drop h w)).renderer.recyclelist = w.renderer.recyclelist ++ [h] ∧
      (h ∉ w.renderer.recyclelist → (drop h (drop h w)).renderer.recyclelist.count h = 1)) := by
  cases hd : g.dropped with
  | true =>
    have h1 := drop_of_dropped w h g hg hd
    refine ⟨by rw [h1, h1], ⟨g, by rw [h1]; exact hg, hd⟩, fun hf => by cases hf⟩
  | false =>
    have h1 := drop_of_live w h g hg hd
    have h2 : (drop h w).heap[h]? = some (Droppable.drop g) := by
      rw [h1]; exact getElem?_set_self_of_some _ _ _ _ hg
    have h3 : drop h (drop h w) = drop h w :=
      drop_of_dropped (drop h w) h (Droppable.drop g) h2 rfl
    refine ⟨h3, ⟨Droppable.drop g, h2, rfl⟩, fun _ => ?_⟩
    rw [h3]
    refine ⟨newEvents_append w _ _ (by rw [h1]), by rw [h1], fun hn => ?_⟩
    rw [h1]
    simp [List.count_append, List.count_eq_zero_of_not_mem hn]

/-- Witness for C4 at a freshly created geometry. -/
theorem drop_twice_witness :
    drop 0 (drop 0 freshWorld) = drop 0 freshWorld ∧
    (∃ g2, (drop 0 freshWorld).heap[0]? = some g2 ∧ g2.dropped = true) ∧
    newEvents freshWorld (drop 0 (drop 0 freshWorld)) = [Event.removeGeometry 0] ∧
    (drop 0 (drop 0 freshWorld)).renderer.recyclelist = freshWorld.renderer.recyclelist ++ [0] ∧
    (drop 0 (drop 0 freshWorld)).renderer.recyclelist.count 0 = 1 :=
  ⟨(drop_twice freshWorld 0 freshGeometry (by decide)).1,
    (drop_twice freshWorld 0 freshGeometry (by decide)).2.1,
    ((drop_twice freshWorld 0 freshGeometry (by decide)).2.2 (by decide)).1,
    ((drop_twice freshWorld 0 freshGeometry (by decide)).2.2 (by decide)).2.1,
    ((drop_twice freshWorld 0 freshGeometry (by decide)).2.2 (by decide)).2.2 (by decide)⟩

/-! ## batch -/

/-- C5: for an enabled geometry with vertex list `V`, `batch(L)` leaves the scratch
list equal to the old `L` followed by `V` in order; the old contents are kept
and the length grows by exactly `|V|`. -/
theorem batch_appends_vertices (w : World) (h : Handle) (g : BatchGeometry)
    (L : List Vertex) (hg : w.heap[h]? = some g) (he : g.enabled = true) :
    (batch h w L).2.1 = L ++ g.vertices ∧
    (batch h w L).2.1.take L.length = L ∧
    (batch h w L).2.1.length = L.length + g.vertices.length := by
  have hb : (batch h w L).2.1 = L ++ g.vertices := by
    simp only [batch, hg, he, if_true]
    cases hv : g.vertices with
    | nil => simp
    | cons v vs => simp [pushAll_eq]
  rw [hb]
  simp

/-- Witness for C5 at an enabled geometry with two vertices and a scratch list
that already holds one vertex. -/
theorem batch_appends_vertices_witness :
    (batch 0 twoVertexWorld [vertexB]).2.1 = [vertexB] ++ twoVertexGeometry.vertices ∧
    (batch 0 twoVertexWorld [vertexB]).2.1.take [vertexB].length = [vertexB] ∧
    (batch 0 twoVertexWorld [vertexB]).2.1.length
      = [vertexB].length + twoVertexGeometry.vertices.length :=
  batch_appends_vertices twoVertexWorld 0 twoVertexGeometry [vertexB] (by decide) (by decide)

/-- C6 (what the code does): an enabled geometry with an empty vertex list appends
nothing to the scratch list and `batch` still returns 1. -/
theorem batch_returns_one_without_contribution :
    freshGeometry.enabled = true ∧ freshGeometry.vertices = [] ∧
    freshWorld.heap[0]? = some freshGeometry ∧
    (batch 0 freshWorld [vertexA]).2.1 = [vertexA] ∧
    (batch 0 freshWorld [vertexA]).2.2 = 1 := by
  decide

/-- C7 (as stated, refuted): a disabled geometry that is marked immediate and not
yet dropped is dropped by `batch`: its dropped flag and the renderer's recycle
list both change. -/
theorem batch_disabled_immediate_not_quiet :
    disabledImmediateWorld.heap[0]? = some disabledImmediateGeometry ∧
    disabledImmediateGeometry.enabled = false ∧
    disabledImmediateGeometry.dropped = false ∧
    (batch 0 disabledImmediateWorld [vertexA]).2.1 = [vertexA] ∧
    (batch 0 disabledImmediateWorld [vertexA]).1.heap[0]?
      = some (Droppable.drop disabledImmediateGeometry) ∧
    Droppable.drop disabledImmediateGeometry ≠ disabledImmediateGeometry ∧
    disabledImmediateWorld.renderer.recyclelist = [] ∧
    (batch 0 disabledImmediateWorld [vertexA]).1.renderer.recyclelist = [0] := by
  decide

/-- C7 (amended): for a geometry that is disabled or has no vertices, `batch(L)`
leaves `L` unchanged; if the geometry is not immediate or is already dropped
the whole world is unchanged; if it is immediate and not yet dropped, the only
change is the drop: dropped flag set, handle pushed on the recycle list, the
rest of the geometry as before. -/
theorem batch_quiet (w : World) (h : Handle) (g : BatchGeometry) (L : List Vertex)
    (hg : w.heap[h]? = some g) (hq : g.enabled = false ∨ g.vertices = []) :
    (batch h w L).2.1 = L ∧
    ((g.immediate = false ∨ g.dropped = true) → (batch h w L).1 = w) ∧
    (g.immediate = true → g.dropped = false →
      (batch h w L).1.heap = w.heap.set h { g with dropped := true } ∧
      (batch h w L).1.renderer.recyclelist = w.renderer.recyclelist ++ [h] ∧
      (batch h w L).1.renderer.geometry = w.renderer.geometry) := by
  refine ⟨?_, ?_, ?_⟩
  · rcases hq with he | hv
    · simp [batch, hg, he]
    · cases he : g.enabled <;> simp [batch, hg, he, hv]
  · intro hi
    have hw : (if g.immediate = true then drop h w else w) = w := by
      rcases hi with hi | hd
      · simp [hi]
      · simp [drop_of_dropped w h g hg hd]
    cases he : g.enabled <;> simp [batch, hg, he, hw]
  · intro hi hd
    have hw : (batch h w L).1 = drop h w := by
      cases he : g.enabled <;> simp [batch, hg, he, hi]
    rw [hw, drop_of_live w h g hg hd]
    exact ⟨rfl, rfl, rfl⟩

/-- Witness for C7 (amended): a disabled geometry that is not immediate is left
alone, and one that is immediate is dropped and nothing else. -/
theorem batch_quiet_witness :
    (batch 0 disabledWorld [vertexA]).2.1 = [vertexA] ∧
    (batch 0 disabledWorld [vertexA]).1 = disabledWorld ∧
    (batch 0 disabledImmediateWorld [vertexA]).2.1 = [vertexA] ∧
    (batch 0 disabledImmediateWorld [vertexA]).1.heap
      = disabledImmediateWorld.heap.set 0 { disabledImmediateGeometry with dropped := true } ∧
    (batch 0 disabledImmediateWorld [vertexA]).1.renderer.recyclelist
      = disabledImmediateWorld.renderer.recyclelist ++ [0] ∧
    (batch 0 disabledImmediateWorld [vertexA]).1.renderer.geometry
      = disabledImmediateWorld.renderer.geometry :=
  ⟨(batch_quiet disabledWorld 0 disabledGeometry [vertexA] (by decide) (Or.inl (by decide))).1,
    (batch_quiet disabledWorld 0 disabledGeometry [vertexA] (by decide)
      (Or.inl (by decide))).2.1 (Or.inl (by decide)),
    (batch_quiet disabledImmediateWorld 0 disabledImmediateGeometry [vertexA] (by decide)
      (Or.inl (by decide))).1,
    (batch_quiet disabledImmediateWorld 0 disabledImmediateGeometry [vertexA] (by decide)
      (Or.inl (by decide))).2.2 (by decide) (by decide)⟩

/-! ## Association lists -/

section MapLemmas

variable {K V : Type}

theorem lookupD_of_not_mem [DecidableEq K] (k : K) (d : V) (m : List (K × V))
    (hk : k ∉ m.map Prod.fst) : lookupD k d m = d := by
  induction m with
  | nil => rfl
  | cons e m ih =>
    simp only [List.map_cons, List.mem_cons, not_or] at hk
    have hne : ¬ e.1 = k := fun h => hk.1 h.symm
    simp [lookupD, hne, ih hk.2]

theorem lookupD_modifyAt_self [DecidableEq K] (k : K) (d : V) (f : V → V) (hf : f d = d)
    (m : List (K × V)) : lookupD k d (modifyAt k f m) = f (lookupD k d m) := by
  induction m with
  | nil => simp [lookupD, modifyAt, hf]
  | cons e m ih =>
    by_cases he : e.1 = k
    · simp [lookupD, modifyAt, he]
    · simp [lookupD, modifyAt, he, ih]

theorem lookupD_modifyAt_mem [DecidableEq K] (k : K) (d : V) (f : V → V)
    (m : List (K × V)) (hk : k ∈ m.map Prod.fst) :
    lookupD k d (modifyAt k f m) = f (lookupD k d m) := by
  induction m with
  | nil => simp at hk
  | cons e m ih =>
    by_cases he : e.1 = k
    · simp [lookupD, modifyAt, he]
    · have hk2 : k ∈ m.map Prod.fst := by
        simp only [List.map_cons, List.mem_cons] at hk
        rcases hk with hk | hk
        · exact absurd hk.symm he
        · exact hk
      simp [lookupD, modifyAt, he, ih hk2]

theorem lookupD_modifyAt_ne [DecidableEq K] (k k2 : K) (d : V) (f : V → V) (hne : k2 ≠ k)
    (m : List (K × V)) : lookupD k2 d (modifyAt k f m) = lookupD k2 d m := by
  induction m with
  | nil => simp [lookupD, modifyAt]
  | cons e m ih =>
    obtain ⟨a, b⟩ := e
    by_cases he : a = k
    · subst he
      have he2 : ¬ a = k2 := fun h2 => hne h2.symm
      simp [lookupD, modifyAt, he2]
    · by_cases he2 : a = k2
      · subst he2; simp [lookupD, modifyAt, he]
      · simp [lookupD, modifyAt, he, he2, ih]

theorem lookupD_upsert_self [DecidableEq K] (k : K) (d : V) (f : V → V)
    (m : List (K × V)) : lookupD k d (upsert k d f m) = f (lookupD k d m) := by
  induction m with
  | nil => simp [lookupD, upsert]
  | cons e m ih =>
    by_cases he : e.1 = k
    · simp [lookupD, upsert, he]
    · simp [lookupD, upsert, he, ih]

theorem lookupD_upsert_ne [DecidableEq K] (k k2 : K) (d : V) (f : V → V) (hne : k2 ≠ k)
    (m : List (K × V)) : lookupD k2 d (upsert k d f m) = lookupD k2 d m := by
  have h1 : ¬ k = k2 := fun h => hne h.symm
  induction m with
  | nil => simp [lookupD, upsert, h1]
  | cons e m ih =>
    obtain ⟨a, b⟩ := e
    by_cases he : a = k
    · subst he
      simp [lookupD, upsert, h1]
    · by_cases he2 : a = k2
      · subst he2; simp [lookupD, upsert, he]
      · simp [lookupD, upsert, he, he2, ih]

theorem lookupD_insertSorted_self (k : Depth) (d v : V) (m : List (Depth × V))
    (hk : k ∉ m.map Prod.fst) : lookupD k d (insertSorted k v m) = v := by
  induction m with
  | nil => simp [lookupD, insertSorted]
  | cons e m ih =>
    simp only [List.map_cons, List.mem_cons, not_or] at hk
    have hne : ¬ e.1 = k := fun h => hk.1 h.symm
    by_cases hlt : k < e.1
    · simp [lookupD, insertSorted, hlt]
    · simp [lookupD, insertSorted, hlt, hne, ih hk.2]

theorem lookupD_insertSorted_ne (k k2 : Depth) (d v : V) (hne : k2 ≠ k)
    (m : List (Depth × V)) : lookupD k2 d (insertSorted k v m) = lookupD k2 d m := by
  have h1 : ¬ k = k2 := fun h => hne h.symm
  induction m with
  | nil => simp [lookupD, insertSorted, h1]
  | cons e m ih =>
    obtain ⟨a, b⟩ := e
    by_cases hlt : k < a
    · simp [lookupD, insertSorted, hlt, h1]
    · by_cases he2 : a = k2
      · subst he2; simp [lookupD, insertSorted, hlt]
      · simp [lookupD, insertSorted, hlt, he2, ih]

theorem lookupD_upsertOrd_self (k : Depth) (d : V) (f : V → V) (m : List (Depth × V)) :
    lookupD k d (upsertOrd k d f m) = f (lookupD k d m) := by
  unfold upsertOrd
  by_cases hk : k ∈ m.map Prod.fst
  · rw [if_pos hk]; exact lookupD_modifyAt_mem k d f m hk
  · rw [if_neg hk, lookupD_insertSorted_self k d _ m hk, lookupD_of_not_mem k d m hk]

theorem lookupD_upsertOrd_ne (k k2 : Depth) (d : V) (f : V → V) (hne : k2 ≠ k)
    (m : List (Depth × V)) : lookupD k2 d (upsertOrd k d f m) = lookupD k2 d m := by
  unfold upsertOrd
  by_cases hk : k ∈ m.map Prod.fst
  · rw [if_pos hk]; exact lookupD_modifyAt_ne k k2 d f hne m
  · rw [if_neg hk]; exact lookupD_insertSorted_ne k k2 d _ hne m

theorem total_nil (c : V → Nat) : total c ([] : List (K × V)) = 0 := rfl

theorem total_cons (c : V → Nat) (e : K × V) (m : List (K × V)) :
    total c (e :: m) = c e.2 + total c m := by
  simp [total]

theorem total_append (c : V → Nat) (m1 m2 : List (K × V)) :
    total c (m1 ++ m2) = total c m1 + total c m2 := by
  simp [total]

theorem lookupD_le_total [DecidableEq K] (c : V → Nat) (k : K) (d : V) (hd : c d = 0)
    (m : List (K × V)) : c (lookupD k d m) ≤ total c m := by
  induction m with
  | nil => simp [lookupD, hd]
  | cons e m ih =>
    rw [total_cons]
    by_cases he : e.1 = k
    · simp [lookupD, he]
    · simp only [lookupD, he, if_false]; omega

theorem total_modifyAt [DecidableEq K] (c : V → Nat) (k : K) (d : V) (f : V → V)
    (hd : c d = 0) (hfd : c (f d) = 0) (m : List (K × V)) :
    total c (modifyAt k f m) + c (lookupD k d m) = total c m + c (f (lookupD k d m)) := by
  induction m with
  | nil => simp [lookupD, modifyAt, total_nil, hd, hfd]
  | cons e m ih =>
    by_cases he : e.1 = k
    · simp only [lookupD, modifyAt, he, if_true, total_cons]; omega
    · simp only [lookupD, modifyAt, he, if_false, total_cons]; omega

theorem total_upsert [DecidableEq K] (c : V → Nat) (k : K) (d : V) (f : V → V)
    (hd : c d = 0) (m : List (K × V)) :
    total c (upsert k d f m) + c (lookupD k d m) = total c m + c (f (lookupD k d m)) := by
  induction m with
  | nil => simp [lookupD, upsert, total_nil, total_cons, hd]
  | cons e m ih =>
    by_cases he : e.1 = k
    · simp only [lookupD, upsert, he, if_true, total_cons]; omega
    · simp only [lookupD, upsert, he, if_false, total_cons]; omega

theorem total_insertSorted (c : V → Nat) (k : Depth) (v : V) (m : List (Depth × V)) :
    total c (insertSorted k v m) = total c m + c v := by
  induction m with
  | nil => simp [insertSorted, total_nil, total_cons]
  | cons e m ih =>
    by_cases hlt : k < e.1
    · simp only [insertSorted, hlt, if_true, total_cons]; omega
    · simp only [insertSorted, hlt, if_false, total_cons, ih]; omega

theorem total_upsertOrd (c : V → Nat) (k : Depth) (d : V) (f : V → V)
    (hd : c d = 0) (m : List (Depth × V)) :
    total c (upsertOrd k d f m) + c (lookupD k d m) = total c m + c (f (lookupD k d m)) := by
  unfold upsertOrd
  by_cases hk : k ∈ m.map Prod.fst
  · rw [if_pos hk]
    clear hd
    induction m with
    | nil => simp at hk
    | cons e m ih =>
      by_cases he : e.1 = k
      · simp only [lookupD, modifyAt, he, if_true, total_cons]; omega
      · have hk2 : k ∈ m.map Prod.fst := by
          simp only [List.map_cons, List.mem_cons] at hk
          rcases hk with hk | hk
          · exact absurd hk.symm he
          · exact hk
        have := ih hk2
        simp only [lookupD, modifyAt, he, if_false, total_cons]; omega
  · rw [if_neg hk, total_insertSorted, lookupD_of_not_mem k d m hk, hd]; omega

end MapLemmas

/-! ## The graph -/

theorem bucketKey_ne_cases (k k2 : BucketKey) (hne : k2 ≠ k) (h1 : k2.depth = k.depth)
    (h2 : k2.group = k.group) (h3 : k2.texture = k.texture) : k2.primitive ≠ k.primitive := by
  intro h4
  apply hne
  cases k; cases k2
  simp_all

theorem bucketAt_graphInsert_self (k : BucketKey) (h : Handle) (G : BATCHMAPDELTA) :
    bucketAt (graphInsert k h G) k = bucketAt G k ++ [h] := by
  simp only [bucketAt, graphInsert, lookupD_upsertOrd_self, lookupD_upsert_self]

theorem bucketAt_graphInsert_ne (k k2 : BucketKey) (h : Handle) (G : BATCHMAPDELTA)
    (hne : k2 ≠ k) : bucketAt (graphInsert k h G) k2 = bucketAt G k2 := by
  unfold bucketAt graphInsert
  by_cases h1 : k2.depth = k.depth
  · rw [h1, lookupD_upsertOrd_self]
    by_cases h2 : k2.group = k.group
    · rw [h2, lookupD_upsert_self]
      by_cases h3 : k2.texture = k.texture
      · rw [h3, lookupD_upsert_self,
          lookupD_upsert_ne _ _ _ _ (bucketKey_ne_cases k k2 hne h1 h2 h3)]
      · rw [lookupD_upsert_ne _ _ _ _ h3]
    · rw [lookupD_upsert_ne _ _ _ _ h2]
  · rw [lookupD_upsertOrd_ne _ _ _ _ h1]

theorem bucketAt_graphErase_self (k : BucketKey) (h : Handle) (G : BATCHMAPDELTA) :
    bucketAt (graphErase k h G) k = (bucketAt G k).erase h := by
  unfold bucketAt graphErase
  rw [lookupD_modifyAt_self _ _ _ rfl, lookupD_modifyAt_self _ _ _ rfl,
    lookupD_modifyAt_self _ _ _ rfl, lookupD_modifyAt_self _ _ _ rfl]

theorem bucketAt_graphErase_ne (k k2 : BucketKey) (h : Handle) (G : BATCHMAPDELTA)
    (hne : k2 ≠ k) : bucketAt (graphErase k h G) k2 = bucketAt G k2 := by
  unfold bucketAt graphErase
  by_cases h1 : k2.depth = k.depth
  · rw [h1, lookupD_modifyAt_self _ _ _ rfl]
    by_cases h2 : k2.group = k.group
    · rw [h2, lookupD_modifyAt_self _ _ _ rfl]
      by_cases h3 : k2.texture = k.texture
      · rw [h3, lookupD_modifyAt_self _ _ _ rfl,
          lookupD_modifyAt_ne _ _ _ _ (bucketKey_ne_cases k k2 hne h1 h2 h3)]
      · rw [lookupD_modifyAt_ne _ _ _ _ h3]
    · rw [lookupD_modifyAt_ne _ _ _ _ h2]
  · rw [lookupD_modifyAt_ne _ _ _ _ h1]

theorem graphCount_graphInsert (x h : Handle) (k : BucketKey) (G : BATCHMAPDELTA) :
    graphCount x (graphInsert k h G) = graphCount x G + (if x = h then 1 else 0) := by
  unfold graphCount graphInsert
  have e1 := total_upsertOrd (total (total (total (fun c : GEOMCONTAINER => c.count x))))
    k.depth [] (upsert k.group [] (upsert k.texture []
      (upsert k.primitive [] (fun c => c ++ [h])))) rfl G
  have e2 := total_upsert (total (total (fun c : GEOMCONTAINER => c.count x)))
    k.group [] (upsert k.texture [] (upsert k.primitive [] (fun c => c ++ [h]))) rfl
    (lookupD k.depth [] G)
  have e3 := total_upsert (total (fun c : GEOMCONTAINER => c.count x))
    k.texture [] (upsert k.primitive [] (fun c => c ++ [h])) rfl
    (lookupD k.group [] (lookupD k.depth [] G))
  have e4 := total_upsert (fun c : GEOMCONTAINER => c.count x)
    k.primitive [] (fun c => c ++ [h]) rfl
    (lookupD k.texture [] (lookupD k.group [] (lookupD k.depth [] G)))
  simp only [List.count_append, List.count_singleton] at e4
  have e5 : (if (h == x) = true then 1 else 0) = (if x = h then 1 else 0) := by
    by_cases hx : x = h
    · simp [hx]
    · have : ¬ h = x := fun h2 => hx h2.symm
      simp [hx, this]
  rw [e5] at e4
  omega

theorem graphCount_graphErase (x h : Handle) (k : BucketKey) (G : BATCHMAPDELTA) :
    graphCount x (graphErase k h G) + (bucketAt G k).count x
      = graphCount x G + ((bucketAt G k).erase h).count x := by
  unfold graphCount graphErase bucketAt
  have e1 := total_modifyAt (total (total (total (fun c : GEOMCONTAINER => c.count x))))
    k.depth [] (modifyAt k.group (modifyAt k.texture
      (modifyAt k.primitive (fun c => c.erase h)))) rfl rfl G
  have e2 := total_modifyAt (total (total (fun c : GEOMCONTAINER => c.count x)))
    k.group [] (modifyAt k.texture (modifyAt k.primitive (fun c => c.erase h))) rfl rfl
    (lookupD k.depth [] G)
  have e3 := total_modifyAt (total (fun c : GEOMCONTAINER => c.count x))
    k.texture [] (modifyAt k.primitive (fun c => c.erase h)) rfl rfl
    (lookupD k.group [] (lookupD k.depth [] G))
  have e4 := total_modifyAt (fun c : GEOMCONTAINER => c.count x)
    k.primitive [] (fun c => c.erase h) rfl rfl
    (lookupD k.texture [] (lookupD k.group [] (lookupD k.depth [] G)))
  simp only [] at e4
  omega

theorem bucketAt_count_le_graphCount (x : Handle) (k : BucketKey) (G : BATCHMAPDELTA) :
    (bucketAt G k).count x ≤ graphCount x G := by
  unfold graphCount bucketAt
  have e1 := lookupD_le_total (total (total (total (fun c : GEOMCONTAINER => c.count x))))
    k.depth [] rfl G
  have e2 := lookupD_le_total (total (total (fun c : GEOMCONTAINER => c.count x)))
    k.group [] rfl (lookupD k.depth [] G)
  have e3 := lookupD_le_total (total (fun c : GEOMCONTAINER => c.count x))
    k.texture [] rfl (lookupD k.group [] (lookupD k.depth [] G))
  have e4 := lookupD_le_total (fun c : GEOMCONTAINER => c.count x)
    k.primitive [] rfl (lookupD k.texture [] (lookupD k.group [] (lookupD k.depth [] G)))
  simp only [] at e4
  omega

theorem alphaHandles_count (x : Handle) (m : BATCHMAPALPHA) :
    (alphaHandles m).count x = total (fun c : GEOMCONTAINER => c.count x) m := by
  induction m with
  | nil => rfl
  | cons e m ih => simp only [alphaHandles, total] at ih ⊢; simp [ih]

theorem betaHandles_count (x : Handle) (m : BATCHMAPBETA) :
    (betaHandles m).count x = total (total (fun c : GEOMCONTAINER => c.count x)) m := by
  induction m with
  | nil => rfl
  | cons e m ih =>
    have h1 := alphaHandles_count x e.2
    simp only [betaHandles] at ih ⊢
    rw [total_cons, ← ih, ← h1]
    simp

theorem gammaHandles_count (x : Handle) (m : BATCHMAPGAMMA) :
    (gammaHandles m).count x = total (total (total (fun c : GEOMCONTAINER => c.count x))) m := by
  induction m with
  | nil => rfl
  | cons e m ih =>
    have h1 := betaHandles_count x e.2
    simp only [gammaHandles] at ih ⊢
    rw [total_cons, ← ih, ← h1]
    simp

theorem graphHandles_count (x : Handle) (G : BATCHMAPDELTA) :
    (graphHandles G).count x = graphCount x G := by
  unfold graphCount
  induction G with
  | nil => rfl
  | cons e m ih =>
    have h1 := gammaHandles_count x e.2
    simp only [graphHandles] at ih ⊢
    rw [total_cons, ← ih, ← h1]
    simp

/-! ## Re-homing -/

theorem allCheck_eq_true_iff (g : BatchGeometry) :
    g.allCheck = true ↔ g.currentKey = g.previousKey := by
  cases g with
  | mk dr pt ti tx gi de en vs im gb ge =>
    cases pt; cases ti; cases gi; cases de
    simp [allCheck, currentKey, previousKey, TrackingInvariant.check]
    tauto

theorem moveGeometry_of_some (w : World) (h : Handle) (g : BatchGeometry)
    (hg : w.heap[h]? = some g) :
    moveGeometry h w =
      { heap := w.heap
        renderer :=
          { geometry := graphInsert g.currentKey h (graphErase g.previousKey h w.renderer.geometry)
            recyclelist := w.renderer.recyclelist }
        trace := w.trace ++ [Event.moveGeometry h] } := by
  simp [moveGeometry, World.emit, hg]

theorem update_of_drift (w : World) (h : Handle) (g : BatchGeometry)
    (hg : w.heap[h]? = some g) (hd : g.currentKey ≠ g.previousKey) :
    update h w = (moveGeometry h w).modifyGeom h resetInvariants := by
  have hc : ¬ g.allCheck = true := fun hc => hd ((allCheck_eq_true_iff g).1 hc)
  have hc2 : (g.primitivetype.check && g.textureid.check && g.groupid.check && g.depth.check)
      = false := by simpa [allCheck] using hc
  simp [update, hg, hc2]

/-- C1: for a geometry registered once, at the bucket of its last-observed keys,
whose current keys have drifted from them, `update()` leaves it out of the
prior bucket and exactly once in the bucket of its current keys (and exactly
once in the whole graph). It does so by one call of `moveGeometry`, made while
the invariants still hold the prior last-observed values, followed by the
reset of the four invariants. -/
theorem update_rehomes (w : World) (h : Handle) (g : BatchGeometry)
    (hg : w.heap[h]? = some g)
    (hdrift : g.currentKey ≠ g.previousKey)
    (hreg : (bucketAt w.renderer.geometry g.previousKey).count h = 1)
    (huniq : (graphHandles w.renderer.geometry).count h = 1) :
    h ∉ bucketAt (update h w).renderer.geometry g.previousKey ∧
    (bucketAt (update h w).renderer.geometry g.currentKey).count h = 1 ∧
    (graphHandles (update h w).renderer.geometry).count h = 1 ∧
    newEvents w (update h w) = [Event.moveGeometry h] ∧
    (moveGeometry h w).heap[h]? = some g ∧
    update h w = (moveGeometry h w).modifyGeom h resetInvariants ∧
    (update h w).heap[h]? = some g.resetInvariants ∧
    g.resetInvariants.currentKey = g.currentKey ∧
    g.resetInvariants.previousKey = g.currentKey := by
  have hu := update_of_drift w h g hg hdrift
  have hm := moveGeometry_of_some w h g hg
  have hmg : (moveGeometry h w).heap[h]? = some g := by rw [hm]; exact hg
  have hu2 : update h w =
      { heap := w.heap.set h g.resetInvariants
        renderer :=
          { geometry := graphInsert g.currentKey h (graphErase g.previousKey h w.renderer.geometry)
            recyclelist := w.renderer.recyclelist }
        trace := w.trace ++ [Event.moveGeometry h] } := by
    rw [hu, modifyGeom_of_some h _ _ g hmg, hm]
  rw [graphHandles_count] at huniq
  have hG : (update h w).renderer.geometry
      = graphInsert g.currentKey h (graphErase g.previousKey h w.renderer.geometry) := by
    rw [hu2]
  have c1 := graphCount_graphErase h h g.previousKey w.renderer.geometry
  rw [hreg, List.count_erase_self, hreg] at c1
  have c2 := bucketAt_count_le_graphCount h g.currentKey
    (graphErase g.previousKey h w.renderer.geometry)
  have c3 := graphCount_graphInsert h h g.currentKey
    (graphErase g.previousKey h w.renderer.geometry)
  simp only [if_true] at c3
  refine ⟨?_, ?_, ?_, ?_, hmg, hu, ?_, ?_, ?_⟩
  · rw [hG, bucketAt_graphInsert_ne _ _ _ _ (Ne.symm hdrift), bucketAt_graphErase_self]
    intro hmem
    have := List.count_pos_iff.2 hmem
    rw [List.count_erase_self, hreg] at this
    omega
  · rw [hG, bucketAt_graphInsert_self, List.count_append]
    simp only [List.count_singleton, beq_self_eq_true, if_true]
    omega
  · rw [graphHandles_count, hG]; omega
  · exact newEvents_append w _ _ (by rw [hu2])
  · rw [hu2]; exact getElem?_set_self_of_some _ _ _ _ hg
  · rfl
  · rfl

/-- Witness for C1 at a geometry created at depth 0 and then set to depth 5. -/
theorem update_rehomes_witness :
    0 ∉ bucketAt (update 0 driftedWorld).renderer.geometry driftedGeometry.previousKey ∧
    (bucketAt (update 0 driftedWorld).renderer.geometry driftedGeometry.currentKey).count 0 = 1 ∧
    (graphHandles (update 0 driftedWorld).renderer.geometry).count 0 = 1 ∧
    newEvents driftedWorld (update 0 driftedWorld) = [Event.moveGeometry 0] ∧
    (moveGeometry 0 driftedWorld).heap[0]? = some driftedGeometry ∧
    update 0 driftedWorld = (moveGeometry 0 driftedWorld).modifyGeom 0 resetInvariants ∧
    (update 0 driftedWorld).heap[0]? = some driftedGeometry.resetInvariants ∧
    driftedGeometry.resetInvariants.currentKey = driftedGeometry.currentKey ∧
    driftedGeometry.resetInvariants.previousKey = driftedGeometry.currentKey :=
  update_rehomes driftedWorld 0 driftedGeometry (by decide) (by decide) (by decide) (by decide)

/-! ## Steps of the draw routine -/

theorem map_set_of_eq {α β : Type} (f : α → β) (l : List α) (i : Nat) (a b : α)
    (hi : l[i]? = some a) (hf : f b = f a) : (l.set i b).map f = l.map f := by
  induction l generalizing i with
  | nil => rfl
  | cons c l ih =>
    cases i with
    | zero =>
      simp only [List.getElem?_cons_zero, Option.some.injEq] at hi
      subst hi
      simp [hf]
    | succ i =>
      simp only [List.getElem?_cons_succ] at hi
      simp [ih i hi]

theorem heap_forget_get (a b : List BatchGeometry)
    (hab : a.map forgetDropped = b.map forgetDropped) (x : Handle) :
    (a[x]?).map forgetDropped = (b[x]?).map forgetDropped := by
  rw [← List.getElem?_map, ← List.getElem?_map, hab]

theorem contribution_congr (a b : List BatchGeometry)
    (hab : a.map forgetDropped = b.map forgetDropped) (x : Handle) :
    contribution a x = contribution b x := by
  have h := heap_forget_get a b hab x
  unfold contribution
  cases ha : a[x]? with
  | none =>
    cases hb : b[x]? with
    | none => rfl
    | some gb => rw [ha, hb] at h; simp at h
  | some ga =>
    cases hb : b[x]? with
    | none => rw [ha, hb] at h; simp at h
    | some gb =>
      rw [ha, hb] at h
      simp only [Option.map_some', Option.some.injEq] at h
      have h1 : ga.enabled = gb.enabled := by
        have := congrArg BatchGeometry.enabled h; exact this
      have h2 : ga.vertices = gb.vertices := by
        have := congrArg BatchGeometry.vertices h; exact this
      simp [h1, h2]

theorem isImmediate_congr (w w2 : World)
    (hab : w2.heap.map forgetDropped = w.heap.map forgetDropped) (x : Handle) :
    w2.isImmediate x = w.isImmediate x := by
  have h := heap_forget_get _ _ hab x
  unfold World.isImmediate
  cases ha : w.heap[x]? with
  | none =>
    cases hb : w2.heap[x]? with
    | none => rfl
    | some gb => rw [ha, hb] at h; simp at h
  | some ga =>
    cases hb : w2.heap[x]? with
    | none => rw [ha, hb] at h; simp at h
    | some gb =>
      rw [ha, hb] at h
      simp only [Option.map_some', Option.some.injEq] at h
      have := congrArg BatchGeometry.immediate h
      exact this

theorem visitFrame_congr (a b : List BatchGeometry)
    (hab : a.map forgetDropped = b.map forgetDropped) (first : Bool) (hs : List Handle) :
    visitFrame a first hs = visitFrame b first hs := by
  unfold visitFrame
  congr 1
  apply List.map_congr_left
  intro x _
  rw [contribution_congr a b hab x]

theorem visitFrame_append (heap : List BatchGeometry) (first : Bool) (hs1 hs2 : List Handle) :
    visitFrame heap first (hs1 ++ hs2)
      = visitFrame heap first hs1 ++ visitFrame heap (first && hs1.isEmpty) hs2 := by
  cases hs1 with
  | nil => simp [visitFrame]
  | cons h t => cases first <;> simp [visitFrame]

theorem step_refl (w : World) : Step w w [] :=
  { graph := rfl, heap := rfl, dropped := fun _ h => h, recycled := fun _ h => h,
    trace := ⟨[], by simp, rfl⟩ }

theorem step_trans {w w1 w2 : World} {fr1 fr2 : List Event}
    (s1 : Step w w1 fr1) (s2 : Step w1 w2 fr2) : Step w w2 (fr1 ++ fr2) where
  graph := s2.graph.trans s1.graph
  heap := s2.heap.trans s1.heap
  dropped := fun x h => s2.dropped x (s1.dropped x h)
  recycled := fun x h => s2.recycled x (s1.recycled x h)
  trace := by
    obtain ⟨e1, ht1, hf1⟩ := s1.trace
    obtain ⟨e2, ht2, hf2⟩ := s2.trace
    exact ⟨e1 ++ e2, by rw [ht2, ht1, List.append_assoc], by rw [List.filter_append, hf1, hf2]⟩

theorem step_emit (w : World) (e : Event) :
    Step w (w.emit e) (if e.isFrame then [e] else []) where
  graph := rfl
  heap := rfl
  dropped := fun _ h => h
  recycled := fun _ h => h
  trace := ⟨[e], rfl, by cases he : e.isFrame <;> simp [List.filter, he]⟩

theorem step_cast {w w2 : World} {fr fr2 : List Event} (s : Step w w2 fr) (h : fr = fr2) :
    Step w w2 fr2 := h ▸ s

theorem isDropped_set (heap : List BatchGeometry) (h x : Handle) (g g2 : BatchGeometry)
    (hg : heap[h]? = some g) (w : World) (hw : w.heap = heap.set h g2) :
    w.isDropped x = if x = h then g2.dropped else
      (match heap[x]? with | some g3 => g3.dropped | none => false) := by
  unfold World.isDropped
  rw [hw]
  by_cases hx : x = h
  · subst hx
    rw [getElem?_set_self_of_some _ _ _ _ hg]
    simp
  · have hx2 : ¬ h = x := fun h2 => hx h2.symm
    rw [List.getElem?_set_ne hx2]
    simp [hx]

theorem step_drop (w : World) (h : Handle) : Step w (BatchGeometry.drop h w) [] := by
  cases hg : w.heap[h]? with
  | none =>
    have : BatchGeometry.drop h w = w := by simp [BatchGeometry.drop, hg]
    rw [this]; exact step_refl w
  | some g =>
    cases hd : g.dropped with
    | true => rw [drop_of_dropped w h g hg hd]; exact step_refl w
    | false =>
      have hE := drop_of_live w h g hg hd
      have hdr : ∀ x, (BatchGeometry.drop h w).isDropped x
          = if x = h then true else w.isDropped x := by
        intro x
        rw [isDropped_set w.heap h x g (Droppable.drop g) hg _ (by rw [hE])]
        rfl
      refine
        { graph := by rw [hE], heap := ?_, dropped := ?_, recycled := ?_, trace := ?_ }
      · rw [hE]
        exact map_set_of_eq forgetDropped w.heap h g (Droppable.drop g) hg rfl
      · intro x hx
        rw [hdr]
        by_cases hxh : x = h
        · simp [hxh]
        · simpa [hxh] using hx
      · intro x hx hx2
        have hrl : (BatchGeometry.drop h w).renderer.recyclelist
            = w.renderer.recyclelist ++ [h] := by rw [hE]
        rw [hrl]
        rw [hdr] at hx2
        by_cases hxh : x = h
        · simp [hxh]
        · simp only [hxh, if_false] at hx2
          exact List.mem_append_left _ (hx hx2)
      · exact ⟨[Event.removeGeometry h], by rw [hE], rfl⟩

theorem batch_step (w : World) (h : Handle) (L : List Vertex) :
    Step w (batch h w L).1 [] := by
  cases hg : w.heap[h]? with
  | none => simp only [batch, hg]; exact step_refl w
  | some g =>
    have hw : (batch h w L).1 = if g.immediate then BatchGeometry.drop h w else w := by
      cases he : g.enabled <;> simp [batch, hg, he]
    rw [hw]
    cases hi : g.immediate with
    | true => simpa using step_drop w h
    | false => simpa using step_refl w

theorem batch_list (w : World) (h : Handle) (L : List Vertex) :
    (batch h w L).2.1 = L ++ contribution w.heap h := by
  cases hg : w.heap[h]? with
  | none => simp [batch, contribution, hg]
  | some g =>
    cases he : g.enabled with
    | false => simp [batch, contribution, hg, he]
    | true =>
      cases hv : g.vertices with
      | nil => simp [batch, contribution, hg, he, hv]
      | cons v vs => simp [batch, contribution, hg, he, hv, pushAll_eq]

theorem batch_drops_immediate (w : World) (h : Handle) (L : List Vertex)
    (hi : w.isImmediate h = true) : (batch h w L).1.isDropped h = true := by
  cases hg : w.heap[h]? with
  | none => simp [World.isImmediate, hg] at hi
  | some g =>
    have hi2 : g.immediate = true := by simpa [World.isImmediate, hg] using hi
    have hw : (batch h w L).1 = BatchGeometry.drop h w := by
      cases he : g.enabled <;> simp [batch, hg, he, hi2]
    rw [hw]
    cases hd : g.dropped with
    | true =>
      rw [drop_of_dropped w h g hg hd]
      simp [World.isDropped, hg, hd]
    | false =>
      rw [isDropped_set w.heap h h g (Droppable.drop g) hg _ (by rw [drop_of_live w h g hg hd])]
      simp [Droppable.drop]

theorem groupBegin_step (w : World) (h : Handle) : Step w (groupBegin h w) [] := by
  cases hg : w.heap[h]? with
  | none => simp only [groupBegin, hg]; exact step_refl w
  | some g =>
    cases hf : g.groupbegin with
    | none => simp only [groupBegin, hg, hf]; exact step_refl w
    | some f => simp only [groupBegin, hg, hf]; exact step_emit w (Event.call f)

theorem groupEnd_step (w : World) (h : Handle) : Step w (groupEnd h w) [] := by
  cases hg : w.heap[h]? with
  | none => simp only [groupEnd, hg]; exact step_refl w
  | some g =>
    cases hf : g.groupend with
    | none => simp only [groupEnd, hg, hf]; exact step_refl w
    | some f => simp only [groupEnd, hg, hf]; exact step_emit w (Event.call f)

/-! ## Visiting the geometries of one group -/

theorem visits_trans {st st1 st2 : DrawState} {hs1 hs2 : List Handle}
    (v1 : Visits st st1 hs1) (v2 : Visits st1 st2 hs2) : Visits st st2 (hs1 ++ hs2) where
  step := by
    have s := step_trans v1.step v2.step
    rw [v1.first, visitFrame_congr _ _ v1.step.heap, ← visitFrame_append] at s
    exact s
  first := by
    rw [v2.first, v1.first]
    cases hs1 <;> cases hs2 <;> simp
  last := by
    rw [v2.last, v1.last, List.getLast?_append]
    cases hs2.getLast? <;> simp [Option.or]
  immediate := by
    intro x hx hi
    rcases List.mem_append.1 hx with h1 | h2
    · exact v2.step.dropped x (v1.immediate x h1 hi)
    · apply v2.immediate x h2
      rw [isImmediate_congr _ _ v1.step.heap]
      exact hi

theorem visits_of_step (st st2 : DrawState) (s : Step st.world st2.world [])
    (hf : st2.firstInGroup = st.firstInGroup) (hl : st2.lastOfGroup = st.lastOfGroup) :
    Visits st st2 [] where
  step := by
    have : visitFrame st.world.heap st.firstInGroup [] = [] := by
      cases st.firstInGroup <;> rfl
    rw [this]; exact s
  first := by simp [hf]
  last := by simp [hl, Option.or]
  immediate := by intro x hx; simp at hx

theorem visits_foldl {E : Type} (f : DrawState → E → DrawState) (H : E → List Handle)
    (hf : ∀ st e, Visits st (f st e) (H e)) (l : List E) (st : DrawState) :
    Visits st (l.foldl f st) ((l.map H).flatten) := by
  induction l generalizing st with
  | nil => exact visits_of_step st st (step_refl _) rfl rfl
  | cons e l ih =>
    simp only [List.foldl_cons, List.map_cons, List.flatten_cons]
    exact visits_trans (hf st e) (ih (f st e))

theorem visits_drawGeometry (st : DrawState) (h : Handle) :
    Visits st (drawGeometry st h) [h] := by
  have s1 : Step st.world
      (if st.firstInGroup then groupBegin h (st.world.emit (Event.groupBegin h)) else st.world)
      (if st.firstInGroup then [Event.groupBegin h] else []) := by
    cases st.firstInGroup with
    | false => exact step_refl _
    | true =>
      have := step_trans (step_emit st.world (Event.groupBegin h))
        (groupBegin_step (st.world.emit (Event.groupBegin h)) h)
      simpa [Event.isFrame] using this
  generalize hw1 : (if st.firstInGroup then groupBegin h (st.world.emit (Event.groupBegin h))
      else st.world) = w1 at s1
  have s2 := batch_step w1 h st.scratch
  have hl := batch_list w1 h st.scratch
  have hc : contribution w1.heap h = contribution st.world.heap h :=
    contribution_congr _ _ s1.heap h
  have hst : drawGeometry st h =
      { world := (batch h w1 st.scratch).1.emit (Event.batch h (contribution st.world.heap h))
        scratch := st.scratch ++ contribution st.world.heap h
        firstInGroup := false
        lastOfGroup := some h } := by
    simp only [drawGeometry, hw1, hl, hc, List.drop_left]
  rw [hst]
  refine { step := ?_, first := by simp, last := by simp [Option.or], immediate := ?_ }
  · have s3 := step_emit (batch h w1 st.scratch).1 (Event.batch h (contribution st.world.heap h))
    have := step_trans (step_trans s1 s2) s3
    have hfr : ((if st.firstInGroup then [Event.groupBegin h] else []) ++ [] ++
        (if (Event.batch h (contribution st.world.heap h)).isFrame then
          [Event.batch h (contribution st.world.heap h)] else []))
        = visitFrame st.world.heap st.firstInGroup [h] := by
      cases st.firstInGroup <;> simp [visitFrame, Event.isFrame]
    exact step_cast this hfr
  · intro x hx hi
    simp only [List.mem_singleton] at hx
    subst hx
    have hi1 : w1.isImmediate x = true := by
      rw [isImmediate_congr _ _ s1.heap]; exact hi
    have hd := batch_drops_immediate w1 x st.scratch hi1
    exact (step_emit _ _).dropped x hd

theorem flatten_map_singleton {α : Type} (l : List α) : (l.map (fun h => [h])).flatten = l := by
  induction l with
  | nil => rfl
  | cons a l ih => simp [ih]

theorem visits_drawAlpha (st : DrawState) (e : Nat × GEOMCONTAINER) :
    Visits st (drawAlpha st e) e.2 := by
  have v0 : Visits st { st with scratch := [] } [] :=
    visits_of_step st _ (step_refl _) rfl rfl
  have v1 := visits_foldl drawGeometry (fun h => [h]) visits_drawGeometry e.2
    { st with scratch := [] }
  rw [flatten_map_singleton] at v1
  have v2 := visits_trans v0 v1
  simp only [List.nil_append] at v2
  simp only [drawAlpha]
  generalize List.foldl drawGeometry { st with scratch := [] } e.2 = st1 at v1 v2 ⊢
  by_cases hs : (!st1.scratch.isEmpty) = true
  · rw [if_pos hs]
    have s3 : Step st1.world (st1.world.emit (Event.drawPrimitive e.1 st1.scratch)) [] :=
      step_emit st1.world (Event.drawPrimitive e.1 st1.scratch)
    have v3 : Visits st1
        { st1 with world := st1.world.emit (Event.drawPrimitive e.1 st1.scratch) } [] :=
      visits_of_step st1 _ s3 rfl rfl
    have v4 := visits_trans v2 v3
    rw [List.append_nil] at v4
    exact v4
  · rw [if_neg hs]; exact v2

theorem visits_drawBeta (st : DrawState) (e : Nat × BATCHMAPALPHA) :
    Visits st (drawBeta st e) (alphaHandles e.2) := by
  have s0 : Step st.world (st.world.emit (Event.bindTexture e.1)) [] :=
    step_emit st.world (Event.bindTexture e.1)
  have v0 : Visits st { st with world := st.world.emit (Event.bindTexture e.1) } [] :=
    visits_of_step st _ s0 rfl rfl
  have v1 := visits_foldl drawAlpha (fun a => a.2) visits_drawAlpha e.2
    { st with world := st.world.emit (Event.bindTexture e.1) }
  have v2 := visits_trans v0 v1
  rw [List.nil_append] at v2
  exact v2

/-! ## Drawing whole groups, depths and the graph -/

theorem groupFrame_congr (a b : List BatchGeometry)
    (hab : a.map forgetDropped = b.map forgetDropped) (hs : List Handle) :
    groupFrame a hs = groupFrame b hs := by
  cases hs with
  | nil => rfl
  | cons h t =>
    simp only [groupFrame]
    congr 2
    apply List.map_congr_left
    intro x _
    rw [contribution_congr a b hab x]

theorem groupFrame_eq_visitFrame (heap : List BatchGeometry) (h : Handle) (t : List Handle) :
    groupFrame heap (h :: t)
      = visitFrame heap true (h :: t)
        ++ [Event.groupEnd ((h :: t).getLast (List.cons_ne_nil h t))] := by
  simp [groupFrame, visitFrame]

theorem frames_trans {w w1 w2 : World} {hs1 hs2 : List Handle} {fr1 fr2 : List Event}
    (f1 : Frames w w1 hs1 fr1) (f2 : Frames w1 w2 hs2 fr2) :
    Frames w w2 (hs1 ++ hs2) (fr1 ++ fr2) where
  step := step_trans f1.step f2.step
  immediate := by
    intro x hx hi
    rcases List.mem_append.1 hx with h1 | h2
    · exact f2.step.dropped x (f1.immediate x h1 hi)
    · apply f2.immediate x h2
      rw [isImmediate_congr _ _ f1.step.heap]
      exact hi

theorem frames_refl (w : World) : Frames w w [] [] where
  step := step_refl w
  immediate := by intro x hx; simp at hx

theorem frames_foldl {E : Type} (f : DrawState → E → DrawState) (H : E → List Handle)
    (F : List BatchGeometry → E → List Event)
    (hF : ∀ a b : List BatchGeometry, a.map forgetDropped = b.map forgetDropped →
      ∀ e, F a e = F b e)
    (hf : ∀ st e, Frames st.world (f st e).world (H e) (F st.world.heap e))
    (l : List E) (st : DrawState) :
    Frames st.world (l.foldl f st).world ((l.map H).flatten)
      ((l.map (F st.world.heap)).flatten) := by
  induction l generalizing st with
  | nil => exact frames_refl _
  | cons e l ih =>
    simp only [List.foldl_cons, List.map_cons, List.flatten_cons]
    have f1 := hf st e
    have f2 := ih (f st e)
    have hm : l.map (F (f st e).world.heap) = l.map (F st.world.heap) := by
      apply List.map_congr_left
      intro x _
      exact hF _ _ f1.step.heap x
    rw [hm] at f2
    exact frames_trans f1 f2

theorem frames_drawGamma (st : DrawState) (e : Int × BATCHMAPBETA) :
    Frames st.world (drawGamma st e).world (betaHandles e.2)
      (groupFrame st.world.heap (betaHandles e.2)) := by
  have v := visits_foldl drawBeta (fun b => alphaHandles b.2) visits_drawBeta e.2
    { st with firstInGroup := true, lastOfGroup := none }
  have hb : ((e.2.map (fun b => alphaHandles b.2)).flatten) = betaHandles e.2 := rfl
  rw [hb] at v
  simp only [drawGamma]
  generalize List.foldl drawBeta { st with firstInGroup := true, lastOfGroup := none } e.2
    = st1 at v ⊢
  have hfirst := v.first
  have hlast := v.last
  have hstep := v.step
  have himm := v.immediate
  simp only at hfirst hlast hstep himm
  cases hhs : betaHandles e.2 with
  | nil =>
    rw [hhs] at hfirst hstep
    have h1 : st1.firstInGroup = true := by simpa using hfirst
    simp only [h1, Bool.not_true, Bool.false_eq_true, if_false]
    exact { step := hstep, immediate := by intro x hx; simp at hx }
  | cons h t =>
    rw [hhs] at hfirst hlast hstep himm
    have h1 : st1.firstInGroup = false := by simpa using hfirst
    have h2 : st1.lastOfGroup = some ((h :: t).getLast (List.cons_ne_nil h t)) := by
      rw [hlast, List.getLast?_eq_getLast _ (List.cons_ne_nil h t)]
      rfl
    simp only [h1, h2, Bool.not_false, if_true]
    have s2 : Step st1.world
        (st1.world.emit (Event.groupEnd ((h :: t).getLast (List.cons_ne_nil h t))))
        [Event.groupEnd ((h :: t).getLast (List.cons_ne_nil h t))] :=
      step_emit st1.world _
    have s3 := groupEnd_step
      (st1.world.emit (Event.groupEnd ((h :: t).getLast (List.cons_ne_nil h t))))
      ((h :: t).getLast (List.cons_ne_nil h t))
    have s := step_trans (step_trans hstep s2) s3
    rw [List.append_nil, ← groupFrame_eq_visitFrame] at s
    exact
      { step := s
        immediate := fun x hx hi => s3.dropped x (s2.dropped x (himm x hx hi)) }

theorem frames_drawDelta (st : DrawState) (e : Depth × BATCHMAPGAMMA) :
    Frames st.world (drawDelta st e).world (gammaHandles e.2)
      ((e.2.map (fun g => groupFrame st.world.heap (betaHandles g.2))).flatten) :=
  frames_foldl drawGamma (fun g => betaHandles g.2)
    (fun heap g => groupFrame heap (betaHandles g.2))
    (fun a b hab g => groupFrame_congr a b hab (betaHandles g.2))
    frames_drawGamma e.2 st

theorem frames_draw (w : World) :
    Frames w (draw w) (graphHandles w.renderer.geometry)
      (graphFrame w.heap w.renderer.geometry) := by
  have hcongr : ∀ a b : List BatchGeometry, a.map forgetDropped = b.map forgetDropped →
      ∀ e : Depth × BATCHMAPGAMMA,
        (e.2.map (fun g => groupFrame a (betaHandles g.2))).flatten
          = (e.2.map (fun g => groupFrame b (betaHandles g.2))).flatten := by
    intro a b hab e
    congr 1
    apply List.map_congr_left
    intro g _
    exact groupFrame_congr a b hab (betaHandles g.2)
  exact frames_foldl drawDelta (fun d => gammaHandles d.2)
    (fun heap d => (d.2.map (fun g => groupFrame heap (betaHandles g.2))).flatten)
    hcongr frames_drawDelta w.renderer.geometry
    { world := w, scratch := [], firstInGroup := true, lastOfGroup := none }

theorem newEvents_draw (w : World) :
    (newEvents w (draw w)).filter Event.isFrame = graphFrame w.heap w.renderer.geometry := by
  obtain ⟨es, ht, hf⟩ := (frames_draw w).step.trace
  rw [newEvents_append w _ es ht, hf]

/-! ## Group hooks -/

theorem groupBegin_events (w : World) (h : Handle) (g : BatchGeometry)
    (hg : w.heap[h]? = some g) :
    newEvents w (groupBegin h w)
      = (match g.groupbegin with | some f => [Event.call f] | none => []) ∧
    (g.groupbegin = none → groupBegin h w = w) := by
  cases hf : g.groupbegin with
  | none => simp [groupBegin, hg, hf, newEvents]
  | some f => simp [groupBegin, hg, hf, newEvents, World.emit]

theorem groupEnd_events (w : World) (h : Handle) (g : BatchGeometry)
    (hg : w.heap[h]? = some g) :
    newEvents w (groupEnd h w)
      = (match g.groupend with | some f => [Event.call f] | none => []) ∧
    (g.groupend = none → groupEnd h w = w) := by
  cases hf : g.groupend with
  | none => simp [groupEnd, hg, hf, newEvents]
  | some f => simp [groupEnd, hg, hf, newEvents, World.emit]

theorem filter_isGroupBegin_batches (heap : List BatchGeometry) (l : List Handle) :
    (l.map (fun y => Event.batch y (contribution heap y))).filter Event.isGroupBegin = [] := by
  induction l with
  | nil => rfl
  | cons a l ih => simp [List.filter, Event.isGroupBegin, ih]

theorem filter_isGroupEnd_batches (heap : List BatchGeometry) (l : List Handle) :
    (l.map (fun y => Event.batch y (contribution heap y))).filter Event.isGroupEnd = [] := by
  induction l with
  | nil => rfl
  | cons a l ih => simp [List.filter, Event.isGroupEnd, ih]

/-! ## The batch calls of a frame -/

theorem batchLog_append (a b : List Event) : batchLog (a ++ b) = batchLog a ++ batchLog b := by
  induction a with
  | nil => rfl
  | cons e a ih => cases e <;> simp [batchLog, ih]

theorem batchLog_filter (es : List Event) :
    batchLog (es.filter Event.isFrame) = batchLog es := by
  induction es with
  | nil => rfl
  | cons e es ih => cases e <;> simp [batchLog, List.filter, Event.isFrame, ih]

theorem batchLog_flatten (L : List (List Event)) :
    batchLog L.flatten = (L.map batchLog).flatten := by
  induction L with
  | nil => rfl
  | cons l L ih => simp [batchLog_append, ih]

theorem batchLog_batches (heap : List BatchGeometry) (l : List Handle) :
    batchLog (l.map (fun y => Event.batch y (contribution heap y)))
      = l.map (fun y => (y, contribution heap y)) := by
  induction l with
  | nil => rfl
  | cons a l ih => simp [batchLog, ih]

theorem batchLog_groupFrame (heap : List BatchGeometry) (hs : List Handle) :
    batchLog (groupFrame heap hs) = hs.map (fun y => (y, contribution heap y)) := by
  cases hs with
  | nil => rfl
  | cons h t =>
    have hgf : groupFrame heap (h :: t)
        = [Event.groupBegin h] ++ (h :: t).map (fun y => Event.batch y (contribution heap y))
          ++ [Event.groupEnd ((h :: t).getLast (List.cons_ne_nil h t))] := by
      simp [groupFrame]
    rw [hgf, batchLog_append, batchLog_append, batchLog_batches]
    simp [batchLog]

theorem batchLog_graphFrame (heap : List BatchGeometry) (G : BATCHMAPDELTA) :
    batchLog (graphFrame heap G) = (graphHandles G).map (fun y => (y, contribution heap y)) := by
  unfold graphFrame graphHandles gammaHandles
  rw [batchLog_flatten]
  simp only [List.map_map, List.map_flatten]
  congr 1
  apply List.map_congr_left
  intro d _
  simp only [Function.comp]
  rw [batchLog_flatten]
  simp only [List.map_map, List.map_flatten]
  congr 1
  apply List.map_congr_left
  intro g _
  simp only [Function.comp]
  exact batchLog_groupFrame heap (betaHandles g.2)

theorem batchLog_draw (w : World) :
    batchLog (newEvents w (draw w))
      = (graphHandles w.renderer.geometry).map (fun y => (y, contribution w.heap y)) := by
  rw [← batchLog_filter, newEvents_draw, batchLog_graphFrame]

/-! ## The prune sweep -/

theorem previousKey_congr (a b : List BatchGeometry)
    (hab : a.map forgetDropped = b.map forgetDropped) (x : Handle) (ga : BatchGeometry)
    (ha : a[x]? = some ga) : ∃ gb, b[x]? = some gb ∧ gb.previousKey = ga.previousKey := by
  have h := heap_forget_get a b hab x
  rw [ha] at h
  cases hb : b[x]? with
  | none => rw [hb] at h; simp at h
  | some gb =>
    rw [hb] at h
    simp only [Option.map_some', Option.some.injEq] at h
    refine ⟨gb, rfl, ?_⟩
    have := congrArg BatchGeometry.previousKey h
    exact this.symm

theorem graphCount_graphErase_le (x y : Handle) (k : BucketKey) (G : BATCHMAPDELTA) :
    graphCount x (graphErase k y G) ≤ graphCount x G := by
  have h1 := graphCount_graphErase x y k G
  have h2 : ((bucketAt G k).erase y).count x ≤ (bucketAt G k).count x :=
    (List.erase_sublist y (bucketAt G k)).count_le x
  omega

theorem graphCount_graphErase_ne (x y : Handle) (hxy : y ≠ x) (k : BucketKey)
    (G : BATCHMAPDELTA) : graphCount x (graphErase k y G) = graphCount x G := by
  have h1 := graphCount_graphErase x y k G
  have h2 : ((bucketAt G k).erase y).count x = (bucketAt G k).count x :=
    List.count_erase_of_ne (Ne.symm hxy) _
  omega

theorem bucketAt_graphErase_count_ne (x y : Handle) (hxy : y ≠ x) (k k2 : BucketKey)
    (G : BATCHMAPDELTA) :
    (bucketAt (graphErase k y G) k2).count x = (bucketAt G k2).count x := by
  by_cases hk : k2 = k
  · subst hk
    rw [bucketAt_graphErase_self]
    exact List.count_erase_of_ne (Ne.symm hxy) _
  · rw [bucketAt_graphErase_ne k k2 y G hk]

theorem pruneOne_graphCount_le (heap : List BatchGeometry) (x y : Handle) (G : BATCHMAPDELTA) :
    graphCount x (pruneOne heap G y) ≤ graphCount x G := by
  unfold pruneOne
  cases heap[y]? with
  | none => exact Nat.le_refl _
  | some g => exact graphCount_graphErase_le x y g.previousKey G

theorem prune_keeps_zero (heap : List BatchGeometry) (x : Handle) (rl : List Handle)
    (G : BATCHMAPDELTA) (h0 : graphCount x G = 0) :
    graphCount x (rl.foldl (pruneOne heap) G) = 0 := by
  induction rl generalizing G with
  | nil => exact h0
  | cons y rl ih =>
    apply ih
    have := pruneOne_graphCount_le heap x y G
    omega

theorem prune_removes (heap : List BatchGeometry) (x : Handle) (gx : BatchGeometry)
    (hx : heap[x]? = some gx) (rl : List Handle) (G : BATCHMAPDELTA)
    (hJ : graphCount x G = 0 ∨
      (graphCount x G = 1 ∧ (bucketAt G gx.previousKey).count x = 1))
    (hmem : x ∈ rl) : graphCount x (rl.foldl (pruneOne heap) G) = 0 := by
  induction rl generalizing G with
  | nil => simp at hmem
  | cons y rl ih =>
    simp only [List.foldl_cons]
    by_cases hy : y = x
    · subst hy
      apply prune_keeps_zero
      have hp : pruneOne heap G y = graphErase gx.previousKey y G := by
        simp [pruneOne, hx]
      rw [hp]
      rcases hJ with h0 | ⟨h1, h2⟩
      · have := graphCount_graphErase_le y y gx.previousKey G
        omega
      · have := graphCount_graphErase y y gx.previousKey G
        rw [List.count_erase_self, h2] at this
        omega
    · have hmem2 : x ∈ rl := by
        rcases List.mem_cons.1 hmem with h1 | h1
        · exact absurd h1.symm hy
        · exact h1
      apply ih _ _ hmem2
      unfold pruneOne
      cases heap[y]? with
      | none => exact hJ
      | some g =>
        simp only
        rw [graphCount_graphErase_ne x y hy, bucketAt_graphErase_count_ne x y hy]
        exact hJ

/-! ## Immediate geometry -/

theorem filter_handle_map (c : Handle → List Vertex) (h : Handle) (l : List Handle) :
    (l.map (fun y => (y, c y))).filter (fun p => decide (p.1 = h))
      = List.replicate (l.count h) (h, c h) := by
  induction l with
  | nil => rfl
  | cons a l ih =>
    by_cases ha : a = h
    · subst ha
      simp [List.filter_cons, ih, List.replicate_succ]
    · have ha2 : ¬ (a == h) = true := by simpa using ha
      simp [List.filter_cons, ih, ha, List.count_cons, ha2]

/-! ## Well-formed maps -/

section MapWF

variable {K V : Type}

theorem keys_modifyAt [DecidableEq K] (k : K) (f : V → V) (m : List (K × V)) :
    (modifyAt k f m).map Prod.fst = m.map Prod.fst := by
  induction m with
  | nil => rfl
  | cons e m ih =>
    by_cases he : e.1 = k
    · simp [modifyAt, he]
    · simp [modifyAt, he, ih]

theorem forall_modifyAt [DecidableEq K] (P : V → Prop) (k : K) (f : V → V)
    (hf : ∀ v, P v → P (f v)) (m : List (K × V)) (hm : ∀ e ∈ m, P e.2) :
    ∀ e ∈ modifyAt k f m, P e.2 := by
  induction m with
  | nil => intro e he; simp [modifyAt] at he
  | cons a m ih =>
    have ha : P a.2 := hm a (List.mem_cons_self _ _)
    have hm2 : ∀ e ∈ m, P e.2 := fun e he => hm e (List.mem_cons_of_mem _ he)
    intro e he
    by_cases hak : a.1 = k
    · simp only [modifyAt, hak, if_true, List.mem_cons] at he
      rcases he with he | he
      · rw [he]; exact hf _ ha
      · exact hm2 e he
    · simp only [modifyAt, hak, if_false, List.mem_cons] at he
      rcases he with he | he
      · rw [he]; exact ha
      · exact ih hm2 e he

theorem keys_upsert [DecidableEq K] (k : K) (d : V) (f : V → V) (m : List (K × V)) :
    (upsert k d f m).map Prod.fst
      = if k ∈ m.map Prod.fst then m.map Prod.fst else m.map Prod.fst ++ [k] := by
  induction m with
  | nil => simp [upsert]
  | cons e m ih =>
    by_cases he : e.1 = k
    · simp [upsert, he]
    · have he2 : ¬ k = e.1 := fun h => he h.symm
      simp only [upsert, he, if_false, List.map_cons, ih, List.mem_cons, he2, false_or]
      split <;> simp

theorem nodupKeys_upsert [DecidableEq K] (k : K) (d : V) (f : V → V) (m : List (K × V))
    (hm : NodupKeys m) : NodupKeys (upsert k d f m) := by
  unfold NodupKeys at hm ⊢
  rw [keys_upsert]
  split
  · exact hm
  · rename_i hk
    rw [List.nodup_append]
    refine ⟨hm, List.nodup_singleton k, ?_⟩
    intro a ha hb
    simp only [List.mem_singleton] at hb
    subst hb
    exact hk ha

theorem forall_upsert [DecidableEq K] (P : V → Prop) (k : K) (d : V) (f : V → V)
    (hf : ∀ v, P v → P (f v)) (hd : P (f d)) (m : List (K × V)) (hm : ∀ e ∈ m, P e.2) :
    ∀ e ∈ upsert k d f m, P e.2 := by
  induction m with
  | nil =>
    intro e he
    simp only [upsert, List.mem_singleton] at he
    rw [he]; exact hd
  | cons a m ih =>
    have ha : P a.2 := hm a (List.mem_cons_self _ _)
    have hm2 : ∀ e ∈ m, P e.2 := fun e he => hm e (List.mem_cons_of_mem _ he)
    intro e he
    by_cases hak : a.1 = k
    · simp only [upsert, hak, if_true, List.mem_cons] at he
      rcases he with he | he
      · rw [he]; exact hf _ ha
      · exact hm2 e he
    · simp only [upsert, hak, if_false, List.mem_cons] at he
      rcases he with he | he
      · rw [he]; exact ha
      · exact ih hm2 e he

theorem mem_keys_insertSorted (k : Depth) (v : V) (m : List (Depth × V)) (a : Depth) :
    a ∈ (insertSorted k v m).map Prod.fst ↔ a = k ∨ a ∈ m.map Prod.fst := by
  induction m with
  | nil => simp [insertSorted]
  | cons e m ih =>
    by_cases hlt : k < e.1
    · simp [insertSorted, hlt]
    · simp only [insertSorted, hlt, if_false, List.map_cons, List.mem_cons, ih]
      tauto

theorem sorted_insertSorted (k : Depth) (v : V) (m : List (Depth × V))
    (hm : (m.map Prod.fst).Pairwise (fun a b => a < b)) (hk : k ∉ m.map Prod.fst) :
    ((insertSorted k v m).map Prod.fst).Pairwise (fun a b => a < b) := by
  induction m with
  | nil => simp [insertSorted]
  | cons e m ih =>
    simp only [List.map_cons, List.pairwise_cons] at hm
    simp only [List.map_cons, List.mem_cons, not_or] at hk
    by_cases hlt : k < e.1
    · simp only [insertSorted, hlt, if_true, List.map_cons, List.pairwise_cons]
      refine ⟨?_, hm.1, hm.2⟩
      intro a ha
      simp only [List.mem_cons] at ha
      rcases ha with ha | ha
      · rw [ha]; exact hlt
      · exact lt_trans hlt (hm.1 a ha)
    · simp only [insertSorted, hlt, if_false, List.map_cons, List.pairwise_cons]
      refine ⟨?_, ih hm.2 hk.2⟩
      intro a ha
      rcases (mem_keys_insertSorted k v m a).1 ha with ha | ha
      · rw [ha]
        have h1 : e.1 ≤ k := not_lt.1 hlt
        exact lt_of_le_of_ne h1 (fun h2 => hk.1 h2.symm)
      · exact hm.1 a ha

theorem forall_insertSorted (P : V → Prop) (k : Depth) (v : V) (hv : P v)
    (m : List (Depth × V)) (hm : ∀ e ∈ m, P e.2) : ∀ e ∈ insertSorted k v m, P e.2 := by
  induction m with
  | nil =>
    intro e he
    simp only [insertSorted, List.mem_singleton] at he
    rw [he]; exact hv
  | cons a m ih =>
    have ha : P a.2 := hm a (List.mem_cons_self _ _)
    have hm2 : ∀ e ∈ m, P e.2 := fun e he => hm e (List.mem_cons_of_mem _ he)
    intro e he
    by_cases hlt : k < a.1
    · simp only [insertSorted, hlt, if_true, List.mem_cons] at he
      rcases he with he | he | he
      · rw [he]; exact hv
      · rw [he]; exact ha
      · exact hm2 e he
    · simp only [insertSorted, hlt, if_false, List.mem_cons] at he
      rcases he with he | he
      · rw [he]; exact ha
      · exact ih hm2 e he

theorem sorted_upsertOrd (k : Depth) (d : V) (f : V → V) (m : List (Depth × V))
    (hm : (m.map Prod.fst).Pairwise (fun a b => a < b)) :
    ((upsertOrd k d f m).map Prod.fst).Pairwise (fun a b => a < b) := by
  unfold upsertOrd
  by_cases hk : k ∈ m.map Prod.fst
  · rw [if_pos hk, keys_modifyAt]; exact hm
  · rw [if_neg hk]; exact sorted_insertSorted k (f d) m hm hk

theorem forall_upsertOrd (P : V → Prop) (k : Depth) (d : V) (f : V → V)
    (hf : ∀ v, P v → P (f v)) (hd : P (f d)) (m : List (Depth × V)) (hm : ∀ e ∈ m, P e.2) :
    ∀ e ∈ upsertOrd k d f m, P e.2 := by
  unfold upsertOrd
  by_cases hk : k ∈ m.map Prod.fst
  · rw [if_pos hk]; exact forall_modifyAt P k f hf m hm
  · rw [if_neg hk]; exact forall_insertSorted P k (f d) hd m hm

theorem lookupD_of_mem [DecidableEq K] (k : K) (v d : V) (m : List (K × V))
    (hm : NodupKeys m) (hkv : (k, v) ∈ m) : lookupD k d m = v := by
  unfold NodupKeys at hm
  induction m with
  | nil => simp at hkv
  | cons e m ih =>
    simp only [List.map_cons, List.nodup_cons] at hm
    rcases List.mem_cons.1 hkv with h1 | h1
    · subst h1; simp [lookupD]
    · have hne : ¬ e.1 = k := by
        intro h2
        apply hm.1
        rw [h2]
        exact List.mem_map.2 ⟨(k, v), h1, rfl⟩
      simp [lookupD, hne, ih hm.2 h1]

theorem nodupKeys_of_sorted (m : List (Depth × V))
    (hm : (m.map Prod.fst).Pairwise (fun a b => a < b)) : NodupKeys m :=
  List.Pairwise.imp (fun h => ne_of_lt h) hm

end MapWF

/-! ## Well-formed graphs and their buckets -/

theorem nodupKeys_nil {K V : Type} : NodupKeys ([] : List (K × V)) := List.nodup_nil

theorem betaWF_nil : betaWF [] := ⟨nodupKeys_nil, fun _ h => by simp at h⟩

theorem gammaWF_nil : gammaWF [] := ⟨nodupKeys_nil, fun _ h => by simp at h⟩

theorem graphWF_nil : graphWF [] := ⟨List.Pairwise.nil, fun _ h => by simp at h⟩

theorem alphaWF_insert (p : Nat) (h : Handle) (m : BATCHMAPALPHA) (hm : NodupKeys m) :
    NodupKeys (upsert p [] (fun c => c ++ [h]) m) :=
  nodupKeys_upsert p [] _ m hm

theorem betaWF_insert (t p : Nat) (h : Handle) (m : BATCHMAPBETA) (hm : betaWF m) :
    betaWF (upsert t [] (upsert p [] (fun c => c ++ [h])) m) :=
  ⟨nodupKeys_upsert t [] _ m hm.1,
    forall_upsert NodupKeys t [] _ (alphaWF_insert p h) (alphaWF_insert p h [] nodupKeys_nil)
      m hm.2⟩

theorem gammaWF_insert (g : Int) (t p : Nat) (h : Handle) (m : BATCHMAPGAMMA)
    (hm : gammaWF m) :
    gammaWF (upsert g [] (upsert t [] (upsert p [] (fun c => c ++ [h]))) m) :=
  ⟨nodupKeys_upsert g [] _ m hm.1,
    forall_upsert betaWF g [] _ (betaWF_insert t p h) (betaWF_insert t p h [] betaWF_nil)
      m hm.2⟩

theorem graphWF_graphInsert (k : BucketKey) (h : Handle) (G : BATCHMAPDELTA)
    (hG : graphWF G) : graphWF (graphInsert k h G) :=
  ⟨sorted_upsertOrd k.depth [] _ G hG.1,
    forall_upsertOrd gammaWF k.depth [] _ (gammaWF_insert k.group k.texture k.primitive h)
      (gammaWF_insert k.group k.texture k.primitive h [] gammaWF_nil) G hG.2⟩

theorem mem_alphaBuckets (d : Depth) (g : Int) (t : Nat) (m : BATCHMAPALPHA)
    (kb : BucketKey × GEOMCONTAINER) (h : kb ∈ alphaBuckets d g t m) :
    ∃ p ∈ m, kb = (({ depth := d, group := g, texture := t, primitive := p.1 } : BucketKey), p.2) := by
  obtain ⟨p, hp, hkb⟩ := List.mem_map.1 h
  exact ⟨p, hp, hkb.symm⟩

theorem mem_betaBuckets (d : Depth) (g : Int) (m : BATCHMAPBETA)
    (kb : BucketKey × GEOMCONTAINER) (h : kb ∈ betaBuckets d g m) :
    ∃ t ∈ m, kb ∈ alphaBuckets d g t.1 t.2 := by
  obtain ⟨l, hl, hkb⟩ := List.mem_flatten.1 h
  obtain ⟨t, ht, rfl⟩ := List.mem_map.1 hl
  exact ⟨t, ht, hkb⟩

theorem mem_gammaBuckets (d : Depth) (m : BATCHMAPGAMMA)
    (kb : BucketKey × GEOMCONTAINER) (h : kb ∈ gammaBuckets d m) :
    ∃ g ∈ m, kb ∈ betaBuckets d g.1 g.2 := by
  obtain ⟨l, hl, hkb⟩ := List.mem_flatten.1 h
  obtain ⟨g, hg, rfl⟩ := List.mem_map.1 hl
  exact ⟨g, hg, hkb⟩

theorem mem_graphBuckets (G : BATCHMAPDELTA)
    (kb : BucketKey × GEOMCONTAINER) (h : kb ∈ graphBuckets G) :
    ∃ d ∈ G, kb ∈ gammaBuckets d.1 d.2 := by
  obtain ⟨l, hl, hkb⟩ := List.mem_flatten.1 h
  obtain ⟨d, hd, rfl⟩ := List.mem_map.1 hl
  exact ⟨d, hd, hkb⟩

theorem bucketAt_of_mem (G : BATCHMAPDELTA) (hG : graphWF G)
    (kb : BucketKey × GEOMCONTAINER) (h : kb ∈ graphBuckets G) : bucketAt G kb.1 = kb.2 := by
  obtain ⟨d, hd, h1⟩ := mem_graphBuckets G kb h
  obtain ⟨g, hg, h2⟩ := mem_gammaBuckets d.1 d.2 kb h1
  obtain ⟨t, ht, h3⟩ := mem_betaBuckets d.1 g.1 g.2 kb h2
  obtain ⟨p, hp, h4⟩ := mem_alphaBuckets d.1 g.1 t.1 t.2 kb h3
  have wd := hG.2 d hd
  have wg := wd.2 g hg
  have wt := wg.2 t ht
  have e1 : lookupD d.1 [] G = d.2 :=
    lookupD_of_mem d.1 d.2 [] G (nodupKeys_of_sorted G hG.1) hd
  have e2 : lookupD g.1 [] d.2 = g.2 := lookupD_of_mem g.1 g.2 [] d.2 wd.1 hg
  have e3 : lookupD t.1 [] g.2 = t.2 := lookupD_of_mem t.1 t.2 [] g.2 wg.1 ht
  have e4 : lookupD p.1 [] t.2 = p.2 := lookupD_of_mem p.1 p.2 [] t.2 wt hp
  rw [h4]
  simp only [bucketAt, e1, e2, e3, e4]

theorem nodup_flatten_tagged {K V B : Type} (m : List (K × V)) (sub : K × V → List B)
    (tag : B → K) (htag : ∀ e ∈ m, ∀ b ∈ sub e, tag b = e.1) (hn : NodupKeys m)
    (hsub : ∀ e ∈ m, (sub e).Nodup) : ((m.map sub).flatten).Nodup := by
  unfold NodupKeys at hn
  induction m with
  | nil => simp
  | cons e m ih =>
    simp only [List.map_cons, List.nodup_cons] at hn
    simp only [List.map_cons, List.flatten_cons]
    rw [List.nodup_append]
    refine ⟨hsub e (List.mem_cons_self _ _), ?_, ?_⟩
    · exact ih (fun a ha => htag a (List.mem_cons_of_mem _ ha)) hn.2
        (fun a ha => hsub a (List.mem_cons_of_mem _ ha))
    · intro b hb1 hb2
      obtain ⟨l, hl, hbl⟩ := List.mem_flatten.1 hb2
      obtain ⟨e2, he2, rfl⟩ := List.mem_map.1 hl
      have t1 := htag e (List.mem_cons_self _ _) b hb1
      have t2 := htag e2 (List.mem_cons_of_mem _ he2) b hbl
      apply hn.1
      rw [← t1, t2]
      exact List.mem_map.2 ⟨e2, he2, rfl⟩

theorem alphaBuckets_keys_nodup (d : Depth) (g : Int) (t : Nat) (m : BATCHMAPALPHA)
    (hm : NodupKeys m) : ((alphaBuckets d g t m).map Prod.fst).Nodup := by
  unfold NodupKeys at hm
  have hinj : Function.Injective
      (fun p : Nat => ({ depth := d, group := g, texture := t, primitive := p } : BucketKey)) := by
    intro a b hab
    exact congrArg BucketKey.primitive hab
  have := List.Nodup.map hinj hm
  simpa [alphaBuckets, List.map_map, Function.comp] using this

theorem betaBuckets_keys_nodup (d : Depth) (g : Int) (m : BATCHMAPBETA)
    (hm : betaWF m) : ((betaBuckets d g m).map Prod.fst).Nodup := by
  have := nodup_flatten_tagged m (fun t => (alphaBuckets d g t.1 t.2).map Prod.fst)
    BucketKey.texture ?_ hm.1 (fun t ht => alphaBuckets_keys_nodup d g t.1 t.2 (hm.2 t ht))
  · simpa [betaBuckets, List.map_flatten, List.map_map, Function.comp] using this
  · intro t _ b hb
    obtain ⟨kb, hkb, rfl⟩ := List.mem_map.1 hb
    obtain ⟨p, _, rfl⟩ := mem_alphaBuckets d g t.1 t.2 kb hkb
    rfl

theorem gammaBuckets_keys_nodup (d : Depth) (m : BATCHMAPGAMMA)
    (hm : gammaWF m) : ((gammaBuckets d m).map Prod.fst).Nodup := by
  have := nodup_flatten_tagged m (fun g => (betaBuckets d g.1 g.2).map Prod.fst)
    BucketKey.group ?_ hm.1 (fun g hg => betaBuckets_keys_nodup d g.1 g.2 (hm.2 g hg))
  · simpa [gammaBuckets, List.map_flatten, List.map_map, Function.comp] using this
  · intro g _ b hb
    obtain ⟨kb, hkb, rfl⟩ := List.mem_map.1 hb
    obtain ⟨t, _, h3⟩ := mem_betaBuckets d g.1 g.2 kb hkb
    obtain ⟨p, _, rfl⟩ := mem_alphaBuckets d g.1 t.1 t.2 kb h3
    rfl

theorem gammaBuckets_depth (d : Depth) (m : BATCHMAPGAMMA)
    (kb : BucketKey × GEOMCONTAINER) (h : kb ∈ gammaBuckets d m) : kb.1.depth = d := by
  obtain ⟨g, _, h2⟩ := mem_gammaBuckets d m kb h
  obtain ⟨t, _, h3⟩ := mem_betaBuckets d g.1 g.2 kb h2
  obtain ⟨p, _, rfl⟩ := mem_alphaBuckets d g.1 t.1 t.2 kb h3
  rfl

theorem graphBuckets_keys_nodup (G : BATCHMAPDELTA) (hG : graphWF G) :
    ((graphBuckets G).map Prod.fst).Nodup := by
  have := nodup_flatten_tagged G (fun d => (gammaBuckets d.1 d.2).map Prod.fst)
    BucketKey.depth ?_ (nodupKeys_of_sorted G hG.1)
    (fun d hd => gammaBuckets_keys_nodup d.1 d.2 (hG.2 d hd))
  · simpa [graphBuckets, List.map_flatten, List.map_map, Function.comp] using this
  · intro d _ b hb
    obtain ⟨kb, hkb, rfl⟩ := List.mem_map.1 hb
    exact gammaBuckets_depth d.1 d.2 kb hkb

theorem pairwise_le_of_const (c : Depth) (l : List Depth) (hl : ∀ b ∈ l, b = c) :
    l.Pairwise (fun a b => a ≤ b) := by
  induction l with
  | nil => exact List.Pairwise.nil
  | cons a l ih =>
    rw [List.pairwise_cons]
    refine ⟨?_, ih (fun b hb => hl b (List.mem_cons_of_mem _ hb))⟩
    intro b hb
    rw [hl a (List.mem_cons_self _ _), hl b (List.mem_cons_of_mem _ hb)]

theorem graphBuckets_depth_sorted (G : BATCHMAPDELTA) (hG : graphWF G) :
    ((graphBuckets G).map (fun kb => kb.1.depth)).Pairwise (fun a b => a ≤ b) := by
  have hs := hG.1
  clear hG
  induction G with
  | nil => simp [graphBuckets]
  | cons d G ih =>
    simp only [List.map_cons, List.pairwise_cons] at hs
    have hcons : graphBuckets (d :: G) = gammaBuckets d.1 d.2 ++ graphBuckets G := rfl
    rw [hcons, List.map_append, List.pairwise_append]
    refine ⟨?_, ih hs.2, ?_⟩
    · apply pairwise_le_of_const d.1
      intro b hb
      obtain ⟨kb, hkb, rfl⟩ := List.mem_map.1 hb
      exact gammaBuckets_depth d.1 d.2 kb hkb
    · intro a ha b hb
      obtain ⟨ka, hka, rfl⟩ := List.mem_map.1 ha
      obtain ⟨kb, hkb, rfl⟩ := List.mem_map.1 hb
      obtain ⟨d2, hd2, hkb2⟩ := mem_graphBuckets G kb hkb
      rw [gammaBuckets_depth d.1 d.2 ka hka, gammaBuckets_depth d2.1 d2.2 kb hkb2]
      exact le_of_lt (hs.1 d2.1 (List.mem_map.2 ⟨d2, hd2, rfl⟩))

theorem alphaBuckets_handles (d : Depth) (g : Int) (t : Nat) (m : BATCHMAPALPHA) :
    ((alphaBuckets d g t m).map Prod.snd).flatten = alphaHandles m := by
  unfold alphaBuckets alphaHandles
  rw [List.map_map]
  rfl

theorem betaBuckets_handles (d : Depth) (g : Int) (m : BATCHMAPBETA) :
    ((betaBuckets d g m).map Prod.snd).flatten = betaHandles m := by
  induction m with
  | nil => rfl
  | cons t m ih =>
    have h1 : betaBuckets d g (t :: m) = alphaBuckets d g t.1 t.2 ++ betaBuckets d g m := rfl
    have h2 : betaHandles (t :: m) = alphaHandles t.2 ++ betaHandles m := rfl
    rw [h1, h2, List.map_append, List.flatten_append, ih, alphaBuckets_handles]

theorem gammaBuckets_handles (d : Depth) (m : BATCHMAPGAMMA) :
    ((gammaBuckets d m).map Prod.snd).flatten = gammaHandles m := by
  induction m with
  | nil => rfl
  | cons g m ih =>
    have h1 : gammaBuckets d (g :: m) = betaBuckets d g.1 g.2 ++ gammaBuckets d m := rfl
    have h2 : gammaHandles (g :: m) = betaHandles g.2 ++ gammaHandles m := rfl
    rw [h1, h2, List.map_append, List.flatten_append, ih, betaBuckets_handles]

theorem graphBuckets_handles (G : BATCHMAPDELTA) :
    ((graphBuckets G).map Prod.snd).flatten = graphHandles G := by
  induction G with
  | nil => rfl
  | cons d G ih =>
    have h1 : graphBuckets (d :: G) = gammaBuckets d.1 d.2 ++ graphBuckets G := rfl
    have h2 : graphHandles (d :: G) = gammaHandles d.2 ++ graphHandles G := rfl
    rw [h1, h2, List.map_append, List.flatten_append, ih, gammaBuckets_handles]

/-! ## Sequences of creations -/

theorem graphWF_insertAll (ks : List BucketKey) (G : BATCHMAPDELTA) (s : Handle)
    (hG : graphWF G) : graphWF (insertAll G s ks) := by
  induction ks generalizing G s with
  | nil => exact hG
  | cons k ks ih => exact ih _ _ (graphWF_graphInsert k s G hG)

theorem bucketAt_graphInsert (k k2 : BucketKey) (h : Handle) (G : BATCHMAPDELTA) :
    bucketAt (graphInsert k h G) k2 = bucketAt G k2 ++ (if k = k2 then [h] else []) := by
  by_cases hk : k = k2
  · subst hk; simp [bucketAt_graphInsert_self]
  · have hk2 : k2 ≠ k := fun h2 => hk h2.symm
    simp [bucketAt_graphInsert_ne k k2 h G hk2, hk]

theorem bucketAt_insertAll (k : BucketKey) (ks : List BucketKey) (G : BATCHMAPDELTA)
    (s : Handle) :
    bucketAt (insertAll G s ks) k
      = bucketAt G k ++ ((List.enumFrom s ks).filter (fun ik => decide (ik.2 = k))).map Prod.fst := by
  induction ks generalizing G s with
  | nil => simp [insertAll]
  | cons k0 ks ih =>
    simp only [insertAll, List.enumFrom_cons]
    rw [ih, bucketAt_graphInsert]
    by_cases hk : k0 = k
    · simp [hk, List.filter_cons]
    · simp [hk, List.filter_cons]

theorem graphCount_insertAll (x : Nat) (ks : List BucketKey) (G : BATCHMAPDELTA)
    (s : Nat) :
    graphCount x (insertAll G s ks)
      = graphCount x G + (if s ≤ x ∧ x < s + ks.length then 1 else 0) := by
  induction ks generalizing G s with
  | nil =>
    have : ¬ (s ≤ x ∧ x < s + 0) := by omega
    simp [insertAll, this]
  | cons k0 ks ih =>
    simp only [insertAll, List.length_cons]
    rw [ih, graphCount_graphInsert]
    by_cases h1 : x = s
    · subst h1
      have a1 : ¬ (x + 1 ≤ x ∧ x < x + 1 + ks.length) := by omega
      have a2 : x ≤ x ∧ x < x + (ks.length + 1) := by omega
      simp [a1, a2]
    · by_cases h2 : s + 1 ≤ x ∧ x < s + 1 + ks.length
      · have a2 : s ≤ x ∧ x < s + (ks.length + 1) := by omega
        simp [h1, h2, a2]
      · have a2 : ¬ (s ≤ x ∧ x < s + (ks.length + 1)) := by omega
        simp [h1, h2, a2]

theorem create_graph (c : CreateArgs) (w : World) :
    (create c.primitive c.texture c.group c.depth w).2.renderer.geometry
      = graphInsert c.key w.heap.length w.renderer.geometry ∧
    (create c.primitive c.texture c.group c.depth w).2.heap.length = w.heap.length + 1 := by
  simp [create, addGeometry, World.emit, currentKey, BatchGeometry.new, CreateArgs.key,
    TrackingInvariant.init]

theorem createAll_graph (cs : List CreateArgs) (w : World) :
    (createAll cs w).renderer.geometry
      = insertAll w.renderer.geometry w.heap.length (cs.map CreateArgs.key) := by
  induction cs generalizing w with
  | nil => rfl
  | cons c cs ih =>
    have h := create_graph c w
    have hstep : createAll (c :: cs) w
        = createAll cs (create c.primitive c.texture c.group c.depth w).2 := rfl
    rw [hstep, ih, h.1, h.2]
    rfl

/-- C9: after any sequence of creations, one draw batches the geometries bucket
after bucket in the traversal order of the graph: the visit sequence is the
concatenation of the buckets; no bucket key occurs twice, so the geometries of
one (depth, group, texture, primitive) tuple are visited together; the depths
of the buckets are ascending; each bucket holds exactly the created
geometries with its key, in creation order; and every created geometry is
visited exactly once. -/
theorem draw_order_after_creations (cs : List CreateArgs) :
    (batchLog (newEvents (createAll cs World.empty) (draw (createAll cs World.empty)))).map
        Prod.fst
      = ((graphBuckets (createAll cs World.empty).renderer.geometry).map Prod.snd).flatten ∧
    ((graphBuckets (createAll cs World.empty).renderer.geometry).map Prod.fst).Nodup ∧
    ((graphBuckets (createAll cs World.empty).renderer.geometry).map
        (fun kb => kb.1.depth)).Pairwise (fun a b => a ≤ b) ∧
    (∀ kb ∈ graphBuckets (createAll cs World.empty).renderer.geometry,
      kb.2 = (((cs.map CreateArgs.key).enum.filter (fun ik => decide (ik.2 = kb.1))).map
        Prod.fst)) ∧
    (∀ i, ((batchLog (newEvents (createAll cs World.empty)
        (draw (createAll cs World.empty)))).map Prod.fst).count i
      = if i < cs.length then 1 else 0) := by
  have hG : (createAll cs World.empty).renderer.geometry
      = insertAll [] 0 (cs.map CreateArgs.key) := createAll_graph cs World.empty
  have hWF : graphWF (createAll cs World.empty).renderer.geometry := by
    rw [hG]; exact graphWF_insertAll _ _ _ graphWF_nil
  have hvis : (batchLog (newEvents (createAll cs World.empty)
      (draw (createAll cs World.empty)))).map Prod.fst
      = graphHandles (createAll cs World.empty).renderer.geometry := by
    rw [batchLog_draw, List.map_map]
    exact List.map_id _
  refine ⟨?_, graphBuckets_keys_nodup _ hWF, graphBuckets_depth_sorted _ hWF, ?_, ?_⟩
  · rw [hvis, graphBuckets_handles]
  · intro kb hkb
    rw [← bucketAt_of_mem _ hWF kb hkb, hG, bucketAt_insertAll]
    simp [bucketAt, lookupD, List.enum]
  · intro i
    rw [hvis, graphHandles_count, hG, graphCount_insertAll]
    simp [graphCount, total]

/-- Witness for C9 at four rectangles created at depths 2, 1, 3, 1. -/
theorem draw_order_after_creations_witness :
    (batchLog (newEvents (createAll sceneArgs World.empty)
        (draw (createAll sceneArgs World.empty)))).map Prod.fst
      = ((graphBuckets (createAll sceneArgs World.empty).renderer.geometry).map
          Prod.snd).flatten ∧
    ((graphBuckets (createAll sceneArgs World.empty).renderer.geometry).map Prod.fst).Nodup ∧
    ((graphBuckets (createAll sceneArgs World.empty).renderer.geometry).map
        (fun kb => kb.1.depth)).Pairwise (fun a b => a ≤ b) ∧
    (∀ kb ∈ graphBuckets (createAll sceneArgs World.empty).renderer.geometry,
      kb.2 = (((sceneArgs.map CreateArgs.key).enum.filter
        (fun ik => decide (ik.2 = kb.1))).map Prod.fst)) ∧
    (∀ i, ((batchLog (newEvents (createAll sceneArgs World.empty)
        (draw (createAll sceneArgs World.empty)))).map Prod.fst).count i
      = if i < sceneArgs.length then 1 else 0) :=
  draw_order_after_creations sceneArgs

/-! ## The factories -/

theorem getElem?_append_length {α : Type} (l : List α) (a : α) :
    (l ++ [a])[l.length]? = some a := by
  simp

theorem set_append_length {α : Type} (l : List α) (a b : α) :
    (l ++ [a]).set l.length b = l ++ [b] := by
  induction l with
  | nil => rfl
  | cons c l ih => simp [ih]

theorem modifyGeom_fresh (w : World) (g0 : BatchGeometry) (f : BatchGeometry → BatchGeometry) :
    World.modifyGeom w.heap.length f { w with heap := w.heap ++ [g0] }
      = { w with heap := w.heap ++ [f g0] } := by
  simp [World.modifyGeom, set_append_length]

theorem update_fresh (w : World) (g0 : BatchGeometry) (hc : g0.allCheck = true) :
    update w.heap.length { w with heap := w.heap ++ [g0] }
      = { w with heap := w.heap ++ [g0] } := by
  have hc2 : (g0.primitivetype.check && g0.textureid.check && g0.groupid.check &&
      g0.depth.check) = true := hc
  simp [update, hc2]

theorem addGeometry_fresh (w : World) (g0 : BatchGeometry) :
    addGeometry w.heap.length { w with heap := w.heap ++ [g0] }
      = { heap := w.heap ++ [g0]
          renderer :=
            { geometry := graphInsert g0.currentKey w.heap.length w.renderer.geometry
              recyclelist := w.renderer.recyclelist }
          trace := w.trace ++ [Event.addGeometry w.heap.length] } := by
  simp [addGeometry, World.emit]

theorem create_eq (p : Nat) (t : Option Texture) (g : Int) (d : Depth) (w : World) :
    create p t g d w = (w.heap.length,
      { heap := w.heap ++ [BatchGeometry.new p t g d]
        renderer :=
          { geometry := graphInsert (BatchGeometry.new p t g d).currentKey w.heap.length
              w.renderer.geometry
            recyclelist := w.renderer.recyclelist }
        trace := w.trace ++ [Event.addGeometry w.heap.length] }) := by
  simp only [create, addGeometry_fresh]

theorem new_setPrimitiveType (p : Nat) (t : Option Texture) (g : Int) (d : Depth) :
    (BatchGeometry.new p t g d).setPrimitiveType p = BatchGeometry.new p t g d := rfl

theorem new_allCheck (p : Nat) (t : Option Texture) (g : Int) (d : Depth) :
    (BatchGeometry.new p t g d).allCheck = true := by
  simp [allCheck, BatchGeometry.new, TrackingInvariant.check, TrackingInvariant.init]

theorem createRectangle_eq (rect : Rectangle) (t : Option Texture) (g : Int) (d : Depth)
    (w : World) :
    createRectangle rect t g d w = (w.heap.length,
      { heap := w.heap ++ [(BatchGeometry.new GL_QUADS t g d).rectangleVertices rect]
        renderer :=
          { geometry := graphInsert (BatchGeometry.new GL_QUADS t g d).currentKey w.heap.length
              w.renderer.geometry
            recyclelist := w.renderer.recyclelist }
        trace := w.trace ++ [Event.addGeometry w.heap.length] }) := by
  have h1 := modifyGeom_fresh w (BatchGeometry.new GL_QUADS t g d)
    (fun g => g.setPrimitiveType GL_QUADS)
  simp only [new_setPrimitiveType] at h1
  have h2 := update_fresh w (BatchGeometry.new GL_QUADS t g d) (new_allCheck _ _ _ _)
  have h3 := modifyGeom_fresh w (BatchGeometry.new GL_QUADS t g d)
    (fun g => g.rectangleVertices rect)
  have h4 := addGeometry_fresh w ((BatchGeometry.new GL_QUADS t g d).rectangleVertices rect)
  simp only [createRectangle, fromRectangle, h1, h2, h3, h4]
  rfl

theorem foldl_polygonStep (rhs : Polygon) (l : List Nat) (g : BatchGeometry) :
    l.foldl (polygonStep rhs) g
      = { g with vertices := g.vertices ++ (l.map (fun i =>
          [Vertex.ofPosition rhs.position,
           Vertex.ofPosition (rhs.position.add (rhs.getVertex i)),
           Vertex.ofPosition (rhs.position.add (rhs.getVertex (i + 1)))])).flatten } := by
  induction l generalizing g with
  | nil => simp
  | cons i l ih =>
    rw [List.foldl_cons, ih]
    simp [polygonStep, addVertex]

theorem polygonVertices_eq (g : BatchGeometry) (rhs : Polygon) :
    g.polygonVertices rhs
      = { g with vertices :=
          if rhs.getVertexCount > 2 then
            ((List.range rhs.getVertexCount).map (fun i =>
              [Vertex.ofPosition rhs.position,
               Vertex.ofPosition (rhs.position.add (rhs.getVertex i)),
               Vertex.ofPosition (rhs.position.add (rhs.getVertex (i + 1)))])).flatten
          else [] } := by
  unfold polygonVertices
  split
  · rw [foldl_polygonStep]; simp [clearVertices]
  · rfl

theorem polygonVertices_currentKey (g : BatchGeometry) (rhs : Polygon) :
    (g.polygonVertices rhs).currentKey = g.currentKey := by
  rw [polygonVertices_eq]; rfl

theorem createPolygon_eq (poly : Polygon) (t : Option Texture) (g : Int) (d : Depth)
    (w : World) :
    createPolygon poly t g d w = (w.heap.length,
      { heap := w.heap ++ [(BatchGeometry.new GL_TRIANGLES t g d).polygonVertices poly]
        renderer :=
          { geometry := graphInsert (BatchGeometry.new GL_TRIANGLES t g d).currentKey
              w.heap.length w.renderer.geometry
            recyclelist := w.renderer.recyclelist }
        trace := w.trace ++ [Event.addGeometry w.heap.length] }) := by
  have h1 := modifyGeom_fresh w (BatchGeometry.new GL_TRIANGLES t g d)
    (fun g => g.setPrimitiveType GL_TRIANGLES)
  simp only [new_setPrimitiveType] at h1
  have h2 := update_fresh w (BatchGeometry.new GL_TRIANGLES t g d) (new_allCheck _ _ _ _)
  have h3 := modifyGeom_fresh w (BatchGeometry.new GL_TRIANGLES t g d)
    (fun g => g.polygonVertices poly)
  have h4 := addGeometry_fresh w ((BatchGeometry.new GL_TRIANGLES t g d).polygonVertices poly)
  simp only [createPolygon, fromPolygon, h1, h2, h3, h4, polygonVertices_currentKey]

/-- C14: each of the three factories enters the renderer's `addGeometry` exactly
once, with the handle it returns, and enters `moveGeometry` never; the handle
is the fresh slot of the heap, which holds the new geometry. -/
theorem factories_register_once (w : World) (p : Nat) (t : Option Texture) (g : Int)
    (d : Depth) (rect : Rectangle) (poly : Polygon) :
    (newEvents w (create p t g d w).2 = [Event.addGeometry (create p t g d w).1] ∧
      (create p t g d w).1 = w.heap.length ∧
      (create p t g d w).2.heap = w.heap ++ [BatchGeometry.new p t g d] ∧
      (create p t g d w).2.heap[(create p t g d w).1]? = some (BatchGeometry.new p t g d)) ∧
    (newEvents w (createRectangle rect t g d w).2
        = [Event.addGeometry (createRectangle rect t g d w).1] ∧
      (createRectangle rect t g d w).1 = w.heap.length ∧
      (createRectangle rect t g d w).2.heap
        = w.heap ++ [(BatchGeometry.new GL_QUADS t g d).rectangleVertices rect] ∧
      (createRectangle rect t g d w).2.heap[(createRectangle rect t g d w).1]?
        = some ((BatchGeometry.new GL_QUADS t g d).rectangleVertices rect)) ∧
    (newEvents w (createPolygon poly t g d w).2
        = [Event.addGeometry (createPolygon poly t g d w).1] ∧
      (createPolygon poly t g d w).1 = w.heap.length ∧
      (createPolygon poly t g d w).2.heap
        = w.heap ++ [(BatchGeometry.new GL_TRIANGLES t g d).polygonVertices poly] ∧
      (createPolygon poly t g d w).2.heap[(createPolygon poly t g d w).1]?
        = some ((BatchGeometry.new GL_TRIANGLES t g d).polygonVertices poly)) := by
  rw [create_eq, createRectangle_eq, createPolygon_eq]
  refine ⟨⟨?_, rfl, rfl, ?_⟩, ⟨?_, rfl, rfl, ?_⟩, ⟨?_, rfl, rfl, ?_⟩⟩
  · exact newEvents_append w _ _ rfl
  · exact getElem?_append_length _ _
  · exact newEvents_append w _ _ rfl
  · exact getElem?_append_length _ _
  · exact newEvents_append w _ _ rfl
  · exact getElem?_append_length _ _

theorem new_fields (p : Nat) (t : Option Texture) (g : Int) (d : Depth) :
    (BatchGeometry.new p t g d).getEnabled = true ∧
    (BatchGeometry.new p t g d).getImmediate = false ∧
    (BatchGeometry.new p t g d).dropped = false ∧
    (BatchGeometry.new p t g d).getPrimitiveType = p ∧
    (BatchGeometry.new p t g d).getTextureId = textureIdOf t ∧
    (BatchGeometry.new p t g d).getGroup = g ∧
    (BatchGeometry.new p t g d).getDepth = d ∧
    (BatchGeometry.new p t g d).allCheck = true :=
  ⟨rfl, rfl, rfl, rfl, rfl, rfl, rfl, new_allCheck p t g d⟩

theorem rectangleVertices_fields (g : BatchGeometry) (rect : Rectangle) :
    g.rectangleVertices rect = { g with vertices := (g.rectangleVertices rect).vertices } := rfl

theorem polygonVertices_fields (g : BatchGeometry) (poly : Polygon) :
    g.polygonVertices poly = { g with vertices := (g.polygonVertices poly).vertices } := by
  rw [polygonVertices_eq]

/-- C15: the geometry a factory returns for (p, t, g, d) is enabled, not immediate
and not dropped; its current keys are p (quads for the rectangle factory,
triangles for the polygon factory), the texture's id or 0, g and d; all four
invariants check; and its handle was appended to the bucket of these current
keys. -/
theorem factory_geometry_state (w : World) (p : Nat) (t : Option Texture) (g : Int)
    (d : Depth) (rect : Rectangle) (poly : Polygon) :
    (∃ x, (create p t g d w).2.heap[(create p t g d w).1]? = some x ∧
      x.getEnabled = true ∧ x.getImmediate = false ∧ x.dropped = false ∧
      x.getPrimitiveType = p ∧ x.getTextureId = textureIdOf t ∧ x.getGroup = g ∧
      x.getDepth = d ∧ x.allCheck = true ∧
      bucketAt (create p t g d w).2.renderer.geometry x.currentKey
        = bucketAt w.renderer.geometry x.currentKey ++ [(create p t g d w).1]) ∧
    (∃ x, (createRectangle rect t g d w).2.heap[(createRectangle rect t g d w).1]? = some x ∧
      x.getEnabled = true ∧ x.getImmediate = false ∧ x.dropped = false ∧
      x.getPrimitiveType = GL_QUADS ∧ x.getTextureId = textureIdOf t ∧ x.getGroup = g ∧
      x.getDepth = d ∧ x.allCheck = true ∧
      bucketAt (createRectangle rect t g d w).2.renderer.geometry x.currentKey
        = bucketAt w.renderer.geometry x.currentKey ++ [(createRectangle rect t g d w).1]) ∧
    (∃ x, (createPolygon poly t g d w).2.heap[(createPolygon poly t g d w).1]? = some x ∧
      x.getEnabled = true ∧ x.getImmediate = false ∧ x.dropped = false ∧
      x.getPrimitiveType = GL_TRIANGLES ∧ x.getTextureId = textureIdOf t ∧ x.getGroup = g ∧
      x.getDepth = d ∧ x.allCheck = true ∧
      bucketAt (createPolygon poly t g d w).2.renderer.geometry x.currentKey
        = bucketAt w.renderer.geometry x.currentKey ++ [(createPolygon poly t g d w).1]) := by
  rw [create_eq, createRectangle_eq, createPolygon_eq]
  refine ⟨⟨_, getElem?_append_length _ _, ?_⟩, ⟨_, getElem?_append_length _ _, ?_⟩,
    ⟨_, getElem?_append_length _ _, ?_⟩⟩
  · obtain ⟨h1, h2, h3, h4, h5, h6, h7, h8⟩ := new_fields p t g d
    exact ⟨h1, h2, h3, h4, h5, h6, h7, h8, bucketAt_graphInsert_self _ _ _⟩
  · obtain ⟨h1, h2, h3, h4, h5, h6, h7, h8⟩ := new_fields GL_QUADS t g d
    exact ⟨h1, h2, h3, h4, h5, h6, h7, h8, bucketAt_graphInsert_self _ _ _⟩
  · obtain ⟨h1, h2, h3, h4, h5, h6, h7, h8⟩ := new_fields GL_TRIANGLES t g d
    rw [polygonVertices_fields]
    exact ⟨h1, h2, h3, h4, h5, h6, h7, h8, bucketAt_graphInsert_self _ _ _⟩

/-! ## Key setters -/

/-- C13: on a geometry whose four invariants all check, each key setter called
with a value makes the getter return that value, leaves last-observed alone so
that the written invariant checks exactly when the value equals it, leaves the
other three invariants checking, and touches neither the renderer nor the
last-observed keys that name the geometry's bucket. -/
theorem setter_writes_current (w : World) (h : Handle) (g : BatchGeometry)
    (hg : w.heap[h]? = some g) (hc : g.allCheck = true)
    (p : Nat) (t : Option Texture) (gi : Int) (d : Depth) :
    ((g.setPrimitiveType p).getPrimitiveType = p ∧
      ((g.setPrimitiveType p).primitivetype.check = true ↔ p = g.primitivetype.previous) ∧
      (g.setPrimitiveType p).textureid.check = true ∧
      (g.setPrimitiveType p).groupid.check = true ∧
      (g.setPrimitiveType p).depth.check = true ∧
      (g.setPrimitiveType p).previousKey = g.previousKey ∧
      (w.modifyGeom h (fun x => x.setPrimitiveType p)).renderer = w.renderer ∧
      (w.modifyGeom h (fun x => x.setPrimitiveType p)).heap[h]? = some (g.setPrimitiveType p)) ∧
    ((g.setTexture t).getTexture = t ∧ (g.setTexture t).getTextureId = textureIdOf t ∧
      ((g.setTexture t).textureid.check = true ↔ textureIdOf t = g.textureid.previous) ∧
      (g.setTexture t).primitivetype.check = true ∧
      (g.setTexture t).groupid.check = true ∧
      (g.setTexture t).depth.check = true ∧
      (g.setTexture t).previousKey = g.previousKey ∧
      (w.modifyGeom h (fun x => x.setTexture t)).renderer = w.renderer ∧
      (w.modifyGeom h (fun x => x.setTexture t)).heap[h]? = some (g.setTexture t)) ∧
    ((g.setGroup gi).getGroup = gi ∧
      ((g.setGroup gi).groupid.check = true ↔ gi = g.groupid.previous) ∧
      (g.setGroup gi).primitivetype.check = true ∧
      (g.setGroup gi).textureid.check = true ∧
      (g.setGroup gi).depth.check = true ∧
      (g.setGroup gi).previousKey = g.previousKey ∧
      (w.modifyGeom h (fun x => x.setGroup gi)).renderer = w.renderer ∧
      (w.modifyGeom h (fun x => x.setGroup gi)).heap[h]? = some (g.setGroup gi)) ∧
    ((g.setDepth d).getDepth = d ∧
      ((g.setDepth d).depth.check = true ↔ d = g.depth.previous) ∧
      (g.setDepth d).primitivetype.check = true ∧
      (g.setDepth d).textureid.check = true ∧
      (g.setDepth d).groupid.check = true ∧
      (g.setDepth d).previousKey = g.previousKey ∧
      (w.modifyGeom h (fun x => x.setDepth d)).renderer = w.renderer ∧
      (w.modifyGeom h (fun x => x.setDepth d)).heap[h]? = some (g.setDepth d)) := by
  have hc2 : (g.primitivetype.check && g.textureid.check && g.groupid.check &&
      g.depth.check) = true := hc
  simp only [Bool.and_eq_true] at hc2
  obtain ⟨⟨⟨c1, c2⟩, c3⟩, c4⟩ := hc2
  have hm : ∀ f : BatchGeometry → BatchGeometry,
      (w.modifyGeom h f).renderer = w.renderer ∧ (w.modifyGeom h f).heap[h]? = some (f g) := by
    intro f
    rw [modifyGeom_of_some h f w g hg]
    exact ⟨rfl, getElem?_set_self_of_some _ _ _ _ hg⟩
  refine ⟨⟨rfl, ?_, c2, c3, c4, rfl, (hm _).1, (hm _).2⟩,
    ⟨rfl, rfl, ?_, c1, c3, c4, rfl, (hm _).1, (hm _).2⟩,
    ⟨rfl, ?_, c1, c2, c4, rfl, (hm _).1, (hm _).2⟩,
    ⟨rfl, ?_, c1, c2, c3, rfl, (hm _).1, (hm _).2⟩⟩
  · simp [setPrimitiveType, TrackingInvariant.set, TrackingInvariant.check]
  · simp [setTexture, TrackingInvariant.set, TrackingInvariant.check, textureIdOf]
  · simp [setGroup, TrackingInvariant.set, TrackingInvariant.check]
  · simp [setDepth, TrackingInvariant.set, TrackingInvariant.check]

/-- Witness for C13 at a freshly created geometry: writing the old depth keeps the
check true, writing another depth makes it false. -/
theorem setter_writes_current_witness :
    (freshGeometry.setDepth 5).getDepth = 5 ∧
    (freshGeometry.setDepth 0).depth.check = true ∧
    (freshGeometry.setDepth 5).depth.check = false ∧
    (freshGeometry.setDepth 5).primitivetype.check = true ∧
    (freshWorld.modifyGeom 0 (fun x => x.setDepth 5)).renderer = freshWorld.renderer ∧
    (freshGeometry.setDepth 5).previousKey = freshGeometry.previousKey :=
  ⟨(setter_writes_current freshWorld 0 freshGeometry (by decide) (by decide) 7 none 0 5).2.2.2.1,
    ((setter_writes_current freshWorld 0 freshGeometry (by decide) (by decide)
      7 none 0 0).2.2.2.2.1).2 (by decide),
    by
      have h := (setter_writes_current freshWorld 0 freshGeometry (by decide) (by decide)
        7 none 0 5).2.2.2.2.1
      cases hb : (freshGeometry.setDepth 5).depth.check with
      | false => rfl
      | true => exact absurd (h.1 hb) (by decide),
    (setter_writes_current freshWorld 0 freshGeometry (by decide) (by decide)
      7 none 0 5).2.2.2.2.2.1,
    (setter_writes_current freshWorld 0 freshGeometry (by decide) (by decide)
      7 none 0 5).2.2.2.2.2.2.2.2.2.1,
    (setter_writes_current freshWorld 0 freshGeometry (by decide) (by decide)
      7 none 0 5).2.2.2.2.2.2.2.2.1⟩

/-! ## Ring-buffer vertex access -/

/-- C16 (what the code does): with three vertices, index 2 is the last vertex but
index −1 = 2 − 3 is the first one, for a 64-bit and for a 32-bit `size_t`
alike: the signed index is converted to the unsigned size type before the
remainder is taken, and 2⁶⁴ − 1 and 2³² − 1 are multiples of 3. The same
position is used by `getVertex`, `setVertex`, `removeVertex` and
`operator[]`. -/
theorem negative_index_not_ring :
    threeVertexGeometry.vertices = [vertexA, vertexB, vertexC] ∧
    ((-1 : Int) % 3 = 2) ∧
    ringIndex 64 (-1) 3 = 0 ∧ ringIndex 32 (-1) 3 = 0 ∧ ringIndex 64 2 3 = 2 ∧
    getVertex 64 threeVertexGeometry 2 = some vertexC ∧
    getVertex 64 threeVertexGeometry (-1) = some vertexA ∧
    getVertex 32 threeVertexGeometry (-1) = some vertexA ∧
    index 64 threeVertexGeometry (-1) = some vertexA ∧
    (setVertex 64 threeVertexGeometry (-1) vertexB).vertices = [vertexB, vertexB, vertexC] ∧
    (removeVertex 64 threeVertexGeometry (-1)).vertices = [vertexB, vertexC] := by
  decide

/-! ## fromRectangle and fromPolygon -/

theorem update_heap (w : World) (h : Handle) (g : BatchGeometry) (hg : w.heap[h]? = some g) :
    (update h w).heap[h]? = some (if g.allCheck then g else g.resetInvariants) := by
  by_cases hc : (g.primitivetype.check && g.textureid.check && g.groupid.check &&
      g.depth.check) = true
  · have ha : g.allCheck = true := hc
    simp [update, hg, hc, ha]
  · have ha : ¬ g.allCheck = true := hc
    have hm := moveGeometry_of_some w h g hg
    have hmg : (moveGeometry h w).heap[h]? = some g := by rw [hm]; exact hg
    simp only [update, hg, hc, ha]
    rw [modifyGeom_of_some h _ _ g hmg, hm]
    simpa using getElem?_set_self_of_some _ _ _ _ hg

theorem modifyGeom_heap (w : World) (h : Handle) (g : BatchGeometry)
    (f : BatchGeometry → BatchGeometry) (hg : w.heap[h]? = some g) :
    (w.modifyGeom h f).heap[h]? = some (f g) := by
  rw [modifyGeom_of_some h f w g hg]
  exact getElem?_set_self_of_some _ _ _ _ hg

theorem fromRectangle_heap (w : World) (h : Handle) (g : BatchGeometry)
    (hg : w.heap[h]? = some g) (rect : Rectangle) :
    ∃ g1 : BatchGeometry,
      (fromRectangle h rect w).heap[h]? = some (g1.rectangleVertices rect) ∧
      g1.primitivetype.value = GL_QUADS ∧ g1.texture = g.texture ∧
      g1.textureid.value = g.textureid.value ∧ g1.dropped = g.dropped := by
  have h1 := modifyGeom_heap w h g (fun x => x.setPrimitiveType GL_QUADS) hg
  have h2 := update_heap _ h _ h1
  simp only [] at h2
  refine ⟨_, modifyGeom_heap _ h _ (fun x => x.rectangleVertices rect) h2, ?_⟩
  split <;> exact ⟨rfl, rfl, rfl, rfl⟩

theorem fromPolygon_heap (w : World) (h : Handle) (g : BatchGeometry)
    (hg : w.heap[h]? = some g) (poly : Polygon) :
    ∃ g1 : BatchGeometry,
      (fromPolygon h poly w).heap[h]? = some (g1.polygonVertices poly) ∧
      g1.primitivetype.value = GL_TRIANGLES ∧ g1.texture = g.texture ∧
      g1.textureid.value = g.textureid.value ∧ g1.dropped = g.dropped := by
  have h1 := modifyGeom_heap w h g (fun x => x.setPrimitiveType GL_TRIANGLES) hg
  have h2 := update_heap _ h _ h1
  simp only [] at h2
  refine ⟨_, modifyGeom_heap _ h _ (fun x => x.polygonVertices poly) h2, ?_⟩
  split <;> exact ⟨rfl, rfl, rfl, rfl⟩

/-- C17: `fromRectangle` replaces the vertex list, whatever it held, by the four
corners (x, y), (x, y+h), (x+w, y+h), (x+w, y) in this order, with texture
coordinates (0,0), (0,1), (1,1), (1,0) and the default colour, and leaves the
primitive type at quads. -/
theorem fromRectangle_vertices (w : World) (h : Handle) (g : BatchGeometry)
    (hg : w.heap[h]? = some g) (rect : Rectangle) :
    ∃ g2, (fromRectangle h rect w).heap[h]? = some g2 ∧
      g2.vertices =
        [Vertex.make { x := rect.position.x, y := rect.position.y } Color.default
            { u := 0, v := 0 },
         Vertex.make { x := rect.position.x, y := rect.position.y + rect.dimensions.y }
            Color.default { u := 0, v := 1 },
         Vertex.make { x := rect.position.x + rect.dimensions.x,
                       y := rect.position.y + rect.dimensions.y }
            Color.default { u := 1, v := 1 },
         Vertex.make { x := rect.position.x + rect.dimensions.x, y := rect.position.y }
            Color.default { u := 1, v := 0 }] ∧
      g2.getPrimitiveType = GL_QUADS := by
  obtain ⟨g1, h1, h2, _⟩ := fromRectangle_heap w h g hg rect
  refine ⟨_, h1, ?_, h2⟩
  simp [rectangleVertices, BatchGeometry.translate, addVertex, clearVertices, Vertex.make,
    add_comm]

/-- Witness for C17: position (10, 20) and dimensions (30, 40) give the corners
(10, 20), (10, 60), (40, 60), (40, 20), whatever the geometry held before. -/
theorem fromRectangle_vertices_witness :
    ∃ g2, (fromRectangle 0 sampleRectangle twoVertexWorld).heap[0]? = some g2 ∧
      g2.vertices =
        [{ x := 10, y := 20, r := 0, g := 0, b := 0, a := 255, u := 0, v := 0 },
         { x := 10, y := 60, r := 0, g := 0, b := 0, a := 255, u := 0, v := 1 },
         { x := 40, y := 60, r := 0, g := 0, b := 0, a := 255, u := 1, v := 1 },
         { x := 40, y := 20, r := 0, g := 0, b := 0, a := 255, u := 1, v := 0 }] ∧
      g2.getPrimitiveType = GL_QUADS := by
  obtain ⟨g2, h1, h2, h3⟩ :=
    fromRectangle_vertices twoVertexWorld 0 twoVertexGeometry (by decide) sampleRectangle
  refine ⟨g2, h1, ?_, h3⟩
  rw [h2]
  norm_num [Vertex.make, Color.default, sampleRectangle]

theorem length_flatten_triples {α : Type} (f : Nat → List α) (hf : ∀ i, (f i).length = 3)
    (n : Nat) : (((List.range n).map f).flatten).length = 3 * n := by
  induction n with
  | zero => rfl
  | succ n ih =>
    rw [List.range_succ, List.map_append, List.flatten_append, List.length_append, ih]
    simp [hf]
    omega

theorem getElem?_flatten_triples {α : Type} (f : Nat → List α) (hf : ∀ i, (f i).length = 3)
    (n i j : Nat) (hi : i < n) (hj : j < 3) :
    (((List.range n).map f).flatten)[3 * i + j]? = (f i)[j]? := by
  induction n with
  | zero => omega
  | succ n ih =>
    rw [List.range_succ, List.map_append, List.flatten_append]
    have hlen := length_flatten_triples f hf n
    by_cases hin : i < n
    · rw [List.getElem?_append_left (by rw [hlen]; omega)]
      exact ih hin
    · have hieq : i = n := by omega
      subst hieq
      rw [List.getElem?_append_right (by rw [hlen]; omega), hlen]
      have : 3 * i + j - 3 * i = j := by omega
      simp [this]

/-- C18: for a polygon with N ≥ 3 vertices and origin P, `fromPolygon` replaces the
vertex list by 3N vertices, the i-th triple being P, P + V_i and
P + V_((i+1) mod N), and leaves the primitive type at triangles. -/
theorem fromPolygon_vertices (w : World) (h : Handle) (g : BatchGeometry)
    (hg : w.heap[h]? = some g) (poly : Polygon) (hn : 3 ≤ poly.vertices.length) :
    ∃ g2, (fromPolygon h poly w).heap[h]? = some g2 ∧
      g2.vertices.length = 3 * poly.vertices.length ∧
      (∀ i, i < poly.vertices.length →
        g2.vertices[3 * i]? = some (Vertex.ofPosition poly.position) ∧
        g2.vertices[3 * i + 1]? = some (Vertex.ofPosition
          (poly.position.add (poly.vertices.getD i { x := 0, y := 0 }))) ∧
        g2.vertices[3 * i + 2]? = some (Vertex.ofPosition
          (poly.position.add
            (poly.vertices.getD ((i + 1) % poly.vertices.length) { x := 0, y := 0 })))) ∧
      g2.getPrimitiveType = GL_TRIANGLES := by
  obtain ⟨g1, h1, h2, _⟩ := fromPolygon_heap w h g hg poly
  have hcount : poly.getVertexCount > 2 := by
    unfold Polygon.getVertexCount; omega
  have hv : (g1.polygonVertices poly).vertices
      = ((List.range poly.vertices.length).map (fun i =>
          [Vertex.ofPosition poly.position,
           Vertex.ofPosition (poly.position.add (poly.getVertex i)),
           Vertex.ofPosition (poly.position.add (poly.getVertex (i + 1)))])).flatten := by
    rw [polygonVertices_eq]
    simp only [hcount, if_true]
    rfl
  have hp : (g1.polygonVertices poly).getPrimitiveType = GL_TRIANGLES := by
    rw [polygonVertices_eq]; exact h2
  refine ⟨_, h1, ?_, ?_, hp⟩
  · rw [hv]
    exact length_flatten_triples (fun i =>
          [Vertex.ofPosition poly.position,
           Vertex.ofPosition (poly.position.add (poly.getVertex i)),
           Vertex.ofPosition (poly.position.add (poly.getVertex (i + 1)))])
      (fun _ => rfl) poly.vertices.length
  · intro i hi
    rw [hv]
    have e0 := getElem?_flatten_triples (fun i =>
          [Vertex.ofPosition poly.position,
           Vertex.ofPosition (poly.position.add (poly.getVertex i)),
           Vertex.ofPosition (poly.position.add (poly.getVertex (i + 1)))])
      (fun _ => rfl) poly.vertices.length i 0 hi (by omega)
    have e1 := getElem?_flatten_triples (fun i =>
          [Vertex.ofPosition poly.position,
           Vertex.ofPosition (poly.position.add (poly.getVertex i)),
           Vertex.ofPosition (poly.position.add (poly.getVertex (i + 1)))])
      (fun _ => rfl) poly.vertices.length i 1 hi (by omega)
    have e2 := getElem?_flatten_triples (fun i =>
          [Vertex.ofPosition poly.position,
           Vertex.ofPosition (poly.position.add (poly.getVertex i)),
           Vertex.ofPosition (poly.position.add (poly.getVertex (i + 1)))])
      (fun _ => rfl) poly.vertices.length i 2 hi (by omega)
    have hmod : i % poly.vertices.length = i := Nat.mod_eq_of_lt hi
    refine ⟨?_, ?_, ?_⟩
    · rw [← Nat.add_zero (3 * i), e0]; rfl
    · rw [e1]; simp [Polygon.getVertex, hmod]
    · rw [e2]; simp [Polygon.getVertex]

/-- Witness for C18 at a triangle with origin (1, 1): nine vertices, the last
triple closing the fan on polygon vertex 0. -/
theorem fromPolygon_vertices_witness :
    ∃ g2, (fromPolygon 0 samplePolygon freshWorld).heap[0]? = some g2 ∧
      g2.vertices.length = 9 ∧
      g2.vertices[6]? = some (Vertex.ofPosition { x := 1, y := 1 }) ∧
      g2.vertices[7]? = some (Vertex.ofPosition
        (Vector2d.add { x := 1, y := 1 } { x := 0, y := 2 })) ∧
      g2.vertices[8]? = some (Vertex.ofPosition
        (Vector2d.add { x := 1, y := 1 } { x := 0, y := 0 })) ∧
      g2.getPrimitiveType = GL_TRIANGLES := by
  obtain ⟨g2, h1, h2, h3, h4⟩ :=
    fromPolygon_vertices freshWorld 0 freshGeometry (by decide) samplePolygon (by decide)
  exact ⟨g2, h1, h2, (h3 2 (by decide)).1, (h3 2 (by decide)).2.1, (h3 2 (by decide)).2.2, h4⟩

/-! ## Dropped geometry -/

/-- C11 (what the code does): a geometry that was dropped and then pruned is in
neither the graph nor the recycle list; after `setDepth(5)` and `update()` it is
in the graph again, still marked dropped, with an empty recycle list, so that
the next prune leaves it there and the next draw batches its vertices.
`fromPolygon` re-inserts it the same way, through the `update()` it calls after
changing the primitive type. -/
theorem update_reinserts_dropped :
    prunedWorld.isDropped 0 = true ∧
    graphHandles prunedWorld.renderer.geometry = [] ∧
    prunedWorld.renderer.recyclelist = [] ∧
    newEvents (prunedWorld.modifyGeom 0 (fun g => g.setDepth 5)) resurrectedWorld
      = [Event.moveGeometry 0] ∧
    graphHandles resurrectedWorld.renderer.geometry = [0] ∧
    resurrectedWorld.isDropped 0 = true ∧
    resurrectedWorld.renderer.recyclelist = [] ∧
    graphHandles (pruneGeometry resurrectedWorld).renderer.geometry = [0] ∧
    batchLog (newEvents resurrectedWorld (draw resurrectedWorld))
      = [(0, [vertexA, vertexB])] ∧
    graphHandles (fromPolygon 0 samplePolygon prunedWorld).renderer.geometry = [0] := by
  decide

/-! ## The texture id follows the texture -/

theorem heapAll_of_heap_eq (P : BatchGeometry → Prop) (w w2 : World)
    (hh : w2.heap = w.heap) (hw : HeapAll P w) : HeapAll P w2 := by
  intro g hg; rw [hh] at hg; exact hw g hg

theorem heapAll_modifyGeom (P : BatchGeometry → Prop) (f : BatchGeometry → BatchGeometry)
    (hf : ∀ g, P g → P (f g)) (h : Handle) (w : World) (hw : HeapAll P w) :
    HeapAll P (w.modifyGeom h f) := by
  unfold World.modifyGeom
  cases hg : w.heap[h]? with
  | none => exact hw
  | some g =>
    intro x hx
    rcases List.mem_or_eq_of_mem_set hx with h1 | h1
    · exact hw x h1
    · rw [h1]
      exact hf g (hw g (List.getElem?_mem hg))

theorem heapAll_append (P : BatchGeometry → Prop) (w : World) (g0 : BatchGeometry)
    (h0 : P g0) (hw : HeapAll P w) (w2 : World) (hh : w2.heap = w.heap ++ [g0]) :
    HeapAll P w2 := by
  intro g hg
  rw [hh] at hg
  rcases List.mem_append.1 hg with h1 | h1
  · exact hw g h1
  · rw [List.mem_singleton.1 h1]; exact h0

theorem heapAll_update (P : BatchGeometry → Prop) (hr : ∀ g, P g → P g.resetInvariants)
    (h : Handle) (w : World) (hw : HeapAll P w) : HeapAll P (update h w) := by
  unfold update
  cases hg : w.heap[h]? with
  | none => exact hw
  | some g =>
    simp only
    split
    · apply heapAll_modifyGeom P _ hr
      exact heapAll_of_heap_eq P w _ (by rw [moveGeometry_of_some w h g hg]) hw
    · exact hw

theorem heapAll_drop (P : BatchGeometry → Prop) (hd : ∀ g, P g → P (Droppable.drop g))
    (h : Handle) (w : World) (hw : HeapAll P w) : HeapAll P (BatchGeometry.drop h w) := by
  cases hg : w.heap[h]? with
  | none =>
    have : BatchGeometry.drop h w = w := by simp [BatchGeometry.drop, hg]
    rw [this]; exact hw
  | some g =>
    cases hdr : g.dropped with
    | true => rw [drop_of_dropped w h g hg hdr]; exact hw
    | false =>
      rw [drop_of_live w h g hg hdr]
      intro x hx
      rcases List.mem_or_eq_of_mem_set hx with h1 | h1
      · exact hw x h1
      · rw [h1]; exact hd g (hw g (List.getElem?_mem hg))

theorem heapAll_batch (P : BatchGeometry → Prop) (hd : ∀ g, P g → P (Droppable.drop g))
    (h : Handle) (L : List Vertex) (w : World) (hw : HeapAll P w) :
    HeapAll P (batch h w L).1 := by
  cases hg : w.heap[h]? with
  | none => simp only [batch, hg]; exact hw
  | some g =>
    have hb : (batch h w L).1 = if g.immediate then BatchGeometry.drop h w else w := by
      cases he : g.enabled <;> simp [batch, hg, he]
    rw [hb]
    split
    · exact heapAll_drop P hd h w hw
    · exact hw

theorem heapAll_perform (P : BatchGeometry → Prop)
    (hvert : ∀ g vs, P g → P { g with vertices := vs })
    (hflag : ∀ g e i gb ge, P g →
      P { g with enabled := e, immediate := i, groupbegin := gb, groupend := ge })
    (hpt : ∀ g v, P g → P (g.setPrimitiveType v))
    (htex : ∀ g t, P g → P (g.setTexture t))
    (hgrp : ∀ g v, P g → P (g.setGroup v))
    (hdep : ∀ g v, P g → P (g.setDepth v))
    (hr : ∀ g, P g → P g.resetInvariants)
    (hd : ∀ g, P g → P (Droppable.drop g))
    (hnew : ∀ p t g d, P (BatchGeometry.new p t g d))
    (bits : Nat) (a : Action) (w : World) (hw : HeapAll P w) :
    HeapAll P (perform bits a w) := by
  have hrect : ∀ g rect, P g → P (g.rectangleVertices rect) := by
    intro g rect hg
    rw [rectangleVertices_fields]
    exact hvert g _ hg
  have hpoly : ∀ g poly, P g → P (g.polygonVertices poly) := by
    intro g poly hg
    rw [polygonVertices_eq]
    exact hvert g _ hg
  cases a with
  | create p t g d =>
    exact heapAll_append P w _ (hnew p t g d) hw _ (by simp only [perform, create_eq])
  | createRectangle rect t g d =>
    exact heapAll_append P w _ (hrect _ rect (hnew GL_QUADS t g d)) hw _
      (by simp only [perform, createRectangle_eq])
  | createPolygon poly t g d =>
    exact heapAll_append P w _ (hpoly _ poly (hnew GL_TRIANGLES t g d)) hw _
      (by simp only [perform, createPolygon_eq])
  | setPrimitiveType h v => exact heapAll_modifyGeom P _ (fun g hg => hpt g v hg) h w hw
  | setTexture h t => exact heapAll_modifyGeom P _ (fun g hg => htex g t hg) h w hw
  | setGroup h v => exact heapAll_modifyGeom P _ (fun g hg => hgrp g v hg) h w hw
  | setDepth h v => exact heapAll_modifyGeom P _ (fun g hg => hdep g v hg) h w hw
  | setEnabled h e =>
    exact heapAll_modifyGeom P _ (fun g hg => hflag g e g.immediate g.groupbegin g.groupend hg)
      h w hw
  | setImmediate h i =>
    exact heapAll_modifyGeom P _ (fun g hg => hflag g g.enabled i g.groupbegin g.groupend hg)
      h w hw
  | setGroupBeginFunction h f =>
    exact heapAll_modifyGeom P _ (fun g hg => hflag g g.enabled g.immediate f g.groupend hg)
      h w hw
  | setGroupEndFunction h f =>
    exact heapAll_modifyGeom P _ (fun g hg => hflag g g.enabled g.immediate g.groupbegin f hg)
      h w hw
  | addVertex h v => exact heapAll_modifyGeom P _ (fun g hg => hvert g _ hg) h w hw
  | setVertex h a v => exact heapAll_modifyGeom P _ (fun g hg => hvert g _ hg) h w hw
  | removeVertex h a => exact heapAll_modifyGeom P _ (fun g hg => hvert g _ hg) h w hw
  | translate h t => exact heapAll_modifyGeom P _ (fun g hg => hvert g _ hg) h w hw
  | scale h s => exact heapAll_modifyGeom P _ (fun g hg => hvert g _ hg) h w hw
  | rotate h m => exact heapAll_modifyGeom P _ (fun g hg => hvert g _ hg) h w hw
  | colorize h c => exact heapAll_modifyGeom P _ (fun g hg => hvert g _ hg) h w hw
  | update h => exact heapAll_update P hr h w hw
  | batch h list => exact heapAll_batch P hd h list w hw
  | drop h => exact heapAll_drop P hd h w hw
  | fromRectangle h rect =>
    exact heapAll_modifyGeom P _ (fun g hg => hrect g rect hg) h _
      (heapAll_update P hr h _ (heapAll_modifyGeom P _ (fun g hg => hpt g GL_QUADS hg) h w hw))
  | fromPolygon h poly =>
    exact heapAll_modifyGeom P _ (fun g hg => hpoly g poly hg) h _
      (heapAll_update P hr h _
        (heapAll_modifyGeom P _ (fun g hg => hpt g GL_TRIANGLES hg) h w hw))

theorem heapAll_performAll (P : BatchGeometry → Prop)
    (hstep : ∀ a w, HeapAll P w → HeapAll P (perform bits a w))
    (script : List Action) (w : World) (hw : HeapAll P w) :
    HeapAll P (performAll bits script w) := by
  unfold performAll
  induction script generalizing w with
  | nil => exact hw
  | cons a script ih => exact ih _ (hstep a w hw)

/-- C12: in every world reached from the empty renderer by a script of factory
calls and member-function calls (setters, vertex edits, update, batch, drop,
fromRectangle, fromPolygon), every geometry's texture-id key has as current
value the id of its bound texture, or 0 when none is bound. -/
theorem texture_id_follows_texture (bits : Nat) (script : List Action) :
    ∀ g ∈ (performAll bits script World.empty).heap,
      g.getTextureId = textureIdOf g.getTexture := by
  have hstep : ∀ a w, HeapAll TextureIdOK w → HeapAll TextureIdOK (perform bits a w) := by
    intro a w hw
    exact heapAll_perform TextureIdOK (fun _ _ h => h) (fun _ _ _ _ _ h => h)
      (fun _ _ h => h) (fun _ _ _ => rfl) (fun _ _ h => h) (fun _ _ h => h)
      (fun _ h => h) (fun _ h => h) (fun _ _ _ _ => rfl) bits a w hw
  exact heapAll_performAll TextureIdOK hstep script World.empty
    (fun g hg => by simp [World.empty] at hg)

/-- Witness for C12 at a script that binds texture 9 and then rebuilds, updates,
batches and drops the geometry. -/
theorem texture_id_follows_texture_witness :
    (performAll 64 sampleScript World.empty).heap.map (fun g => (g.getTextureId, g.getTexture))
      = [(9, some { textureId := 9 })] ∧
    ∀ g ∈ (performAll 64 sampleScript World.empty).heap,
      g.getTextureId = textureIdOf g.getTexture :=
  ⟨by decide, texture_id_follows_texture 64 sampleScript⟩

/-! ## Resource manager -/

theorem addResources_list (rcs : List RHandle) (w : RWorld) :
    (ResourceManager.addResources rcs w).manager.resourcelist
      = w.manager.resourcelist ++ rcs ∧
    (ResourceManager.addResources rcs w).manager.recyclelist = w.manager.recyclelist ∧
    (ResourceManager.addResources rcs w).resources = w.resources := by
  unfold ResourceManager.addResources
  induction rcs generalizing w with
  | nil => simp
  | cons rc rcs ih =>
    rw [List.foldl_cons]
    obtain ⟨h1, h2, h3⟩ := ih (ResourceManager.addResource rc w)
    rw [h1, h2, h3]
    simp [ResourceManager.addResource]

/-- C19: `getResource(i)` returns the i-th entry of the live list when `i` is
below its length `n` and the empty handle otherwise; the live list is the
resources in the order of the `addResource` calls; `getResourceCount()` returns
`n` (as an `unsigned int`, so for `n` below 2³²); neither call changes the
manager. -/
theorem getResource_by_index (w : RWorld) (i : Nat) (rcs : List RHandle) :
    (ResourceManager.getResource i w).1 = w ∧
    (ResourceManager.getResourceCount w).1 = w ∧
    (i < w.manager.resourcelist.length →
      (ResourceManager.getResource i w).2 = w.manager.resourcelist[i]? ∧
      (ResourceManager.getResource i w).2.isSome = true) ∧
    (w.manager.resourcelist.length ≤ i → (ResourceManager.getResource i w).2 = none) ∧
    (ResourceManager.getResourceCount w).2 = w.manager.resourcelist.length % 2 ^ 32 ∧
    (w.manager.resourcelist.length < 2 ^ 32 →
      (ResourceManager.getResourceCount w).2 = w.manager.resourcelist.length) ∧
    (ResourceManager.addResources rcs w).manager.resourcelist
      = w.manager.resourcelist ++ rcs ∧
    (∀ j, j < rcs.length →
      (ResourceManager.getResource (w.manager.resourcelist.length + j)
        (ResourceManager.addResources rcs w)).2 = rcs[j]?) := by
  refine ⟨rfl, rfl, ?_, ?_, rfl, ?_, (addResources_list rcs w).1, ?_⟩
  · intro hi
    have h1 : (ResourceManager.getResource i w).2 = w.manager.resourcelist[i]? := by
      simp [ResourceManager.getResource, hi]
    refine ⟨h1, ?_⟩
    rw [h1, List.getElem?_eq_getElem hi]
    rfl
  · intro hi
    have : ¬ i < w.manager.resourcelist.length := by omega
    simp [ResourceManager.getResource, this]
  · intro hn
    exact Nat.mod_eq_of_lt hn
  · intro j hj
    have hl := (addResources_list rcs w).1
    have hlt : w.manager.resourcelist.length + j
        < (ResourceManager.addResources rcs w).manager.resourcelist.length := by
      rw [hl, List.length_append]; omega
    simp only [ResourceManager.getResource, hlt, if_true]
    rw [hl, List.getElem?_append_right (by omega)]
    simp

/-- Witness for C19 at three resources registered in order 0, 1, 2. -/
theorem getResource_by_index_witness :
    (ResourceManager.getResource 1 threeResourceWorld).2 = some 1 ∧
    (ResourceManager.getResource 3 threeResourceWorld).2 = none ∧
    (ResourceManager.getResourceCount threeResourceWorld).2 = 3 ∧
    (ResourceManager.getResource 1 threeResourceWorld).1 = threeResourceWorld :=
  ⟨((getResource_by_index threeResourceWorld 1 []).2.2.1 (by decide)).1.trans (by decide),
    (getResource_by_index threeResourceWorld 3 []).2.2.2.1 (by decide),
    ((getResource_by_index threeResourceWorld 1 []).2.2.2.2.2.1 (by decide)).trans (by decide),
    (getResource_by_index threeResourceWorld 1 []).1⟩

/-- C20 (as stated, refuted): for a live resource registered in a manager,
`removeResource` puts it on the recycle list but leaves its dropped flag false
and leaves it on the live list. -/
theorem removeResource_does_not_drop :
    threeResourceWorld.manager.resourcelist = [0, 1, 2] ∧
    threeResourceWorld.resources[1]? = some { dropped := false } ∧
    (ResourceManager.removeResource 1 threeResourceWorld).manager.recyclelist = [1] ∧
    (ResourceManager.removeResource 1 threeResourceWorld).resources[1]?
      = some { dropped := false } ∧
    (ResourceManager.removeResource 1 threeResourceWorld).manager.resourcelist = [0, 1, 2] := by
  decide

/-- C20 (amended): `removeResource(rc)` pushes `rc` onto the recycle list, so that it
is on the list after the call; it changes nothing else: no resource's dropped
flag, and not the live list. -/
theorem removeResource_pushes (w : RWorld) (rc : RHandle) :
    (ResourceManager.removeResource rc w).manager.recyclelist
      = w.manager.recyclelist ++ [rc] ∧
    rc ∈ (ResourceManager.removeResource rc w).manager.recyclelist ∧
    (ResourceManager.removeResource rc w).resources = w.resources ∧
    (ResourceManager.removeResource rc w).manager.resourcelist = w.manager.resourcelist := by
  refine ⟨rfl, ?_, rfl, rfl⟩
  simp [ResourceManager.removeResource]

/-! ## Vertex access is in bounds -/

theorem ringIndex_lt (bits : Nat) (a : Int) (n : Nat) (hn : 0 < n) : ringIndex bits a n < n :=
  Nat.mod_lt _ hn

theorem ringIndex_zero (bits : Nat) (a : Int) :
    ringIndex bits a 0 = (a % (2 : Int) ^ bits).toNat := by
  simp [ringIndex]

/-- C26: for a non-empty vertex list of n vertices and any index `a`, negative
ones included, the position `a % vertices.size()` used by `getVertex`,
`setVertex`, `removeVertex` and `operator[]` is below n: `getVertex` and
`operator[]` return a vertex of the list, `setVertex` stores its argument in a
list of the same length, `removeVertex` takes away exactly one vertex. An
access finds no element only for the empty list, where the modulus is zero. -/
theorem vertex_access_in_bounds (bits : Nat) (g : BatchGeometry) (a : Int) (v : Vertex)
    (hne : g.vertices ≠ []) :
    ringIndex bits a g.vertices.length < g.vertices.length ∧
    (∃ u, getVertex bits g a = some u ∧ u ∈ g.vertices) ∧
    (∃ u, index bits g a = some u ∧ u ∈ g.vertices) ∧
    (setVertex bits g a v).vertices.length = g.vertices.length ∧
    (setVertex bits g a v).vertices[ringIndex bits a g.vertices.length]? = some v ∧
    (removeVertex bits g a).vertices.length + 1 = g.vertices.length ∧
    (∀ g0 : BatchGeometry, ∀ c : Int, getVertex bits g0 c = none ↔ g0.vertices = []) := by
  have hn : 0 < g.vertices.length := List.length_pos.mpr hne
  have hlt := ringIndex_lt bits a g.vertices.length hn
  refine ⟨hlt, ?_, ?_, ?_, ?_, ?_, ?_⟩
  · refine ⟨g.vertices[ringIndex bits a g.vertices.length], ?_, List.getElem_mem _⟩
    simp [getVertex, List.getElem?_eq_getElem hlt]
  · refine ⟨g.vertices[ringIndex bits a g.vertices.length], ?_, List.getElem_mem _⟩
    simp [index, List.getElem?_eq_getElem hlt]
  · simp [setVertex]
  · simp [setVertex, hlt]
  · simp only [removeVertex]
    rw [List.length_eraseIdx]
    simp only [hlt, if_true]
    omega
  · intro g0 c
    constructor
    · intro h0
      by_contra hne0
      have hn0 : 0 < g0.vertices.length := List.length_pos.mpr hne0
      have hlt0 := ringIndex_lt bits c g0.vertices.length hn0
      simp [getVertex, List.getElem?_eq_getElem hlt0] at h0
    · intro h0
      simp [getVertex, h0]

/-- Witness for C26 at three vertices and the index −1 with a 64-bit size type. -/
theorem vertex_access_in_bounds_witness :
    ringIndex 64 (-1) threeVertexGeometry.vertices.length < threeVertexGeometry.vertices.length ∧
    (∃ u, getVertex 64 threeVertexGeometry (-1) = some u ∧ u ∈ threeVertexGeometry.vertices) :=
  ⟨(vertex_access_in_bounds 64 threeVertexGeometry (-1) vertexA (by decide)).1,
    (vertex_access_in_bounds 64 threeVertexGeometry (-1) vertexA (by decide)).2.1⟩

/-! ## setVertex -/

/-- C27: on a non-empty vertex list, after `setVertex(a, v)` the call
`getVertex(a)` returns `v`, `getVertexCount()` and the length of the list are
what they were, every position other than the one selected by `a` holds the
vertex it held (also as read through `getVertex`), and every other member of
the geometry (keys with their last-observed values, texture, flags, hooks) is
unchanged. -/
theorem setVertex_then_getVertex (bits : Nat) (g : BatchGeometry) (a : Int) (v : Vertex)
    (hne : g.vertices ≠ []) :
    getVertex bits (setVertex bits g a v) a = some v ∧
    (setVertex bits g a v).getVertexCount = g.getVertexCount ∧
    (setVertex bits g a v).vertices.length = g.vertices.length ∧
    (∀ j, j ≠ ringIndex bits a g.vertices.length →
      (setVertex bits g a v).vertices[j]? = g.vertices[j]?) ∧
    (∀ c : Int, ringIndex bits c g.vertices.length ≠ ringIndex bits a g.vertices.length →
      getVertex bits (setVertex bits g a v) c = getVertex bits g c) ∧
    setVertex bits g a v = { g with vertices := (setVertex bits g a v).vertices } ∧
    (setVertex bits g a v).primitivetype = g.primitivetype ∧
    (setVertex bits g a v).textureid = g.textureid ∧
    (setVertex bits g a v).groupid = g.groupid ∧
    (setVertex bits g a v).depth = g.depth ∧
    (setVertex bits g a v).texture = g.texture ∧
    (setVertex bits g a v).enabled = g.enabled ∧
    (setVertex bits g a v).immediate = g.immediate ∧
    (setVertex bits g a v).dropped = g.dropped ∧
    (setVertex bits g a v).allCheck = g.allCheck := by
  have hn : 0 < g.vertices.length := List.length_pos.mpr hne
  have hlt := ringIndex_lt bits a g.vertices.length hn
  have hlen : (setVertex bits g a v).vertices.length = g.vertices.length := by simp [setVertex]
  refine ⟨?_, ?_, hlen, ?_, ?_, rfl, rfl, rfl, rfl, rfl, rfl, rfl, rfl, rfl, rfl⟩
  · simp only [getVertex, hlen]
    simp [setVertex, hlt]
  · simp only [getVertexCount, hlen]
  · intro j hj
    simp only [setVertex]
    exact List.getElem?_set_ne (fun h => hj h.symm)
  · intro c hc
    simp only [getVertex, hlen]
    simp only [setVertex]
    exact List.getElem?_set_ne (fun h => hc h.symm)

/-- Witness for C27: the last of three vertices is overwritten through the index 2. -/
theorem setVertex_then_getVertex_witness :
    getVertex 64 (setVertex 64 threeVertexGeometry 2 vertexA) 2 = some vertexA ∧
    (setVertex 64 threeVertexGeometry 2 vertexA).getVertexCount
      = threeVertexGeometry.getVertexCount :=
  ⟨(setVertex_then_getVertex 64 threeVertexGeometry 2 vertexA (by decide)).1,
    (setVertex_then_getVertex 64 threeVertexGeometry 2 vertexA (by decide)).2.1⟩

/-! ## What batch leaves alone -/

theorem batch_world (w : World) (h : Handle) (g : BatchGeometry) (L : List Vertex)
    (hg : w.heap[h]? = some g) :
    (batch h w L).1 = if g.immediate then BatchGeometry.drop h w else w := by
  cases he : g.enabled <;> simp [batch, hg, he]

theorem set_self_of_some {α : Type} (l : List α) (i : Nat) (a : α) (h : l[i]? = some a) :
    l.set i a = l := by
  induction l generalizing i with
  | nil => rfl
  | cons c l ih =>
    cases i with
    | zero =>
      simp only [List.getElem?_cons_zero, Option.some.injEq] at h
      subst h
      rfl
    | succ i =>
      simp only [List.getElem?_cons_succ] at h
      simp [ih i h]

theorem batch_heap (w : World) (h : Handle) (g : BatchGeometry) (L : List Vertex)
    (hg : w.heap[h]? = some g) :
    (batch h w L).1.heap = w.heap.set h { g with dropped := g.dropped || g.immediate } := by
  rw [batch_world w h g L hg]
  obtain ⟨d, p, ti, tx, gi, de, en, vs, im, gb, ge⟩ := g
  cases im with
  | false =>
    simp only [Bool.false_eq_true, if_false, Bool.or_false]
    exact (set_self_of_some _ _ _ hg).symm
  | true =>
    cases d with
    | true =>
      simp only [if_true, Bool.or_true]
      rw [drop_of_dropped w h _ hg rfl]
      exact (set_self_of_some _ _ _ hg).symm
    | false =>
      simp only [if_true, Bool.or_true]
      rw [drop_of_live w h _ hg rfl]
      rfl

/-- C28: `batch` on a geometry `g` leaves in its place the same geometry with the
dropped flag set to `dropped || immediate`: vertex list, the four keys with
their last-observed values, texture, hooks, enabled and immediate flags are
unchanged, and no other geometry changes. The dropped flag never goes back to
false; it goes from false to true exactly when the geometry is immediate, and
then also when the geometry is disabled, in which case the scratch list is
unchanged and 0 is returned. -/
theorem batch_changes_only_dropped (w : World) (h : Handle) (g : BatchGeometry)
    (L : List Vertex) (hg : w.heap[h]? = some g) :
    (∃ g2 : BatchGeometry, (batch h w L).1.heap[h]? = some g2 ∧
      g2 = { g with dropped := g.dropped || g.immediate } ∧
      g2.vertices = g.vertices ∧
      g2.primitivetype = g.primitivetype ∧ g2.textureid = g.textureid ∧
      g2.groupid = g.groupid ∧ g2.depth = g.depth ∧ g2.texture = g.texture ∧
      g2.enabled = g.enabled ∧ g2.immediate = g.immediate ∧
      g2.groupbegin = g.groupbegin ∧ g2.groupend = g.groupend ∧
      (g.dropped = true → g2.dropped = true) ∧
      (g.dropped = false → (g2.dropped = true ↔ g.immediate = true)) ∧
      (g.immediate = true → g.enabled = false →
        g2.dropped = true ∧ (batch h w L).2.1 = L ∧ (batch h w L).2.2 = 0)) ∧
    (∀ x, x ≠ h → (batch h w L).1.heap[x]? = w.heap[x]?) ∧
    (batch h w L).1.heap.length = w.heap.length := by
  have hH := batch_heap w h g L hg
  refine ⟨⟨{ g with dropped := g.dropped || g.immediate }, ?_, rfl, rfl, rfl, rfl, rfl, rfl,
    rfl, rfl, rfl, rfl, rfl, ?_, ?_, ?_⟩, ?_, ?_⟩
  · rw [hH]
    exact getElem?_set_self_of_some _ _ _ _ hg
  · intro hd
    simp [hd]
  · intro hd
    simp [hd]
  · intro hi he
    refine ⟨by simp [hi], ?_, ?_⟩
    · simp [batch, hg, he]
    · simp [batch, hg, he]
  · intro x hx
    rw [hH]
    exact List.getElem?_set_ne (fun h2 => hx h2.symm)
  · rw [hH]
    simp

/-- Witness for C28: a disabled immediate geometry is dropped by `batch`, keeps
its flags and vertices, and contributes nothing. -/
theorem batch_changes_only_dropped_witness :
    (∃ g2 : BatchGeometry, (batch 0 disabledImmediateWorld [vertexA]).1.heap[0]? = some g2 ∧
      g2 = { disabledImmediateGeometry with
        dropped := disabledImmediateGeometry.dropped || disabledImmediateGeometry.immediate } ∧
      g2.vertices = disabledImmediateGeometry.vertices) ∧
    disabledImmediateGeometry.dropped = false ∧
    disabledImmediateGeometry.immediate = true ∧
    disabledImmediateGeometry.enabled = false :=
  ⟨(batch_changes_only_dropped disabledImmediateWorld 0 disabledImmediateGeometry [vertexA]
      (by decide)).1.imp (fun _ hx => ⟨hx.1, hx.2.1, hx.2.2.1⟩),
    by decide, by decide, by decide⟩

/-! ## The resource manager's lists -/

/-- C29: `removeResource(rc)` leaves the live list as it was, so
`getResourceCount()` and `getResource(i)` for every `i` return what they
returned before; the recycle list is the old one with the single entry `rc`
appended; no resource's state changes. -/
theorem removeResource_keeps_live_list (w : RWorld) (rc : RHandle) (i : Nat) :
    (ResourceManager.removeResource rc w).manager.resourcelist = w.manager.resourcelist ∧
    (ResourceManager.getResourceCount (ResourceManager.removeResource rc w)).2
      = (ResourceManager.getResourceCount w).2 ∧
    (ResourceManager.getResource i (ResourceManager.removeResource rc w)).2
      = (ResourceManager.getResource i w).2 ∧
    (ResourceManager.removeResource rc w).manager.recyclelist
      = w.manager.recyclelist ++ [rc] ∧
    (ResourceManager.removeResource rc w).manager.recyclelist.length
      = w.manager.recyclelist.length + 1 ∧
    (ResourceManager.removeResource rc w).resources = w.resources := by
  refine ⟨rfl, rfl, rfl, rfl, ?_, rfl⟩
  simp [ResourceManager.removeResource]

/-- C21: after `clearResourceList()` the live list and the recycle list are both
empty, `getResourceCount()` is 0 and `getResource(i)` is the empty handle for
every `i`, whatever the manager held before; so also for a manager in which a
dropped resource was still waiting on the recycle list. -/
theorem clearResourceList_empties (w : RWorld) (i : Nat) :
    (ResourceManager.clearResourceList w).manager.resourcelist = [] ∧
    (ResourceManager.clearResourceList w).manager.recyclelist = [] ∧
    (ResourceManager.getResourceCount (ResourceManager.clearResourceList w)).2 = 0 ∧
    (ResourceManager.getResource i (ResourceManager.clearResourceList w)).2 = none ∧
    (ResourceManager.clearResourceList w).resources = w.resources ∧
    waitingWorld.manager.recyclelist = [1] ∧
    waitingWorld.resources[1]? = some { dropped := true } ∧
    (ResourceManager.getResourceCount waitingWorld).2 = 3 ∧
    (ResourceManager.clearResourceList waitingWorld).manager
      = { resourcelist := [], recyclelist := [] } := by
  refine ⟨rfl, rfl, rfl, ?_, rfl, rfl, rfl, rfl, rfl⟩
  simp [ResourceManager.getResource, ResourceManager.clearResourceList]

/-! ## Clearing the renderer -/

/-- C23 (what the code does): `clearGeometry()` empties the graph and the recycle
list and touches no geometry, so every dropped flag is what it was. The
geometry of `freshWorld` is in the graph and not dropped before the call, and
still not dropped after it. -/
theorem clearGeometry_marks_nothing (w : World) :
    (clearGeometry w).renderer.geometry = [] ∧
    (clearGeometry w).renderer.recyclelist = [] ∧
    (clearGeometry w).heap = w.heap ∧
    (∀ x, (clearGeometry w).isDropped x = w.isDropped x) ∧
    graphHandles freshWorld.renderer.geometry = [0] ∧
    freshWorld.isDropped 0 = false ∧
    (clearGeometry freshWorld).isDropped 0 = false ∧
    graphHandles (clearGeometry freshWorld).renderer.geometry = [] :=
  ⟨rfl, rfl, rfl, fun _ => rfl, by decide, by decide, by decide, by decide⟩

/-! ## The colour-to-wire conversion -/

theorem bits32_int32 (p : Nat) : bits32 (int32 p) = p % 2 ^ 32 := by
  unfold bits32 int32
  split <;> omega

theorem and_ff (x : Nat) : x &&& 0xff = x % 256 := Nat.and_pow_two_sub_one_eq_mod x 8

theorem pack_bytes (x3 x2 x1 x0 : Nat) (h2 : x2 < 256) (h1 : x1 < 256) (h0 : x0 < 256) :
    (x3 <<< 24) ||| (x2 <<< 16) ||| (x1 <<< 8) ||| x0
      = x3 * 2 ^ 24 + x2 * 2 ^ 16 + x1 * 2 ^ 8 + x0 := by
  simp only [Nat.shiftLeft_eq]
  have e1 : x3 * 2 ^ 24 ||| x2 * 2 ^ 16 = 2 ^ 16 * (x3 * 2 ^ 8 + x2) := by
    have h := @Nat.mul_add_lt_is_or 24 (x2 * 2 ^ 16) (by omega) x3
    rw [Nat.mul_comm x3, ← h]
    omega
  have e2 : 2 ^ 16 * (x3 * 2 ^ 8 + x2) ||| x1 * 2 ^ 8
      = 2 ^ 8 * (x3 * 2 ^ 16 + x2 * 2 ^ 8 + x1) := by
    have h := @Nat.mul_add_lt_is_or 16 (x1 * 2 ^ 8) (by omega) (x3 * 2 ^ 8 + x2)
    rw [← h]
    omega
  have e3 : 2 ^ 8 * (x3 * 2 ^ 16 + x2 * 2 ^ 8 + x1) ||| x0
      = x3 * 2 ^ 24 + x2 * 2 ^ 16 + x1 * 2 ^ 8 + x0 := by
    have h := @Nat.mul_add_lt_is_or 8 x0 (by omega) (x3 * 2 ^ 16 + x2 * 2 ^ 8 + x1)
    rw [← h]
    omega
  rw [e1, e2, e3]

theorem toGLColor_bits (c : PhColor) :
    bits32 c.toGLColor
      = (c.alpha % 256).toNat * 2 ^ 24 + (c.blue % 256).toNat * 2 ^ 16
        + (c.green % 256).toNat * 2 ^ 8 + (c.red % 256).toNat := by
  have hA : bits32 c.alpha % 256 = (c.alpha % 256).toNat := by unfold bits32; omega
  have hR : bits32 c.red % 256 = (c.red % 256).toNat := by unfold bits32; omega
  have hG : bits32 c.green % 256 = (c.green % 256).toNat := by unfold bits32; omega
  have hB : bits32 c.blue % 256 = (c.blue % 256).toNat := by unfold bits32; omega
  have lA : (c.alpha % 256).toNat < 256 := by omega
  have lR : (c.red % 256).toNat < 256 := by omega
  have lG : (c.green % 256).toNat < 256 := by omega
  have lB : (c.blue % 256).toNat < 256 := by omega
  simp only [PhColor.toGLColor, bits32_int32, and_ff, hA, hR, hG, hB]
  rw [pack_bytes _ _ _ _ lR lG lB]
  generalize (c.alpha % 256).toNat = A at *
  generalize (c.red % 256).toNat = R at *
  generalize (c.green % 256).toNat = G at *
  generalize (c.blue % 256).toNat = B at *
  simp only [Nat.shiftRight_eq_div_pow]
  have x3 : (A * 2 ^ 24 + R * 2 ^ 16 + G * 2 ^ 8 + B) % 2 ^ 32 / 2 ^ 24 % 256 = A := by omega
  have x2 : (A * 2 ^ 24 + R * 2 ^ 16 + G * 2 ^ 8 + B) % 2 ^ 32 % 256 = B := by omega
  have x1 : (A * 2 ^ 24 + R * 2 ^ 16 + G * 2 ^ 8 + B) % 2 ^ 32 / 2 ^ 8 % 256 = G := by omega
  have x0 : (A * 2 ^ 24 + R * 2 ^ 16 + G * 2 ^ 8 + B) % 2 ^ 32 / 2 ^ 16 % 256 = R := by omega
  rw [x3, x2, x1, x0, pack_bytes _ _ _ _ lB lG lR]
  omega

/-- C25 (as stated, refuted): for the colour with red 1, green 2, blue 3 and
alpha 4 the wire value is `0x04030201`, alpha then blue, green, red from the
most significant byte down, and not `0x04010203`, the value in the order
(A, R, G, B). -/
theorem toGLColor_sample_is_abgr :
    sampleColor = { red := 1, green := 2, blue := 3, alpha := 4 } ∧
    bits32 sampleColor.toGLColor = 0x04030201 ∧
    (4 * 2 ^ 24 + 1 * 2 ^ 16 + 2 * 2 ^ 8 + 3) % 2 ^ 32 = 0x04010203 ∧
    sampleColor.toGLColor = 67305985 := by
  decide

/-- C25 (amended): for 8-bit channels (r, g, b, a) the 32-bit wire value of
`toGLColor()` holds the channels in the byte order (A, B, G, R), most
significant byte first: it is a·2²⁴ + b·2¹⁶ + g·2⁸ + r, which is below 2³²; it
is the value in the order (A, R, G, B) exactly when red and blue are equal. -/
theorem toGLColor_byte_order (r g b a : Nat) (hr : r < 256) (hg : g < 256) (hb : b < 256)
    (ha : a < 256) :
    bits32 (PhColor.make r g b a).toGLColor = a * 2 ^ 24 + b * 2 ^ 16 + g * 2 ^ 8 + r ∧
    bits32 (PhColor.make r g b a).toGLColor
      = (a * 2 ^ 24 + b * 2 ^ 16 + g * 2 ^ 8 + r) % 2 ^ 32 ∧
    (bits32 (PhColor.make r g b a).toGLColor
      = (a * 2 ^ 24 + r * 2 ^ 16 + g * 2 ^ 8 + b) % 2 ^ 32 ↔ r = b) := by
  have hv : bits32 (PhColor.make r g b a).toGLColor
      = a * 2 ^ 24 + b * 2 ^ 16 + g * 2 ^ 8 + r := by
    rw [toGLColor_bits]
    simp only [PhColor.make]
    omega
  rw [hv]
  refine ⟨rfl, by omega, ?_⟩
  constructor
  · intro h2; omega
  · intro h2; omega

/-- Witness for C25 (amended) at opaque red: the wire value is `0xFF0000FF`. -/
theorem toGLColor_byte_order_witness :
    bits32 (PhColor.make 255 0 0 255).toGLColor = 255 * 2 ^ 24 + 0 * 2 ^ 16 + 0 * 2 ^ 8 + 255 :=
  (toGLColor_byte_order 255 0 0 255 (by decide) (by decide) (by decide) (by decide)).1

/-! ## The determinant of a rotation matrix -/

/-- C30 (what the code does): `getDeterminant()` returns the sum of the diagonal
minus the sum of the other two elements. For the default (identity) matrix that
is 2, while e0·e3 − e1·e2 is 1; for the quarter turn it is 0, while
e0·e3 − e1·e2 is 1; and `getInverse()`, which divides by it, makes half the
identity of the identity. -/
theorem getDeterminant_adds (m : PhRotationMatrix) :
    m.getDeterminant = (m.e0 + m.e3) - (m.e1 + m.e2) ∧
    PhRotationMatrix.default = { e0 := 1, e1 := 0, e2 := 0, e3 := 1 } ∧
    PhRotationMatrix.default.getDeterminant = 2 ∧
    PhRotationMatrix.default.e0 * PhRotationMatrix.default.e3
      - PhRotationMatrix.default.e1 * PhRotationMatrix.default.e2 = 1 ∧
    quarterTurn.getDeterminant = 0 ∧
    quarterTurn.e0 * quarterTurn.e3 - quarterTurn.e1 * quarterTurn.e2 = 1 ∧
    PhRotationMatrix.default.getInverse = { e0 := 1 / 2, e1 := 0, e2 := 0, e3 := 1 / 2 } := by
  refine ⟨rfl, rfl, ?_, ?_, ?_, ?_, ?_⟩
  · norm_num [PhRotationMatrix.getDeterminant, PhRotationMatrix.default]
  · norm_num [PhRotationMatrix.default]
  · norm_num [PhRotationMatrix.getDeterminant, quarterTurn, PhRotationMatrix.ofElements]
  · norm_num [quarterTurn, PhRotationMatrix.ofElements]
  · norm_num [PhRotationMatrix.getInverse, PhRotationMatrix.getDeterminant,
      PhRotationMatrix.default, PhRotationMatrix.mulScalar]

/-! ## The inverse of a rotation matrix -/

theorem mul_getInverse_eq (m : PhRotationMatrix) :
    m.mul m.getInverse
      = PhRotationMatrix.default.mulScalar (m.determinant * (1 / m.getDeterminant)) ∧
    m.getInverse.mul m
      = PhRotationMatrix.default.mulScalar (m.determinant * (1 / m.getDeterminant)) := by
  simp only [PhRotationMatrix.mul, PhRotationMatrix.getInverse, PhRotationMatrix.mulScalar,
    PhRotationMatrix.default, PhRotationMatrix.determinant, PhRotationMatrix.mk.injEq]
  refine ⟨⟨?_, ?_, ?_, ?_⟩, ⟨?_, ?_, ?_, ?_⟩⟩ <;> ring

theorem mulScalar_default_eq_iff (s : ℚ) :
    PhRotationMatrix.default.mulScalar s = PhRotationMatrix.default ↔ s = 1 := by
  simp only [PhRotationMatrix.mulScalar, PhRotationMatrix.default, PhRotationMatrix.mk.injEq]
  constructor
  · intro h
    simpa using h.1
  · intro h
    subst h
    norm_num

theorem ratio_eq_one_iff (d g : ℚ) (hd : d ≠ 0) : d * (1 / g) = 1 ↔ g = d := by
  constructor
  · intro h
    have hg : g ≠ 0 := by
      intro h0
      rw [h0] at h
      norm_num at h
    field_simp at h
    exact h.symm
  · intro h
    subst h
    field_simp

/-- C31 (what the code does): `M * M.getInverse()`, `M.getInverse() * M` and
`M / M` are all the identity scaled by (e0·e3 − e1·e2) / `getDeterminant()`,
where `getDeterminant()` is (e0+e3) − (e1+e2). For a matrix with non-zero
determinant they are the identity exactly when the two numbers agree, as for
twice the identity. For the identity matrix, whose determinant is 1, all three
are half the identity. -/
theorem inverse_scaled_by_determinant_ratio (m : PhRotationMatrix) :
    m.mul m.getInverse
      = PhRotationMatrix.default.mulScalar (m.determinant * (1 / m.getDeterminant)) ∧
    m.getInverse.mul m
      = PhRotationMatrix.default.mulScalar (m.determinant * (1 / m.getDeterminant)) ∧
    m.div m
      = PhRotationMatrix.default.mulScalar (m.determinant * (1 / m.getDeterminant)) ∧
    (m.determinant ≠ 0 →
      ((m.mul m.getInverse = PhRotationMatrix.default ↔ m.getDeterminant = m.determinant) ∧
       (m.getInverse.mul m = PhRotationMatrix.default ↔ m.getDeterminant = m.determinant) ∧
       (m.div m = PhRotationMatrix.default ↔ m.getDeterminant = m.determinant))) ∧
    PhRotationMatrix.default.determinant = 1 ∧
    PhRotationMatrix.default.mul PhRotationMatrix.default.getInverse
      = { e0 := 1 / 2, e1 := 0, e2 := 0, e3 := 1 / 2 } ∧
    PhRotationMatrix.default.getInverse.mul PhRotationMatrix.default
      = { e0 := 1 / 2, e1 := 0, e2 := 0, e3 := 1 / 2 } ∧
    PhRotationMatrix.default.div PhRotationMatrix.default
      = { e0 := 1 / 2, e1 := 0, e2 := 0, e3 := 1 / 2 } ∧
    doubleIdentity.determinant = 4 ∧ doubleIdentity.getDeterminant = 4 ∧
    doubleIdentity.mul doubleIdentity.getInverse = PhRotationMatrix.default := by
  obtain ⟨h1, h2⟩ := mul_getInverse_eq m
  have h3 : m.div m = m.mul m.getInverse := rfl
  refine ⟨h1, h2, h3.trans h1, ?_, ?_, ?_, ?_, ?_, ?_, ?_, ?_⟩
  · intro hd
    rw [h3, h1, h2, mulScalar_default_eq_iff, ratio_eq_one_iff _ _ hd]
    exact ⟨Iff.rfl, Iff.rfl, Iff.rfl⟩
  · norm_num [PhRotationMatrix.determinant, PhRotationMatrix.default]
  · norm_num [PhRotationMatrix.mul, PhRotationMatrix.getInverse,
      PhRotationMatrix.getDeterminant, PhRotationMatrix.default, PhRotationMatrix.mulScalar]
  · norm_num [PhRotationMatrix.mul, PhRotationMatrix.getInverse,
      PhRotationMatrix.getDeterminant, PhRotationMatrix.default, PhRotationMatrix.mulScalar]
  · norm_num [PhRotationMatrix.div, PhRotationMatrix.mul, PhRotationMatrix.getInverse,
      PhRotationMatrix.getDeterminant, PhRotationMatrix.default, PhRotationMatrix.mulScalar]
  · norm_num [PhRotationMatrix.determinant, doubleIdentity, PhRotationMatrix.ofElements]
  · norm_num [PhRotationMatrix.getDeterminant, doubleIdentity, PhRotationMatrix.ofElements]
  · norm_num [PhRotationMatrix.mul, PhRotationMatrix.getInverse,
      PhRotationMatrix.getDeterminant, PhRotationMatrix.default, PhRotationMatrix.mulScalar,
      doubleIdentity, PhRotationMatrix.ofElements]

/-! ## Frames that skip dropped geometry -/

theorem newEvents_trans (w w1 w2 : World) (e1 e2 : List Event)
    (h1 : w1.trace = w.trace ++ e1) (h2 : w2.trace = w1.trace ++ e2) :
    newEvents w w2 = newEvents w w1 ++ newEvents w1 w2 := by
  rw [newEvents_append w w1 e1 h1, newEvents_append w1 w2 e2 h2,
    newEvents_append w w2 (e1 ++ e2) (by rw [h2, h1, List.append_assoc])]

theorem track_quiet (h : Handle) (w w2 : World) (fr : List Event) (s : Step w w2 fr)
    (hb : batchLog fr = []) (hd : w2.isDropped h = w.isDropped h) : Track h w w2 [] where
  step := ⟨fr, s⟩
  log := by
    obtain ⟨es, ht, hf⟩ := s.trace
    rw [newEvents_append w w2 es ht, ← batchLog_filter, hf, hb]
    simp
  dropped := by simp [hd]

theorem track_trans (h : Handle) {w w1 w2 : World} {hs1 hs2 : List Handle}
    (t1 : Track h w w1 hs1) (t2 : Track h w1 w2 hs2) : Track h w w2 (hs1 ++ hs2) := by
  obtain ⟨fr1, s1⟩ := t1.step
  obtain ⟨fr2, s2⟩ := t2.step
  obtain ⟨e1, ht1, _⟩ := s1.trace
  obtain ⟨e2, ht2, _⟩ := s2.trace
  have hc : contribution w1.heap h = contribution w.heap h := contribution_congr _ _ s1.heap h
  have hl1 := t1.log
  have hl2 := t2.log
  have hd1 := t1.dropped
  have hd2 := t2.dropped
  refine { step := ⟨fr1 ++ fr2, step_trans s1 s2⟩, log := ?_, dropped := ?_ }
  · rw [newEvents_trans w w1 w2 e1 e2 ht1 ht2, batchLog_append, List.filter_append, hl1, hl2,
      hd1, hc]
    by_cases hw : w.isDropped h = true
    · simp [hw]
    · have hw2 : w.isDropped h = false := by simpa using hw
      by_cases hm1 : h ∈ hs1
      · simp [hw2, hm1]
      · by_cases hm2 : h ∈ hs2
        · simp [hw2, hm1, hm2]
        · simp [hw2, hm1, hm2]
  · rw [hd2, hd1]
    by_cases hm1 : h ∈ hs1 <;> by_cases hm2 : h ∈ hs2 <;> simp [hm1, hm2]

theorem track_immediate (h : Handle) {w w2 : World} {hs : List Handle} (t : Track h w w2 hs)
    (hi : w.isImmediate h = true) : w2.isImmediate h = true := by
  obtain ⟨fr, s⟩ := t.step
  rw [isImmediate_congr _ _ s.heap]
  exact hi

theorem track_foldl {E : Type} (h : Handle) (f : DrawState → E → DrawState)
    (H : E → List Handle)
    (hf : ∀ st e, st.world.isImmediate h = true → Track h st.world (f st e).world (H e))
    (l : List E) (st : DrawState) (hi : st.world.isImmediate h = true) :
    Track h st.world (l.foldl f st).world ((l.map H).flatten) := by
  induction l generalizing st with
  | nil => exact track_quiet h _ _ [] (step_refl _) rfl rfl
  | cons e l ih =>
    simp only [List.foldl_cons, List.map_cons, List.flatten_cons]
    have t1 := hf st e hi
    exact track_trans h t1 (ih (f st e) (track_immediate h t1 hi))

theorem groupBegin_heap (w : World) (x : Handle) : (groupBegin x w).heap = w.heap := by
  cases hg : w.heap[x]? with
  | none => simp [groupBegin, hg]
  | some g => cases hf : g.groupbegin <;> simp [groupBegin, hg, hf, World.emit]

theorem groupEnd_heap (w : World) (x : Handle) : (groupEnd x w).heap = w.heap := by
  cases hg : w.heap[x]? with
  | none => simp [groupEnd, hg]
  | some g => cases hf : g.groupend <;> simp [groupEnd, hg, hf, World.emit]

theorem batch_heap_ne (w : World) (x h : Handle) (L : List Vertex) (hne : h ≠ x) :
    (batch x w L).1.heap[h]? = w.heap[h]? := by
  cases hg : w.heap[x]? with
  | none => simp [batch, hg]
  | some g =>
    rw [batch_heap w x g L hg]
    exact List.getElem?_set_ne (fun h2 => hne h2.symm)

theorem drawGeometry_isDropped_ne (st : DrawState) (x h : Handle) (hne : h ≠ x) :
    (drawGeometry st x).world.isDropped h = st.world.isDropped h := by
  have hw1 : (if st.firstInGroup then groupBegin x (st.world.emit (Event.groupBegin x))
      else st.world).heap = st.world.heap := by
    cases st.firstInGroup with
    | false => rfl
    | true => simp only [if_true]; rw [groupBegin_heap]; rfl
  have hh : (drawGeometry st x).world.heap[h]? = st.world.heap[h]? := by
    have he : ∀ (w : World) (e : Event), (w.emit e).heap = w.heap := fun _ _ => rfl
    simp only [drawGeometry, he]
    rw [batch_heap_ne _ x h _ hne, hw1]
  simp only [World.isDropped, hh]

theorem track_drawGeometryLive (h : Handle) (st : DrawState) (x : Handle)
    (hi : st.world.isImmediate h = true) :
    Track h st.world (drawGeometryLive st x).world [x] := by
  unfold drawGeometryLive
  by_cases hx : st.world.isDropped x = true
  · rw [if_pos hx]
    refine { step := ⟨[], step_refl _⟩, log := ?_, dropped := ?_ }
    · have : newEvents st.world st.world = [] := by simp [newEvents]
      rw [this]
      by_cases hhx : h = x
      · subst hhx; simp [hx, batchLog]
      · simp [hhx, batchLog]
    · by_cases hhx : h = x
      · subst hhx; simp [hx]
      · simp [hhx]
  · rw [if_neg hx]
    have hx2 : st.world.isDropped x = false := by simpa using hx
    have V := visits_drawGeometry st x
    obtain ⟨es, ht, hf⟩ := V.step.trace
    have hlog : batchLog (newEvents st.world (drawGeometry st x).world)
        = [(x, contribution st.world.heap x)] := by
      rw [newEvents_append _ _ es ht, ← batchLog_filter, hf]
      cases st.firstInGroup <;> simp [visitFrame, batchLog]
    refine { step := ⟨_, V.step⟩, log := ?_, dropped := ?_ }
    · rw [hlog]
      by_cases hhx : h = x
      · subst hhx; simp [hx2]
      · have hxh : ¬ x = h := fun h2 => hhx h2.symm
        simp [hhx, hxh]
    · by_cases hhx : h = x
      · subst hhx
        rw [V.immediate h (by simp) hi]
        simp
      · rw [drawGeometry_isDropped_ne st x h hhx]
        simp [hhx]

theorem track_drawAlphaLive (h : Handle) (st : DrawState) (e : Nat × GEOMCONTAINER)
    (hi : st.world.isImmediate h = true) :
    Track h st.world (drawAlphaLive st e).world e.2 := by
  have t1 := track_foldl h drawGeometryLive (fun x => [x])
    (fun s x hs => track_drawGeometryLive h s x hs) e.2 { st with scratch := [] } hi
  rw [flatten_map_singleton] at t1
  simp only [drawAlphaLive]
  generalize List.foldl drawGeometryLive { st with scratch := [] } e.2 = st1 at t1 ⊢
  by_cases hs : (!st1.scratch.isEmpty) = true
  · rw [if_pos hs]
    have t2 : Track h st1.world (st1.world.emit (Event.drawPrimitive e.1 st1.scratch)) [] :=
      track_quiet h _ _ _ (step_emit st1.world (Event.drawPrimitive e.1 st1.scratch))
        (by simp [Event.isFrame, batchLog]) rfl
    have t3 := track_trans h t1 t2
    rw [List.append_nil] at t3
    exact t3
  · rw [if_neg hs]; exact t1

theorem track_drawBetaLive (h : Handle) (st : DrawState) (e : Nat × BATCHMAPALPHA)
    (hi : st.world.isImmediate h = true) :
    Track h st.world (drawBetaLive st e).world (alphaHandles e.2) := by
  have t0 : Track h st.world (st.world.emit (Event.bindTexture e.1)) [] :=
    track_quiet h _ _ _ (step_emit st.world (Event.bindTexture e.1))
      (by simp [Event.isFrame, batchLog]) rfl
  have t1 := track_foldl h drawAlphaLive (fun a => a.2)
    (fun s a hs => track_drawAlphaLive h s a hs) e.2
    { st with world := st.world.emit (Event.bindTexture e.1) } (track_immediate h t0 hi)
  have t2 := track_trans h t0 t1
  rw [List.nil_append] at t2
  exact t2

theorem track_drawGammaLive (h : Handle) (st : DrawState) (e : Int × BATCHMAPBETA)
    (hi : st.world.isImmediate h = true) :
    Track h st.world (drawGammaLive st e).world (betaHandles e.2) := by
  have t1 := track_foldl h drawBetaLive (fun b => alphaHandles b.2)
    (fun s b hs => track_drawBetaLive h s b hs) e.2
    { st with firstInGroup := true, lastOfGroup := none } hi
  have hb : ((e.2.map (fun b => alphaHandles b.2)).flatten) = betaHandles e.2 := rfl
  rw [hb] at t1
  simp only [drawGammaLive]
  generalize List.foldl drawBetaLive { st with firstInGroup := true, lastOfGroup := none } e.2
    = st1 at t1 ⊢
  cases hf : st1.firstInGroup with
  | true => simpa using t1
  | false =>
    cases hl : st1.lastOfGroup with
    | none => simpa using t1
    | some x =>
      simp only [Bool.not_false, if_true]
      have s2 := step_trans (step_emit st1.world (Event.groupEnd x))
        (groupEnd_step (st1.world.emit (Event.groupEnd x)) x)
      have t2 : Track h st1.world (groupEnd x (st1.world.emit (Event.groupEnd x))) [] := by
        refine track_quiet h _ _ _ s2 (by simp [Event.isFrame, batchLog]) ?_
        simp only [World.isDropped, groupEnd_heap]
        rfl
      have t3 := track_trans h t1 t2
      rw [List.append_nil] at t3
      exact t3

theorem track_drawDeltaLive (h : Handle) (st : DrawState) (e : Depth × BATCHMAPGAMMA)
    (hi : st.world.isImmediate h = true) :
    Track h st.world (drawDeltaLive st e).world (gammaHandles e.2) :=
  track_foldl h drawGammaLive (fun g => betaHandles g.2)
    (fun s g hs => track_drawGammaLive h s g hs) e.2 st hi

theorem track_drawLive (h : Handle) (w : World) (hi : w.isImmediate h = true) :
    Track h w (drawLive w) (graphHandles w.renderer.geometry) :=
  track_foldl h drawDeltaLive (fun d => gammaHandles d.2)
    (fun s d hs => track_drawDeltaLive h s d hs) w.renderer.geometry
    { world := w, scratch := [], firstInGroup := true, lastOfGroup := none } hi

theorem runOps_cons (op : FrameOp) (ops : List FrameOp) (w : World) :
    runOps (op :: ops) w = runOps ops (op.run w) := rfl

theorem runOps_append (a b : List FrameOp) (w : World) :
    runOps (a ++ b) w = runOps b (runOps a w) := by
  simp [runOps, List.foldl_append]

theorem dropped_immediate_run (h : Handle) (op : FrameOp) (w : World)
    (hd : w.isDropped h = true) (hi : w.isImmediate h = true) :
    (op.run w).isDropped h = true ∧ (op.run w).isImmediate h = true := by
  cases op with
  | draw =>
    have T := track_drawLive h w hi
    exact ⟨by rw [FrameOp.run, T.dropped, hd]; rfl, track_immediate h T hi⟩
  | prune => exact ⟨hd, hi⟩

theorem dropped_immediate_runOps (h : Handle) (ops : List FrameOp) (w : World)
    (hd : w.isDropped h = true) (hi : w.isImmediate h = true) :
    (runOps ops w).isDropped h = true ∧ (runOps ops w).isImmediate h = true := by
  induction ops generalizing w with
  | nil => exact ⟨hd, hi⟩
  | cons op ops ih =>
    rw [runOps_cons]
    obtain ⟨h1, h2⟩ := dropped_immediate_run h op w hd hi
    exact ih _ h1 h2

theorem drawLive_skips_dropped (h : Handle) (w : World) (hd : w.isDropped h = true)
    (hi : w.isImmediate h = true) :
    (batchLog (newEvents w (drawLive w))).filter (fun p => decide (p.1 = h)) = [] := by
  rw [(track_drawLive h w hi).log]
  simp [hd]

theorem graphCount_zero_run (h : Handle) (op : FrameOp) (w : World)
    (hi : w.isImmediate h = true) (h0 : graphCount h w.renderer.geometry = 0) :
    graphCount h (op.run w).renderer.geometry = 0 ∧ (op.run w).isImmediate h = true := by
  cases op with
  | draw =>
    have T := track_drawLive h w hi
    obtain ⟨fr, s⟩ := T.step
    refine ⟨?_, track_immediate h T hi⟩
    rw [FrameOp.run, s.graph]
    exact h0
  | prune => exact ⟨prune_keeps_zero w.heap h w.renderer.recyclelist w.renderer.geometry h0, hi⟩

theorem graphCount_zero_runOps (h : Handle) (ops : List FrameOp) (w : World)
    (hi : w.isImmediate h = true) (h0 : graphCount h w.renderer.geometry = 0) :
    graphCount h (runOps ops w).renderer.geometry = 0 := by
  induction ops generalizing w with
  | nil => exact h0
  | cons op ops ih =>
    rw [runOps_cons]
    obtain ⟨h1, h2⟩ := graphCount_zero_run h op w hi h0
    exact ih _ h2 h1

/-- What the draws that come before the next sweep keep of a dropped immediate
geometry `h` of the world `w`: flags, last-observed keys, its place in the
graph and its entry on the recycle list. -/
theorem waiting_replicate_draw (h : Handle) (w : World) (n : Nat) (w1 : World)
    (hd : w1.isDropped h = true) (hi : w1.isImmediate h = true)
    (hh : w1.heap.map forgetDropped = w.heap.map forgetDropped)
    (hr : h ∈ w1.renderer.recyclelist) (hG : w1.renderer.geometry = w.renderer.geometry) :
    (runOps (List.replicate n FrameOp.draw) w1).heap.map forgetDropped
      = w.heap.map forgetDropped ∧
    h ∈ (runOps (List.replicate n FrameOp.draw) w1).renderer.recyclelist ∧
    (runOps (List.replicate n FrameOp.draw) w1).renderer.geometry = w.renderer.geometry ∧
    (runOps (List.replicate n FrameOp.draw) w1).isImmediate h = true := by
  induction n generalizing w1 with
  | zero => exact ⟨hh, hr, hG, hi⟩
  | succ n ih =>
    rw [List.replicate_succ, runOps_cons]
    have T := track_drawLive h w1 hi
    obtain ⟨fr, s⟩ := T.step
    have hd2 : (drawLive w1).isDropped h = true := by rw [T.dropped, hd]; rfl
    exact ih (drawLive w1) hd2 (track_immediate h T hi) (s.heap.trans hh)
      (s.recycled h (fun _ => hr) hd2) (s.graph.trans hG)

/-- C8: an enabled immediate geometry with N vertices that is live and registered
once in the graph, at the bucket of its last-observed keys: the next draw
batches it once, contributes exactly its N vertices and leaves it dropped and
on the recycle list; no later draw batches it, whatever frames and sweeps
come in between; after the next sweep, whatever number of frames comes
before it, it is not in the graph, and it stays out of it. The draw is the
spec's loop with dropped geometries passed over. -/
theorem immediate_drawn_once (w : World) (h : Handle) (g : BatchGeometry)
    (hg : w.heap[h]? = some g) (he : g.enabled = true) (hi : g.immediate = true)
    (hd : g.dropped = false)
    (hreg : (bucketAt w.renderer.geometry g.previousKey).count h = 1)
    (huniq : (graphHandles w.renderer.geometry).count h = 1) :
    (batchLog (newEvents w (drawLive w))).filter (fun p => decide (p.1 = h))
      = [(h, g.vertices)] ∧
    (drawLive w).isDropped h = true ∧
    h ∈ (drawLive w).renderer.recyclelist ∧
    (∀ ops : List FrameOp,
      (batchLog (newEvents (runOps ops (drawLive w))
        (drawLive (runOps ops (drawLive w))))).filter (fun p => decide (p.1 = h)) = []) ∧
    (∀ (n : Nat) (ops : List FrameOp),
      h ∉ graphHandles (runOps (List.replicate n FrameOp.draw ++ FrameOp.prune :: ops)
        (drawLive w)).renderer.geometry) := by
  have hi0 : w.isImmediate h = true := by simp [World.isImmediate, hg, hi]
  have hd0 : w.isDropped h = false := by simp [World.isDropped, hg, hd]
  have hc : contribution w.heap h = g.vertices := by simp [contribution, hg, he]
  have hmemG : h ∈ graphHandles w.renderer.geometry := List.count_pos_iff.1 (by omega)
  have T := track_drawLive h w hi0
  obtain ⟨fr, s⟩ := T.step
  have hdr : (drawLive w).isDropped h = true := by
    rw [T.dropped, hd0]
    simp [hmemG]
  have hi1 : (drawLive w).isImmediate h = true := track_immediate h T hi0
  have hrl : h ∈ (drawLive w).renderer.recyclelist :=
    s.recycled h (fun hx => by rw [hd0] at hx; cases hx) hdr
  refine ⟨?_, hdr, hrl, ?_, ?_⟩
  · rw [T.log, hc]
    simp [hd0, hmemG]
  · intro ops
    obtain ⟨h1, h2⟩ := dropped_immediate_runOps h ops (drawLive w) hdr hi1
    exact drawLive_skips_dropped h _ h1 h2
  · intro n ops
    obtain ⟨k1, k2, k3, k4⟩ :=
      waiting_replicate_draw h w n (drawLive w) hdr hi1 s.heap hrl s.graph
    rw [runOps_append, runOps_cons]
    generalize runOps (List.replicate n FrameOp.draw) (drawLive w) = w2 at k1 k2 k3 k4 ⊢
    obtain ⟨g2, hg2, hk2⟩ := previousKey_congr w.heap w2.heap k1.symm h g hg
    have hgc : graphCount h w2.renderer.geometry = 1 := by
      rw [k3, ← graphHandles_count]; exact huniq
    have hb : (bucketAt w2.renderer.geometry g2.previousKey).count h = 1 := by
      rw [k3, hk2]; exact hreg
    have h0 : graphCount h (pruneGeometry w2).renderer.geometry = 0 :=
      prune_removes w2.heap h g2 hg2 w2.renderer.recyclelist w2.renderer.geometry
        (Or.inr ⟨hgc, hb⟩) k2
    have h1 := graphCount_zero_runOps h ops (pruneGeometry w2) k4 h0
    intro hmem
    have hpos := List.count_pos_iff.2 hmem
    rw [graphHandles_count] at hpos
    have : graphCount h (runOps ops (FrameOp.run FrameOp.prune w2)).renderer.geometry = 0 := h1
    omega

/-- Witness for C8 at one immediate geometry with two vertices: drawn once, not
drawn by a second frame, gone from the graph after the sweep. -/
theorem immediate_drawn_once_witness :
    (batchLog (newEvents immediateWorld (drawLive immediateWorld))).filter
      (fun p => decide (p.1 = 0)) = [(0, [vertexA, vertexB])] ∧
    (drawLive immediateWorld).isDropped 0 = true ∧
    (batchLog (newEvents (drawLive immediateWorld)
      (drawLive (drawLive immediateWorld)))).filter (fun p => decide (p.1 = 0)) = [] ∧
    0 ∉ graphHandles (pruneGeometry (drawLive immediateWorld)).renderer.geometry :=
  ⟨(immediate_drawn_once immediateWorld 0 immediateGeometry (by decide) (by decide)
      (by decide) (by decide) (by decide) (by decide)).1,
    (immediate_drawn_once immediateWorld 0 immediateGeometry (by decide) (by decide)
      (by decide) (by decide) (by decide) (by decide)).2.1,
    (immediate_drawn_once immediateWorld 0 immediateGeometry (by decide) (by decide)
      (by decide) (by decide) (by decide) (by decide)).2.2.2.1 [],
    (immediate_drawn_once immediateWorld 0 immediateGeometry (by decide) (by decide)
      (by decide) (by decide) (by decide) (by decide)).2.2.2.2 0 []⟩

/-! ## Where the two readings of the draw loop agree -/

theorem calm_of_heap_eq (w w2 : World) (hs : List Handle) (hh : w2.heap = w.heap)
    (hc : Calm w hs) : Calm w2 hs := by
  intro x hx
  have := hc x hx
  simpa [World.isDropped, World.isImmediate, hh] using this

theorem calm_append (w : World) (a b : List Handle) (hc : Calm w (a ++ b)) :
    Calm w a ∧ Calm w b :=
  ⟨fun x hx => hc x (List.mem_append_left _ hx), fun x hx => hc x (List.mem_append_right _ hx)⟩

theorem batch_heap_of_not_immediate (w : World) (x : Handle) (L : List Vertex)
    (hi : w.isImmediate x = false) : (batch x w L).1.heap = w.heap := by
  cases hg : w.heap[x]? with
  | none => simp [batch, hg]
  | some g =>
    have hi2 : g.immediate = false := by simpa [World.isImmediate, hg] using hi
    rw [batch_heap w x g L hg]
    have hgg : { g with dropped := g.dropped || g.immediate } = g := by
      cases g
      simp only [] at hi2
      simp [hi2]
    rw [hgg, set_self_of_some _ _ _ hg]

theorem drawGeometry_heap_of_not_immediate (st : DrawState) (x : Handle)
    (hi : st.world.isImmediate x = false) : (drawGeometry st x).world.heap = st.world.heap := by
  have he : ∀ (w : World) (e : Event), (w.emit e).heap = w.heap := fun _ _ => rfl
  have hw1 : (if st.firstInGroup then groupBegin x (st.world.emit (Event.groupBegin x))
      else st.world).heap = st.world.heap := by
    cases st.firstInGroup with
    | false => rfl
    | true => simp only [if_true]; rw [groupBegin_heap]; rfl
  simp only [drawGeometry, he]
  rw [batch_heap_of_not_immediate _ x _ (by simpa [World.isImmediate, hw1] using hi), hw1]

theorem foldl_agree {E : Type} (f g : DrawState → E → DrawState) (H : E → List Handle)
    (hfg : ∀ st e, Calm st.world (H e) →
      f st e = g st e ∧ (g st e).world.heap = st.world.heap)
    (l : List E) (st : DrawState) (hc : Calm st.world ((l.map H).flatten)) :
    l.foldl f st = l.foldl g st ∧ (l.foldl g st).world.heap = st.world.heap := by
  induction l generalizing st with
  | nil => exact ⟨rfl, rfl⟩
  | cons e l ih =>
    simp only [List.map_cons, List.flatten_cons] at hc
    obtain ⟨c1, c2⟩ := calm_append _ _ _ hc
    obtain ⟨h1, h2⟩ := hfg st e c1
    obtain ⟨h3, h4⟩ := ih (g st e) (calm_of_heap_eq _ _ _ h2 c2)
    simp only [List.foldl_cons]
    rw [h1]
    exact ⟨h3, h4.trans h2⟩

theorem drawGeometryLive_agree (st : DrawState) (x : Handle) (hc : Calm st.world [x]) :
    drawGeometryLive st x = drawGeometry st x ∧
    (drawGeometry st x).world.heap = st.world.heap := by
  obtain ⟨h1, h2⟩ := hc x (by simp)
  refine ⟨?_, drawGeometry_heap_of_not_immediate st x h2⟩
  simp [drawGeometryLive, h1]

theorem drawAlphaLive_agree (st : DrawState) (e : Nat × GEOMCONTAINER)
    (hc : Calm st.world e.2) :
    drawAlphaLive st e = drawAlpha st e ∧ (drawAlpha st e).world.heap = st.world.heap := by
  have hc2 : Calm ({ st with scratch := [] } : DrawState).world
      ((e.2.map (fun x => [x])).flatten) := by
    rw [flatten_map_singleton]; exact hc
  obtain ⟨h1, h2⟩ := foldl_agree drawGeometryLive drawGeometry (fun x => [x])
    drawGeometryLive_agree e.2 { st with scratch := [] } hc2
  simp only [drawAlphaLive, drawAlpha, h1]
  refine ⟨trivial, ?_⟩
  split
  · exact h2
  · exact h2

theorem drawBetaLive_agree (st : DrawState) (e : Nat × BATCHMAPALPHA)
    (hc : Calm st.world (alphaHandles e.2)) :
    drawBetaLive st e = drawBeta st e ∧ (drawBeta st e).world.heap = st.world.heap := by
  obtain ⟨h1, h2⟩ := foldl_agree drawAlphaLive drawAlpha (fun a => a.2)
    drawAlphaLive_agree e.2 { st with world := st.world.emit (Event.bindTexture e.1) }
    (calm_of_heap_eq st.world _ _ rfl hc)
  exact ⟨h1, h2⟩

theorem drawGammaLive_agree (st : DrawState) (e : Int × BATCHMAPBETA)
    (hc : Calm st.world (betaHandles e.2)) :
    drawGammaLive st e = drawGamma st e ∧ (drawGamma st e).world.heap = st.world.heap := by
  obtain ⟨h1, h2⟩ := foldl_agree drawBetaLive drawBeta (fun b => alphaHandles b.2)
    drawBetaLive_agree e.2 { st with firstInGroup := true, lastOfGroup := none } hc
  simp only [drawGammaLive, drawGamma, h1]
  refine ⟨trivial, ?_⟩
  generalize List.foldl drawBeta { st with firstInGroup := true, lastOfGroup := none } e.2
    = st1 at h2 ⊢
  cases hf : st1.firstInGroup with
  | true => simpa using h2
  | false =>
    cases hl : st1.lastOfGroup with
    | none => simpa using h2
    | some x =>
      simp only [Bool.not_false, if_true]
      rw [groupEnd_heap]
      exact h2

theorem drawDeltaLive_agree (st : DrawState) (e : Depth × BATCHMAPGAMMA)
    (hc : Calm st.world (gammaHandles e.2)) :
    drawDeltaLive st e = drawDelta st e ∧ (drawDelta st e).world.heap = st.world.heap :=
  foldl_agree drawGammaLive drawGamma (fun g => betaHandles g.2) drawGammaLive_agree e.2 st hc

/-- On a graph none of whose geometries is dropped or immediate, the draw loop
that passes over dropped geometries and the loop that does not are the same
frame. -/
theorem drawLive_eq_draw (w : World) (hc : Calm w (graphHandles w.renderer.geometry)) :
    drawLive w = draw w := by
  have := (foldl_agree drawDeltaLive drawDelta (fun d => gammaHandles d.2) drawDeltaLive_agree
    w.renderer.geometry
    { world := w, scratch := [], firstInGroup := true, lastOfGroup := none } hc).1
  simp only [drawLive, draw, this]

theorem calm_of_heapAll (w : World) (hs : List Handle)
    (hw : HeapAll (fun g => g.dropped = false ∧ g.immediate = false) w) : Calm w hs := by
  intro x _
  unfold World.isDropped World.isImmediate
  cases hg : w.heap[x]? with
  | none => exact ⟨rfl, rfl⟩
  | some g => exact hw g (List.getElem?_mem hg)

theorem heapAll_createAll (P : BatchGeometry → Prop)
    (hn : ∀ p t g d, P (BatchGeometry.new p t g d)) (cs : List CreateArgs) (w : World)
    (hw : HeapAll P w) : HeapAll P (createAll cs w) := by
  induction cs generalizing w with
  | nil => exact hw
  | cons c cs ih =>
    have hstep : createAll (c :: cs) w
        = createAll cs (create c.primitive c.texture c.group c.depth w).2 := rfl
    rw [hstep]
    apply ih
    exact heapAll_append P w _ (hn c.primitive c.texture c.group c.depth) hw _
      (by rw [create_eq])

/-- After any sequence of creations the two readings of the draw loop are the
same frame: every geometry is as the factory made it, neither dropped nor
immediate. -/
theorem drawLive_eq_draw_after_creations (cs : List CreateArgs) :
    drawLive (createAll cs World.empty) = draw (createAll cs World.empty) := by
  apply drawLive_eq_draw
  apply calm_of_heapAll
  apply heapAll_createAll
  · intro p t g d
    exact ⟨rfl, rfl⟩
  · intro g hg
    simp [World.empty] at hg

end Phoenix
